import Mathlib

/-!
# Stereo feature validation of StVO-PL (`src/stereoFrame.cpp`)

A shallow embedding of `StereoFrame::extractInitialStereoFeatures`,
`StereoFrame::extractStereoFeatures` and `StereoFrame::lineDescriptorMAD`.

Conventions of the embedding.

* Numbers are rationals; the type `Fl` has the IEEE outcomes `+inf`, `-inf`
  and `NaN` next to the finite values.
* The point loop computes in `float`: the quotient of source lines 105 / 312
  and the differences of source lines 109, 112 / 316, 319 are rounded to IEEE
  binary32 (`f32`, round to nearest even, overflow to infinity).
* The line block computes in `double` on `float` inputs.  Its arithmetic on
  finite values is exact in the embedding; a division by zero has its IEEE
  outcome (`fdiv`) and non-finite values are carried on as IEEE arithmetic
  carries them (`Fl.add`, `Fl.mul`, `Fl.div`).
* An out-of-range subscript `v[i]` (`i` outside `0 .. size-1`) is undefined
  behaviour in the source and `Mat::row` of a missing row fails an OpenCV
  assertion; the embedding returns `none` for the whole call.
* A line candidate that passes the disparity and coefficient test of source
  lines 226 / 432 with a non-finite end-point disparity (the right line is
  horizontal, `le_r(0) = 0`, and `Config::lineHorizTh()` is negative) is stored
  with that disparity, which is also what `backProjection` and the covariance
  receive.
* The local `nn_dist_median` of `lineDescriptorMAD` is read uninitialised; its
  content is an input of the embedding (`Extern.nn_dist_median`).  An `Extern`
  describes the environment of one call: two calls that read different
  contents are described by two values of `Extern`.
* OpenCV detectors and matchers, `Eigen::SelfAdjointEigenSolver`, `sqrt`,
  `angDiff` and the camera's `backProjection` are collaborators outside the
  file; they are fields of `Extern` / `PinholeStereoCamera`.
-/

namespace StVO

/-! ## Numbers -/

/-- Result of a floating-point operation that may be non-finite. -/
inductive Fl where
  | fin (q : ℚ)
  | pinf
  | ninf
  | nan
  deriving DecidableEq

/-- IEEE quotient `a / b` of two finite numbers, exact when `b ≠ 0`.  Every zero
divisor occurring in the source is a `+0.0` (a difference of equal numbers, a
product of squares, a Hamming distance). -/
def fdiv (a b : ℚ) : Fl :=
  if b = 0 then (if 0 < a then Fl.pinf else if a < 0 then Fl.ninf else Fl.nan)
  else Fl.fin (a / b)

/-- IEEE difference `x - y` with `x` finite. -/
def Fl.rsub (x : ℚ) : Fl → Fl
  | Fl.fin q => Fl.fin (x - q)
  | Fl.pinf => Fl.ninf
  | Fl.ninf => Fl.pinf
  | Fl.nan => Fl.nan

/-- IEEE comparison `a < b`. -/
def Fl.lt : Fl → Fl → Bool
  | Fl.fin a, Fl.fin b => decide (a < b)
  | Fl.fin _, Fl.pinf => true
  | Fl.ninf, Fl.fin _ => true
  | Fl.ninf, Fl.pinf => true
  | _, _ => false

/-- IEEE comparison `a <= b`. -/
def Fl.le : Fl → Fl → Bool
  | Fl.fin a, Fl.fin b => decide (a ≤ b)
  | Fl.fin _, Fl.pinf => true
  | Fl.ninf, Fl.fin _ => true
  | Fl.ninf, Fl.pinf => true
  | Fl.pinf, Fl.pinf => true
  | Fl.ninf, Fl.ninf => true
  | _, _ => false

/-- `std::max(a, b)` on doubles: `(a < b) ? b : a`. -/
def Fl.max (a b : Fl) : Fl := if Fl.lt a b then b else a

/-- IEEE absolute value (`fabsf`, `fabs`). -/
def Fl.abs : Fl → Fl
  | Fl.fin q => Fl.fin |q|
  | Fl.pinf => Fl.pinf
  | Fl.ninf => Fl.pinf
  | Fl.nan => Fl.nan

/-- IEEE sum `a + b`, exact on finite values. -/
def Fl.add : Fl → Fl → Fl
  | Fl.fin a, Fl.fin b => Fl.fin (a + b)
  | Fl.nan, _ => Fl.nan
  | _, Fl.nan => Fl.nan
  | Fl.pinf, Fl.ninf => Fl.nan
  | Fl.ninf, Fl.pinf => Fl.nan
  | Fl.pinf, _ => Fl.pinf
  | Fl.ninf, _ => Fl.ninf
  | Fl.fin _, Fl.pinf => Fl.pinf
  | Fl.fin _, Fl.ninf => Fl.ninf

/-- The infinity with the sign of `a`, `NaN` for `a = 0`: the IEEE product of
`a` and `+inf`. -/
def Fl.signedInf (a : ℚ) : Fl :=
  if 0 < a then Fl.pinf else if a < 0 then Fl.ninf else Fl.nan

/-- IEEE product `a * b`, exact on finite values. -/
def Fl.mul : Fl → Fl → Fl
  | Fl.fin a, Fl.fin b => Fl.fin (a * b)
  | Fl.nan, _ => Fl.nan
  | _, Fl.nan => Fl.nan
  | Fl.fin a, Fl.pinf => Fl.signedInf a
  | Fl.fin a, Fl.ninf => Fl.signedInf (-a)
  | Fl.pinf, Fl.fin b => Fl.signedInf b
  | Fl.ninf, Fl.fin b => Fl.signedInf (-b)
  | Fl.pinf, Fl.pinf => Fl.pinf
  | Fl.ninf, Fl.ninf => Fl.pinf
  | Fl.pinf, Fl.ninf => Fl.ninf
  | Fl.ninf, Fl.pinf => Fl.ninf

/-- IEEE quotient `a / b`; `fdiv` on finite values, a zero divisor being `+0.0`. -/
def Fl.div : Fl → Fl → Fl
  | Fl.fin a, Fl.fin b => fdiv a b
  | Fl.fin _, Fl.pinf => Fl.fin 0
  | Fl.fin _, Fl.ninf => Fl.fin 0
  | Fl.pinf, Fl.fin b => if 0 ≤ b then Fl.pinf else Fl.ninf
  | Fl.ninf, Fl.fin b => if 0 ≤ b then Fl.ninf else Fl.pinf
  | _, _ => Fl.nan

/-- The integer nearest to `x`, a tie going to the even one. -/
def roundNE (x : ℚ) : ℤ :=
  if x - ⌊x⌋ < 1 / 2 then ⌊x⌋
  else if 1 / 2 < x - ⌊x⌋ then ⌊x⌋ + 1
  else if ⌊x⌋ % 2 = 0 then ⌊x⌋ else ⌊x⌋ + 1

/-- The `float` nearest to the real number `x` (IEEE binary32, round to nearest,
ties to even): 24 significant bits, the exponent of the leading bit not below
`-126` (smaller numbers are subnormal), and `±inf` when the rounded magnitude
reaches `2^128`. -/
def f32 (x : ℚ) : Fl :=
  let e : ℤ := max (Int.log 2 |x|) (-126)
  let q : ℚ := 2 ^ (e - 23)
  let y : ℚ := roundNE (x / q) * q
  if (2 : ℚ) ^ (128 : ℤ) ≤ |y| then (if 0 < x then Fl.pinf else Fl.ninf) else Fl.fin y

/-- The `float` difference `a - b` of two `float`s. -/
def f32sub (a b : ℚ) : Fl := f32 (a - b)

/-- The `float` quotient `a / b` of two `float`s. -/
def f32div (a b : ℚ) : Fl :=
  match fdiv a b with
  | Fl.fin q => f32 q
  | r => r

/-! ## Data model -/

/-- `cv::DMatch`. -/
structure DMatch where
  queryIdx : Int
  trainIdx : Int
  distance : ℚ
  deriving DecidableEq

/-- `cv::KeyPoint` (the fields read by the verifier: `pt.x`, `pt.y`). -/
structure KeyPoint where
  x : ℚ
  y : ℚ
  deriving DecidableEq

/-- `cv::line_descriptor::KeyLine` (the fields read by the verifier). -/
structure KeyLine where
  startPointX : ℚ
  startPointY : ℚ
  endPointX : ℚ
  endPointY : ℚ
  angle : ℚ
  lineLength : ℚ
  deriving DecidableEq

/-- One descriptor (a row of a `cv::Mat`). -/
abbrev Row := List Nat

/-- Descriptor matrix, one row per detection. -/
abbrev Mat := List Row

/-- Input image. -/
abbrev Image := List (List Nat)

/-- `Eigen::Vector2d`. -/
structure Vector2d where
  x : ℚ
  y : ℚ
  deriving DecidableEq

/-- `Eigen::Vector3d` whose components may be non-finite. -/
structure Vector3dX where
  x : Fl
  y : Fl
  z : Fl
  deriving DecidableEq

/-- `Eigen::Matrix3d` whose entries may be non-finite. -/
abbrev Matrix3d := Fin 3 → Fin 3 → Fl

/-- `PointFeature(pl, disp, P, idx)`. -/
structure PointFeature where
  pl : Vector2d
  disp : Fl
  P : Vector3dX
  idx : Int
  deriving DecidableEq

/-- `LineFeature(spl, sdisp, sP, epl, edisp, eP, le, angle, idx)`. -/
structure LineFeature where
  spl : Vector2d
  sdisp : Fl
  sP : Vector3dX
  epl : Vector2d
  edisp : Fl
  eP : Vector3dX
  le : Vector3dX
  angle : ℚ
  idx : Int
  deriving DecidableEq

/-- The `Config::...()` values read by the two extraction methods. -/
structure Config where
  hasPoints : Bool
  hasLines : Bool
  lrInParallel : Bool
  bestLRMatches : Bool
  useBFMLines : Bool
  minLineLength : ℚ
  minRatio12P : ℚ
  maxDistEpip : ℚ
  minDisp : ℚ
  descThL : ℚ
  minHorizAngle : ℚ
  maxAngleDiff : ℚ
  lineHorizTh : ℚ
  lineCovTh : ℚ

/-- `PinholeStereoCamera`: the getters used here and `backProjection`, whose
body is not part of the file. -/
structure PinholeStereoCamera where
  width : ℚ
  height : ℚ
  cx : ℚ
  cy : ℚ
  fx : ℚ
  b : ℚ
  backProjection : ℚ → ℚ → Fl → Vector3dX

/-- Collaborators outside the file and the one indeterminate value the file
reads, as one call of an extraction method meets them.

* `detectPoints img`: keypoints and descriptors of the configured point
  detector (`BRISK` or `ORB`, `detectAndCompute`).
* `detectLines img min_line_length`: key-lines and descriptors of the configured
  line detector (`EDLines` or `LSD`, followed by `lbd->compute`).
* `bfm_knnMatch`, `bdm_knnMatch`: `knnMatch(query, train, matches, 2)` of the
  `BFMatcher` and of the `BinaryDescriptorMatcher`.
* `maxEigenvalue m`: `SelfAdjointEigenSolver<Matrix3d>(m).eigenvalues()(2)`.
* `nn_dist_median`: the content of the local `double nn_dist_median` of
  `lineDescriptorMAD`, which is read without ever being written.  It belongs
  to the call: another call may read another content, and is then described by
  another `Extern`. -/
structure Extern where
  detectPoints : Image → List KeyPoint × Mat
  detectLines : Image → ℚ → List KeyLine × Mat
  bfm_knnMatch : Mat → Mat → List (List DMatch)
  bdm_knnMatch : Mat → Mat → List (List DMatch)
  angDiff : ℚ → ℚ → ℚ
  sqrt : ℚ → ℚ
  maxEigenvalue : Matrix3d → Fl
  nn_dist_median : ℚ

/-- The members of `StereoFrame` that the extraction reads or writes. -/
structure StereoFrame where
  img_l : Image
  img_r : Image
  cam : PinholeStereoCamera
  pdesc_l : Mat
  pdesc_r : Mat
  ldesc_l : Mat
  ldesc_r : Mat
  stereo_pt : List PointFeature
  stereo_ls : List LineFeature

/-! ## Subscripts and `std::sort` -/

/-- `v[i]` for an `int` subscript: `none` outside `0 .. size-1`. -/
def at? {α : Type} (v : List α) (i : Int) : Option α :=
  if 0 ≤ i then v[i.toNat]? else none

/-- Pair every element with its sort key; `none` when a key cannot be read. -/
def keyed {α K : Type} (key : α → Option K) : List α → Option (List (K × α))
  | [] => some []
  | a :: l =>
    match key a, keyed key l with
    | some k, some r => some ((k, a) :: r)
    | _, _ => none

/-- `std::sort(v.begin(), v.end(), cmp)` for a comparator `cmp(a, b)` that reads
a key off each element and returns `key a < key b`.  With fewer than two
elements the comparator is never called; otherwise it is called on every
element, so every key must be readable.  The order among equal keys is not
fixed by `std::sort`; the embedding keeps the input order among them. -/
def stdSort {α K : Type} [LinearOrder K] (key : α → Option K) (v : List α) :
    Option (List α) :=
  if v.length < 2 then some v
  else (keyed key v).map fun kv =>
    (kv.insertionSort (fun p q => p.1 ≤ q.1)).map Prod.snd

/-- Modelled from the spec: the comparator `sort_descriptor_by_queryIdx` is
declared in a header outside `src/`; candidates are ordered by the query index
of their best match, `a[0].queryIdx < b[0].queryIdx`. -/
def sort_descriptor_by_queryIdx (a : List DMatch) : Option Int :=
  a[0]?.map DMatch.queryIdx

/-- Modelled from the spec: the comparator `compare_descriptor_by_NN_dist` is
declared in a header outside `src/`; candidates are ordered by best-match
distance, `a[0].distance < b[0].distance`. -/
def compare_descriptor_by_NN_dist (a : List DMatch) : Option ℚ :=
  a[0]?.map DMatch.distance

/-- Modelled from the spec: the comparator `compare_descriptor_by_NN12_dist` is
declared in a header outside `src/`; candidates are ordered by decreasing gap
between second-best and best distance,
`a[1].distance - a[0].distance > b[1].distance - b[0].distance`. -/
def compare_descriptor_by_NN12_dist (a : List DMatch) : Option ℚ :=
  match a[0]?, a[1]? with
  | some d0, some d1 => some (-(d1.distance - d0.distance))
  | _, _ => none

/-! ## `StereoFrame::lineDescriptorMAD` -/

/-- The statement `m[0].distance = v`. -/
def setDistance0 (v : ℚ) : List DMatch → Option (List DMatch)
  | [] => none
  | d :: r => some ({ d with distance := v } :: r)

/-- The loop `for j: matches_nn[j][0].distance =
fabsf(matches_nn[j][0].distance - nn_dist_median)`. -/
def absDevNN (nn_dist_median : ℚ) : List (List DMatch) → Option (List (List DMatch))
  | [] => some []
  | m :: l =>
    match m[0]? with
    | none => none
    | some d0 =>
      match setDistance0 (|d0.distance - nn_dist_median|) m, absDevNN nn_dist_median l with
      | some m1, some l1 => some (m1 :: l1)
      | _, _ => none

/-- The loop `for j: matches_12[j][0].distance =
fabsf(matches_12[j][1].distance - matches_12[j][0].distance - nn_dist_median)`. -/
def absDev12 (nn_dist_median : ℚ) : List (List DMatch) → Option (List (List DMatch))
  | [] => some []
  | m :: l =>
    match m[1]?, m[0]? with
    | some d1, some d0 =>
      match setDistance0 (|d1.distance - d0.distance - nn_dist_median|) m,
          absDev12 nn_dist_median l with
      | some m1, some l1 => some (m1 :: l1)
      | _, _ => none
    | _, _ => none

/-- `v[int(v.size()/2)][0].distance`. -/
def midDistance0 (v : List (List DMatch)) : Option ℚ :=
  match v[v.length / 2]? with
  | none => none
  | some m => m[0]?.map DMatch.distance

/-- `v[int(v.size()/2)][1].distance - v[int(v.size()/2)][0].distance`. -/
def midGap (v : List (List DMatch)) : Option ℚ :=
  match v[v.length / 2]? with
  | none => none
  | some m =>
    match m[1]?, m[0]? with
    | some d1, some d0 => some (d1.distance - d0.distance)
    | _, _ => none

/-- `StereoFrame::lineDescriptorMAD(matches, nn_mad, nn12_mad)`; the result is
the pair `(nn_mad, nn12_mad)`.  The local `nn_dist_median` is declared without
initialiser and never assigned (both medians are written to `nn_mad` resp.
`nn12_mad` and overwritten afterwards), so its value is an argument here. -/
def lineDescriptorMAD (matches_ : List (List DMatch)) (nn_dist_median : ℚ) :
    Option (ℚ × ℚ) := do
  -- estimate the NN's distance standard deviation
  let matches_nn ← stdSort compare_descriptor_by_NN_dist matches_
  let _nn_mad ← midDistance0 matches_nn
  let matches_nn ← absDevNN nn_dist_median matches_nn
  let matches_nn ← stdSort compare_descriptor_by_NN_dist matches_nn
  let nn_mad ← (midDistance0 matches_nn).map fun d => 7413 / 5000 * d
  -- estimate the NN's 12 distance standard deviation
  let matches_12 ← stdSort compare_descriptor_by_NN12_dist matches_
  let _nn12_mad ← midGap matches_12
  let matches_12 ← absDev12 nn_dist_median matches_12
  let matches_12 ← stdSort compare_descriptor_by_NN_dist matches_12
  let nn12_mad ← (midDistance0 matches_12).map fun d => 7413 / 5000 * d
  pure (nn_mad, nn12_mad)

/-! ## Feature detection -/

/-- `StereoFrame::detectFeatures(img, points, pdesc, lines, ldesc,
min_line_length)`: the result is `(points, pdesc, lines, ldesc)`.  `points` and
`lines` are empty vectors at both call sites; `pdesc` and `ldesc` are members of
the frame and keep their content when the feature class is disabled.  The two
detector back ends of each class are behind `detectPoints` and `detectLines`. -/
def detectFeatures (cfg : Config) (ext : Extern) (img : Image) (pdesc ldesc : Mat)
    (min_line_length : ℚ) : List KeyPoint × Mat × List KeyLine × Mat :=
  let pts := if cfg.hasPoints then ext.detectPoints img else ([], pdesc)
  let lns := if cfg.hasLines then ext.detectLines img min_line_length else ([], ldesc)
  (pts.1, pts.2, lns.1, lns.2)

/-! ## Loops -/

/-- A `for` loop over the elements of a vector whose body may hit undefined
behaviour. -/
def loopM {α σ : Type} (body : α → σ → Option σ) : List α → σ → Option σ
  | [], s => some s
  | a :: l, s =>
    match body a s with
    | none => none
    | some s1 => loopM body l s1

/-- Locals written by the point loop: `pdesc_l_`, `stereo_pt`, `pt_idx`. -/
structure PointAcc where
  pdesc_l_ : Mat
  stereo_pt : List PointFeature
  pt_idx : Int

/-- Locals written by the line loop: `ldesc_l_`, `stereo_ls`, `ls_idx`. -/
structure LineAcc where
  ldesc_l_ : Mat
  stereo_ls : List LineFeature
  ls_idx : Int

/-- The lookup `rl_tdx = matches_rl[lr_tdx][0].trainIdx` when
`Config::bestLRMatches()`, and `rl_tdx = lr_qdx` otherwise. -/
def rlTrainIdx (cfg : Config) (matches_rl : List (List DMatch)) (lr_qdx lr_tdx : Int) :
    Option Int :=
  if cfg.bestLRMatches then
    match at? matches_rl lr_tdx with
    | none => none
    | some r => r[0]?.map DMatch.trainIdx
  else some lr_qdx

/-! ## Point verification -/

/-- Body of the point loop of `extractInitialStereoFeatures` (source lines
94-122) for the candidate `pmatches_lr[i]`.  `DMatch::distance` and the
key-point coordinates are `float`s: the quotient and the two differences are
`float` operations, compared with the `double` configuration values. -/
def initialPointBody (cfg : Config) (cam : PinholeStereoCamera)
    (points_l points_r : List KeyPoint) (pdesc_l : Mat) (pmatches_rl : List (List DMatch))
    (m : List DMatch) (acc : PointAcc) : Option PointAcc :=
  match m[0]? with
  | none => none
  | some m0 =>
    let lr_qdx := m0.queryIdx
    let lr_tdx := m0.trainIdx
    match rlTrainIdx cfg pmatches_rl lr_qdx lr_tdx with
    | none => none
    | some rl_tdx =>
      match m[1]? with
      | none => none
      | some m1 =>
        let dist_12 := f32div m0.distance m1.distance
        if lr_qdx = rl_tdx ∧ Fl.lt (Fl.fin cfg.minRatio12P) dist_12 = true then
          match at? points_l lr_qdx, at? points_r lr_tdx with
          | some kl, some kr =>
            -- check stereo epipolar constraint
            if Fl.le (Fl.abs (f32sub kl.y kr.y)) (Fl.fin cfg.maxDistEpip) = true then
              -- check minimal disparity
              let disp_ := f32sub kl.x kr.x
              if Fl.le (Fl.fin cfg.minDisp) disp_ = true then
                match at? pdesc_l lr_qdx with
                | none => none
                | some row =>
                  let pl_ : Vector2d := ⟨kl.x, kl.y⟩
                  let P_ := cam.backProjection pl_.x pl_.y disp_
                  some { pdesc_l_ := acc.pdesc_l_ ++ [row]
                         stereo_pt := acc.stereo_pt ++ [⟨pl_, disp_, P_, acc.pt_idx⟩]
                         pt_idx := acc.pt_idx + 1 }
              else some acc
            else some acc
          | _, _ => none
        else some acc

/-- Body of the point loop of `extractStereoFeatures` (source lines 301-331)
for the candidate `pmatches_lr[i]`; there is no running index, every feature
gets the identifier `-1`. -/
def stereoPointBody (cfg : Config) (cam : PinholeStereoCamera)
    (points_l points_r : List KeyPoint) (pdesc_l : Mat) (pmatches_rl : List (List DMatch))
    (m : List DMatch) (acc : PointAcc) : Option PointAcc :=
  match m[0]? with
  | none => none
  | some m0 =>
    let lr_qdx := m0.queryIdx
    let lr_tdx := m0.trainIdx
    match rlTrainIdx cfg pmatches_rl lr_qdx lr_tdx with
    | none => none
    | some rl_tdx =>
      match m[1]? with
      | none => none
      | some m1 =>
        let dist_12 := f32div m0.distance m1.distance
        if lr_qdx = rl_tdx ∧ Fl.lt (Fl.fin cfg.minRatio12P) dist_12 = true then
          match at? points_l lr_qdx, at? points_r lr_tdx with
          | some kl, some kr =>
            -- check stereo epipolar constraint
            if Fl.le (Fl.abs (f32sub kl.y kr.y)) (Fl.fin cfg.maxDistEpip) = true then
              -- check minimal disparity
              let disp_ := f32sub kl.x kr.x
              if Fl.le (Fl.fin cfg.minDisp) disp_ = true then
                let pl_ : Vector2d := ⟨kl.x, kl.y⟩
                let P_ := cam.backProjection pl_.x pl_.y disp_
                match at? pdesc_l lr_qdx with
                | none => none
                | some row =>
                  some { pdesc_l_ := acc.pdesc_l_ ++ [row]
                         stereo_pt := acc.stereo_pt ++ [⟨pl_, disp_, P_, -1⟩]
                         pt_idx := acc.pt_idx }
              else some acc
            else some acc
          | _, _ => none
        else some acc

/-- The block `// Points stereo matching` of `extractInitialStereoFeatures`
(source lines 57-126); `fr` is the frame after `detectFeatures`.  With
`Config::lrInParallel()` the same two `knnMatch` calls are made through
`matchPointFeatures`, so the flag does not appear. -/
def initialPoints (cfg : Config) (ext : Extern) (points_l points_r : List KeyPoint)
    (fr : StereoFrame) : Option StereoFrame :=
  if cfg.hasPoints = true ∧ ¬ points_l.length = 0 ∧ ¬ points_r.length = 0 then
    -- LR and RL matches
    let pmatches_lr := ext.bfm_knnMatch fr.pdesc_l fr.pdesc_r
    let pmatches_rl := if cfg.bestLRMatches then ext.bfm_knnMatch fr.pdesc_r fr.pdesc_l else []
    -- resort according to the queryIdx
    match stdSort sort_descriptor_by_queryIdx pmatches_lr,
        (if cfg.bestLRMatches then stdSort sort_descriptor_by_queryIdx pmatches_rl
         else some pmatches_rl) with
    | some lr, some rl =>
      -- bucle around pmatches, after `stereo_pt.clear()`
      match loopM (initialPointBody cfg fr.cam points_l points_r fr.pdesc_l rl) lr ⟨[], [], 0⟩ with
      | none => none
      | some acc => some { fr with pdesc_l := acc.pdesc_l_, stereo_pt := acc.stereo_pt }
    | _, _ => none
  else some fr

/-- The block `// Points stereo matching` of `extractStereoFeatures` (source
lines 265-335); `fr` is the frame after `detectFeatures`. -/
def stereoPoints (cfg : Config) (ext : Extern) (points_l points_r : List KeyPoint)
    (fr : StereoFrame) : Option StereoFrame :=
  if cfg.hasPoints = true ∧ ¬ points_l.length = 0 ∧ ¬ points_r.length = 0 then
    -- LR and RL matches
    let pmatches_lr := ext.bfm_knnMatch fr.pdesc_l fr.pdesc_r
    let pmatches_rl := if cfg.bestLRMatches then ext.bfm_knnMatch fr.pdesc_r fr.pdesc_l else []
    -- resort according to the queryIdx
    match stdSort sort_descriptor_by_queryIdx pmatches_lr,
        (if cfg.bestLRMatches then stdSort sort_descriptor_by_queryIdx pmatches_rl
         else some pmatches_rl) with
    | some lr, some rl =>
      -- bucle around pmatches, after `stereo_pt.clear()`
      match loopM (stereoPointBody cfg fr.cam points_l points_r fr.pdesc_l rl) lr ⟨[], [], 0⟩ with
      | none => none
      | some acc => some { fr with pdesc_l := acc.pdesc_l_, stereo_pt := acc.stereo_pt }
    | _, _ => none
  else some fr

/-! ## Line verification -/

/-- `Eigen::Vector3d` with finite components (homogeneous points and lines). -/
structure Vector3d where
  x : ℚ
  y : ℚ
  z : ℚ
  deriving DecidableEq

/-- `a.cross(b)`. -/
def Vector3d.cross (a b : Vector3d) : Vector3d :=
  ⟨a.y * b.z - a.z * b.y, a.z * b.x - a.x * b.z, a.x * b.y - a.y * b.x⟩

/-- Line equation `le_r` of the right line `R`: the cross product of its
homogeneous end points `sp_r`, `ep_r` (source lines 215-217 and 421-423). -/
def rightLineEq (R : KeyLine) : Vector3d :=
  let sp_r : Vector3d := ⟨R.startPointX, R.startPointY, 1⟩
  let ep_r : Vector3d := ⟨R.endPointX, R.endPointY, 1⟩
  sp_r.cross ep_r

/-- Start-point disparity `disp_s` of the left line `L` against the right line
`R` (source lines 218, 220 and 424, 426):
`sp_r(0) = -(le_r(2) + le_r(1) * startPointY) / le_r(0)` and
`disp_s = startPointX - sp_r(0)`. -/
def dispStart (L R : KeyLine) : Fl :=
  let le_r := rightLineEq R
  let sp_r0 := fdiv (-(le_r.z + le_r.y * L.startPointY)) le_r.x
  Fl.rsub L.startPointX sp_r0

/-- End-point disparity `disp_e` of the left line `L` against the right line `R`
(source lines 219, 221 and 425, 427):
`ep_r(0) = -(le_r(2) + le_r(1) * endPointY) / le_r(0)` and
`disp_e = endPointX - ep_r(0)`. -/
def dispEnd (L R : KeyLine) : Fl :=
  let le_r := rightLineEq R
  let ep_r0 := fdiv (-(le_r.z + le_r.y * L.endPointY)) le_r.x
  Fl.rsub L.endPointX ep_r0

/-- Normalised line equation `le_l` of the left line `L` (source lines 222-224
and 428-430): the cross product of its homogeneous end points divided by
`sqrt(le_l(0) * le_l(0) + le_l(1) * le_l(1))`. -/
def leftLineEq (ext : Extern) (L : KeyLine) : Vector3dX :=
  let sp_l : Vector3d := ⟨L.startPointX, L.startPointY, 1⟩
  let ep_l : Vector3d := ⟨L.endPointX, L.endPointY, 1⟩
  let le_l0 := sp_l.cross ep_l
  let nrm := ext.sqrt (le_l0.x * le_l0.x + le_l0.y * le_l0.y)
  ⟨fdiv le_l0.x nrm, fdiv le_l0.y nrm, fdiv le_l0.z nrm⟩

/-- Body of the line loop of `extractInitialStereoFeatures` (source lines
197-236) for the candidate `lmatches_lr[i]`. -/
def initialLineBody (cfg : Config) (ext : Extern) (cam : PinholeStereoCamera)
    (lines_l lines_r : List KeyLine) (ldesc_l : Mat) (lmatches_rl : List (List DMatch))
    (min_line_length_th nn12_dist_th : ℚ) (m : List DMatch) (acc : LineAcc) :
    Option LineAcc :=
  match m[0]? with
  | none => none
  | some m0 =>
    let lr_qdx := m0.queryIdx
    let lr_tdx := m0.trainIdx
    match rlTrainIdx cfg lmatches_rl lr_qdx lr_tdx with
    | none => none
    | some rl_tdx =>
      match m[1]?, at? lines_r lr_tdx with
      | some m1, some R =>
        let dist_12 := m1.distance - m0.distance
        let length := R.lineLength
        if lr_qdx = rl_tdx ∧ min_line_length_th < length ∧ nn12_dist_th < dist_12 then
          match at? lines_l lr_qdx with
          | none => none
          | some L =>
            -- check stereo epipolar constraint
            if cfg.minHorizAngle ≤ |L.angle| ∧ cfg.minHorizAngle ≤ |R.angle|
                ∧ |ext.angDiff L.angle R.angle| < cfg.maxAngleDiff then
              -- estimate the disparity of the endpoints
              let le_r := rightLineEq R
              let disp_s := dispStart L R
              let disp_e := dispEnd L R
              let sp_l : Vector3d := ⟨L.startPointX, L.startPointY, 1⟩
              let ep_l : Vector3d := ⟨L.endPointX, L.endPointY, 1⟩
              let le_l := leftLineEq ext L
              -- check minimal disparity
              if Fl.le (Fl.fin cfg.minDisp) disp_s = true ∧ Fl.le (Fl.fin cfg.minDisp) disp_e = true
                  ∧ cfg.lineHorizTh < |le_r.x| then
                match at? ldesc_l lr_qdx with
                | none => none
                | some row =>
                  let sP_ := cam.backProjection sp_l.x sp_l.y disp_s
                  let eP_ := cam.backProjection ep_l.x ep_l.y disp_e
                  let angle_l := L.angle
                  some { ldesc_l_ := acc.ldesc_l_ ++ [row]
                         stereo_ls := acc.stereo_ls ++
                           [⟨⟨sp_l.x, sp_l.y⟩, disp_s, sP_, ⟨ep_l.x, ep_l.y⟩, disp_e, eP_, le_l,
                             angle_l, acc.ls_idx⟩]
                         ls_idx := acc.ls_idx + 1 }
              else some acc
            else some acc
        else some acc
      | _, _ => none

/-- Entries of the matrix `covS_an` / `covE_an` before scaling (source lines
448-456 and 464-472) for the offsets `px_hat`, `py_hat`, the focal length `f`
and `disp2`. -/
def covEntry (px_hat py_hat f : ℚ) (disp2 : Fl) : Fin 3 → Fin 3 → Fl
  | 0, 0 => Fl.add disp2 (Fl.fin (2 * px_hat * px_hat))
  | 0, 1 => Fl.fin (2 * px_hat * py_hat)
  | 0, 2 => Fl.fin (2 * f * px_hat)
  | 1, 1 => Fl.add disp2 (Fl.fin (2 * py_hat * py_hat))
  | 1, 2 => Fl.fin (2 * f * py_hat)
  | 2, 2 => Fl.fin (2 * f * f)
  | 1, 0 => Fl.fin (2 * px_hat * py_hat)
  | 2, 0 => Fl.fin (2 * f * px_hat)
  | 2, 1 => Fl.fin (2 * f * py_hat)

/-- Covariance of one end point (source lines 443-457 for the start point,
459-473 for the end point): the matrix above times `B * B / (disp2 * disp2)`,
for the pixel `(px, py)` and the disparity `disp`. -/
def endpointCov (cam : PinholeStereoCamera) (px py : ℚ) (disp : Fl) : Matrix3d :=
  let px_hat := px - cam.cx
  let py_hat := py - cam.cy
  let disp2 := Fl.mul disp disp
  fun i j =>
    Fl.div (Fl.mul (Fl.mul (covEntry px_hat py_hat cam.fx disp2 i j) (Fl.fin cam.b))
      (Fl.fin cam.b)) (Fl.mul disp2 disp2)

/-- The value `max_eig` of source line 480 for a line with left end points
`(sx, sy)`, `(ex, ey)` and end-point disparities `disp_s`, `disp_e`. -/
def maxEig (ext : Extern) (cam : PinholeStereoCamera) (sx sy : ℚ) (disp_s : Fl) (ex ey : ℚ)
    (disp_e : Fl) : Fl :=
  Fl.max (ext.maxEigenvalue (endpointCov cam sx sy disp_s))
    (ext.maxEigenvalue (endpointCov cam ex ey disp_e))

/-- Body of the line loop of `extractStereoFeatures` (source lines 404-491) for
the candidate `lmatches_lr[i]`; every feature gets the identifier `-1`. -/
def stereoLineBody (cfg : Config) (ext : Extern) (cam : PinholeStereoCamera)
    (lines_l lines_r : List KeyLine) (ldesc_l : Mat) (lmatches_rl : List (List DMatch))
    (min_line_length_th nn12_dist_th : ℚ) (m : List DMatch) (acc : LineAcc) :
    Option LineAcc :=
  match m[0]? with
  | none => none
  | some m0 =>
    let lr_qdx := m0.queryIdx
    let lr_tdx := m0.trainIdx
    match rlTrainIdx cfg lmatches_rl lr_qdx lr_tdx with
    | none => none
    | some rl_tdx =>
      match m[1]?, at? lines_r lr_tdx with
      | some m1, some R =>
        let dist_12 := m1.distance - m0.distance
        let length := R.lineLength
        if lr_qdx = rl_tdx ∧ min_line_length_th < length ∧ nn12_dist_th < dist_12 then
          match at? lines_l lr_qdx with
          | none => none
          | some L =>
            -- check stereo epipolar constraint
            if cfg.minHorizAngle ≤ |L.angle| ∧ cfg.minHorizAngle ≤ |R.angle|
                ∧ |ext.angDiff L.angle R.angle| < cfg.maxAngleDiff then
              -- estimate the disparity of the endpoints
              let le_r := rightLineEq R
              let disp_s := dispStart L R
              let disp_e := dispEnd L R
              let sp_l : Vector3d := ⟨L.startPointX, L.startPointY, 1⟩
              let ep_l : Vector3d := ⟨L.endPointX, L.endPointY, 1⟩
              let le_l := leftLineEq ext L
              -- check minimal disparity
              if Fl.le (Fl.fin cfg.minDisp) disp_s = true ∧ Fl.le (Fl.fin cfg.minDisp) disp_e = true
                  ∧ cfg.lineHorizTh < |le_r.x| then
                let sP_ := cam.backProjection sp_l.x sp_l.y disp_s
                let eP_ := cam.backProjection ep_l.x ep_l.y disp_e
                let angle_l := L.angle
                -- estimate the uncertainty of the endpoints
                let max_eig := maxEig ext cam sp_l.x sp_l.y disp_s ep_l.x ep_l.y disp_e
                if Fl.lt max_eig (Fl.fin cfg.lineCovTh) = true then
                  match at? ldesc_l lr_qdx with
                  | none => none
                  | some row =>
                    some { ldesc_l_ := acc.ldesc_l_ ++ [row]
                           stereo_ls := acc.stereo_ls ++
                             [⟨⟨sp_l.x, sp_l.y⟩, disp_s, sP_, ⟨ep_l.x, ep_l.y⟩, disp_e, eP_, le_l,
                               angle_l, -1⟩]
                           ls_idx := acc.ls_idx }
                else some acc
              else some acc
            else some acc
        else some acc
      | _, _ => none

/-- The `knnMatch` used for lines: `bfm` when `Config::useBFMLines()`, `bdm`
otherwise.  With `Config::lrInParallel()` the same calls are made through
`matchLineFeaturesBFM` / `matchLineFeatures`. -/
def lineKnnMatch (cfg : Config) (ext : Extern) (q t : Mat) : List (List DMatch) :=
  if cfg.useBFMLines then ext.bfm_knnMatch q t else ext.bdm_knnMatch q t

/-- The block `// Line segments stereo matching` of
`extractInitialStereoFeatures` (source lines 129-240); `fr` is the frame after
the point block.  `ext.nn_dist_median` is what the uninitialised local holds in
the call of `lineDescriptorMAD` at source line 180. -/
def initialLines (cfg : Config) (ext : Extern) (lines_l lines_r : List KeyLine)
    (min_line_length_th : ℚ) (fr : StereoFrame) : Option StereoFrame :=
  if cfg.hasLines = true ∧ ¬ lines_l.length = 0 ∧ ¬ lines_r.length = 0 then
    -- LR and RL matches
    let lmatches_lr := lineKnnMatch cfg ext fr.ldesc_l fr.ldesc_r
    let lmatches_rl := if cfg.bestLRMatches then lineKnnMatch cfg ext fr.ldesc_r fr.ldesc_l else []
    match lineDescriptorMAD lmatches_lr ext.nn_dist_median with
    | none => none
    | some (_, nn12_mad) =>
      let nn12_dist_th := nn12_mad * cfg.descThL
      -- bucle around pmatches
      match stdSort sort_descriptor_by_queryIdx lmatches_lr,
          (if cfg.bestLRMatches then stdSort sort_descriptor_by_queryIdx lmatches_rl
           else some lmatches_rl) with
      | some lr, some rl =>
        let n_matches := if cfg.bestLRMatches then min lr.length rl.length else lr.length
        match loopM (initialLineBody cfg ext fr.cam lines_l lines_r fr.ldesc_l rl
            min_line_length_th nn12_dist_th) (lr.take n_matches) ⟨[], [], 0⟩ with
        | none => none
        | some acc => some { fr with ldesc_l := acc.ldesc_l_, stereo_ls := acc.stereo_ls }
      | _, _ => none
  else some fr

/-- The block `// Line segments stereo matching` of `extractStereoFeatures`
(source lines 338-495); `fr` is the frame after the point block.
`ext.nn_dist_median` is what the uninitialised local holds in the call of
`lineDescriptorMAD` at source line 388; a run of this method has its own `ext`,
so the content may differ from the one a run of `extractInitialStereoFeatures`
reads. -/
def stereoLines (cfg : Config) (ext : Extern) (lines_l lines_r : List KeyLine)
    (min_line_length_th : ℚ) (fr : StereoFrame) : Option StereoFrame :=
  if cfg.hasLines = true ∧ ¬ lines_l.length = 0 ∧ ¬ lines_r.length = 0 then
    -- LR and RL matches
    let lmatches_lr := lineKnnMatch cfg ext fr.ldesc_l fr.ldesc_r
    let lmatches_rl := if cfg.bestLRMatches then lineKnnMatch cfg ext fr.ldesc_r fr.ldesc_l else []
    match lineDescriptorMAD lmatches_lr ext.nn_dist_median with
    | none => none
    | some (_, nn12_mad) =>
      let nn12_dist_th := nn12_mad * cfg.descThL
      -- bucle around pmatches
      match stdSort sort_descriptor_by_queryIdx lmatches_lr,
          (if cfg.bestLRMatches then stdSort sort_descriptor_by_queryIdx lmatches_rl
           else some lmatches_rl) with
      | some lr, some rl =>
        let n_matches := if cfg.bestLRMatches then min lr.length rl.length else lr.length
        match loopM (stereoLineBody cfg ext fr.cam lines_l lines_r fr.ldesc_l rl
            min_line_length_th nn12_dist_th) (lr.take n_matches) ⟨[], [], 0⟩ with
        | none => none
        | some acc => some { fr with ldesc_l := acc.ldesc_l_, stereo_ls := acc.stereo_ls }
      | _, _ => none
  else some fr

/-! ## The two extraction methods -/

/-- The value `min_line_length_th` of source lines 42 and 250. -/
def minLineLengthTh (cfg : Config) (cam : PinholeStereoCamera) : ℚ :=
  cfg.minLineLength * min cam.width cam.height

/-- The frame after the two `detectFeatures` calls (source lines 43-54 and
251-262): the four descriptor members are overwritten.  With
`Config::lrInParallel()` the same two calls run as asynchronous tasks on
disjoint buffers. -/
def afterDetect (cfg : Config) (ext : Extern) (fr : StereoFrame) : StereoFrame :=
  let dl := detectFeatures cfg ext fr.img_l fr.pdesc_l fr.ldesc_l (minLineLengthTh cfg fr.cam)
  let dr := detectFeatures cfg ext fr.img_r fr.pdesc_r fr.ldesc_r (minLineLengthTh cfg fr.cam)
  { fr with pdesc_l := dl.2.1, ldesc_l := dl.2.2.2, pdesc_r := dr.2.1, ldesc_r := dr.2.2.2 }

/-- The local `points_l` after detection. -/
def points_l (cfg : Config) (ext : Extern) (fr : StereoFrame) : List KeyPoint :=
  (detectFeatures cfg ext fr.img_l fr.pdesc_l fr.ldesc_l (minLineLengthTh cfg fr.cam)).1

/-- The local `points_r` after detection. -/
def points_r (cfg : Config) (ext : Extern) (fr : StereoFrame) : List KeyPoint :=
  (detectFeatures cfg ext fr.img_r fr.pdesc_r fr.ldesc_r (minLineLengthTh cfg fr.cam)).1

/-- The local `lines_l` after detection. -/
def lines_l (cfg : Config) (ext : Extern) (fr : StereoFrame) : List KeyLine :=
  (detectFeatures cfg ext fr.img_l fr.pdesc_l fr.ldesc_l (minLineLengthTh cfg fr.cam)).2.2.1

/-- The local `lines_r` after detection. -/
def lines_r (cfg : Config) (ext : Extern) (fr : StereoFrame) : List KeyLine :=
  (detectFeatures cfg ext fr.img_r fr.pdesc_r fr.ldesc_r (minLineLengthTh cfg fr.cam)).2.2.1

/-- `StereoFrame::extractInitialStereoFeatures()`: the frame after the call, or
`none` when the call runs into undefined behaviour. -/
def extractInitialStereoFeatures (cfg : Config) (ext : Extern) (fr : StereoFrame) :
    Option StereoFrame :=
  match initialPoints cfg ext (points_l cfg ext fr) (points_r cfg ext fr)
      (afterDetect cfg ext fr) with
  | none => none
  | some fr1 =>
    initialLines cfg ext (lines_l cfg ext fr) (lines_r cfg ext fr) (minLineLengthTh cfg fr.cam) fr1

/-- `StereoFrame::extractStereoFeatures()`: the frame after the call, or `none`
when the call runs into undefined behaviour. -/
def extractStereoFeatures (cfg : Config) (ext : Extern) (fr : StereoFrame) :
    Option StereoFrame :=
  match stereoPoints cfg ext (points_l cfg ext fr) (points_r cfg ext fr)
      (afterDetect cfg ext fr) with
  | none => none
  | some fr1 =>
    stereoLines cfg ext (lines_l cfg ext fr) (lines_r cfg ext fr) (minLineLengthTh cfg fr.cam) fr1

/-! ## A concrete frame -/

/-- Configuration with mutual best matches required. -/
def exCfg : Config :=
  { hasPoints := true, hasLines := true, lrInParallel := false, bestLRMatches := true,
    useBFMLines := true, minLineLength := 1 / 100, minRatio12P := 1 / 10, maxDistEpip := 1,
    minDisp := 1, descThL := 1 / 10, minHorizAngle := 1 / 20, maxAngleDiff := 1 / 10,
    lineHorizTh := 1 / 10, lineCovTh := 10 }

/-- Camera with principal point `(10, 10)`, focal length `2`, base line `4`. -/
def exCam : PinholeStereoCamera :=
  { width := 100, height := 50, cx := 10, cy := 10, fx := 2, b := 4,
    backProjection := fun u v d =>
      ⟨Fl.div (Fl.fin (4 * (u - 10))) d, Fl.div (Fl.fin (4 * (v - 10))) d,
        Fl.div (Fl.fin (4 * 2)) d⟩ }

/-- Two detections per class and image; the left image is `[[0]]`, any other
image is the right one.  The eigenvalue routine is exact on diagonal matrices. -/
def exExt : Extern :=
  { detectPoints := fun img =>
      if img = [[0]] then ([⟨20, 5⟩, ⟨30, 8⟩], [[1], [2]]) else ([⟨10, 5⟩, ⟨29, 8⟩], [[3], [4]])
    detectLines := fun img _ =>
      if img = [[0]] then ([⟨20, 10, 30, 20, 1, 14⟩, ⟨40, 10, 40, 30, 2, 20⟩], [[5], [6]])
      else ([⟨10, 10, 20, 20, 1, 14⟩, ⟨39, 10, 39, 30, 2, 20⟩], [[7], [8]])
    bfm_knnMatch := fun q _ =>
      if q = [[1], [2]] ∨ q = [[5], [6]] then
        [[⟨1, 1, 2⟩, ⟨1, 0, 9⟩], [⟨0, 0, 1⟩, ⟨0, 1, 8⟩]]
      else [[⟨0, 0, 1⟩, ⟨0, 1, 8⟩], [⟨1, 1, 2⟩, ⟨1, 0, 9⟩]]
    bdm_knnMatch := fun _ _ => []
    angDiff := fun a b => a - b
    sqrt := fun _ => 1
    maxEigenvalue := fun m => Fl.max (m 0 0) (Fl.max (m 1 1) (m 2 2))
    nn_dist_median := 0 }

/-- A freshly constructed frame. -/
def exFrame : StereoFrame :=
  { img_l := [[0]], img_r := [[1]], cam := exCam, pdesc_l := [], pdesc_r := [], ldesc_l := [],
    ldesc_r := [], stereo_pt := [], stereo_ls := [] }

/-! ## Notions used in the statements -/

/-- The line feature constructed at source lines 229-232 and 434-486 from the
left line `L`, its end-point disparities and an identifier. -/
def lineFeatureOf (ext : Extern) (cam : PinholeStereoCamera) (L : KeyLine) (ds de : Fl)
    (idx : Int) : LineFeature :=
  ⟨⟨L.startPointX, L.startPointY⟩, ds, cam.backProjection L.startPointX L.startPointY ds,
    ⟨L.endPointX, L.endPointY⟩, de, cam.backProjection L.endPointX L.endPointY de,
    leftLineEq ext L, L.angle, idx⟩

/-- The tests a line candidate passes before the uncertainty gate, as facts
about the candidate `m`, the lines `L`, `R` it refers to and the disparities
`ds`, `de`. -/
def LineGates (cfg : Config) (ext : Extern) (lns_l lns_r : List KeyLine)
    (rl : List (List DMatch)) (min_line_length_th nn12_dist_th : ℚ) (m : List DMatch)
    (m0 m1 : DMatch) (L R : KeyLine) (ds de : Fl) : Prop :=
  m[0]? = some m0 ∧ m[1]? = some m1 ∧
  rlTrainIdx cfg rl m0.queryIdx m0.trainIdx = some m0.queryIdx ∧
  at? lns_l m0.queryIdx = some L ∧ at? lns_r m0.trainIdx = some R ∧
  min_line_length_th < R.lineLength ∧ nn12_dist_th < m1.distance - m0.distance ∧
  cfg.minHorizAngle ≤ |L.angle| ∧ cfg.minHorizAngle ≤ |R.angle| ∧
  |ext.angDiff L.angle R.angle| < cfg.maxAngleDiff ∧
  dispStart L R = ds ∧ dispEnd L R = de ∧
  Fl.le (Fl.fin cfg.minDisp) ds = true ∧ Fl.le (Fl.fin cfg.minDisp) de = true ∧
  cfg.lineHorizTh < |(rightLineEq R).x|

/-- The frame `extractInitialStereoFeatures` returns for `exFrame`. -/
def exInitial : StereoFrame :=
  { exFrame with
    pdesc_l := [[1], [2]], pdesc_r := [[3], [4]], ldesc_l := [[5], [6]], ldesc_r := [[7], [8]]
    stereo_pt := [⟨⟨20, 5⟩, Fl.fin 10, ⟨Fl.fin 4, Fl.fin (-2), Fl.fin (4 / 5)⟩, 0⟩,
      ⟨⟨30, 8⟩, Fl.fin 1, ⟨Fl.fin 80, Fl.fin (-8), Fl.fin 8⟩, 1⟩]
    stereo_ls := [⟨⟨20, 10⟩, Fl.fin 10, ⟨Fl.fin 4, Fl.fin 0, Fl.fin (4 / 5)⟩, ⟨30, 20⟩,
        Fl.fin 10, ⟨Fl.fin 8, Fl.fin 4, Fl.fin (4 / 5)⟩,
        ⟨Fl.fin (-10), Fl.fin 10, Fl.fin 100⟩, 1, 0⟩,
      ⟨⟨40, 10⟩, Fl.fin 1, ⟨Fl.fin 120, Fl.fin 0, Fl.fin 8⟩, ⟨40, 30⟩, Fl.fin 1,
        ⟨Fl.fin 120, Fl.fin 80, Fl.fin 8⟩, ⟨Fl.fin (-20), Fl.fin 0, Fl.fin 800⟩, 2, 1⟩] }

/-- The frame `extractStereoFeatures` returns for `exFrame`. -/
def exStereo : StereoFrame :=
  { exFrame with
    pdesc_l := [[1], [2]], pdesc_r := [[3], [4]], ldesc_l := [[5]], ldesc_r := [[7], [8]]
    stereo_pt := [⟨⟨20, 5⟩, Fl.fin 10, ⟨Fl.fin 4, Fl.fin (-2), Fl.fin (4 / 5)⟩, -1⟩,
      ⟨⟨30, 8⟩, Fl.fin 1, ⟨Fl.fin 80, Fl.fin (-8), Fl.fin 8⟩, -1⟩]
    stereo_ls := [⟨⟨20, 10⟩, Fl.fin 10, ⟨Fl.fin 4, Fl.fin 0, Fl.fin (4 / 5)⟩, ⟨30, 20⟩,
        Fl.fin 10, ⟨Fl.fin 8, Fl.fin 4, Fl.fin (4 / 5)⟩,
        ⟨Fl.fin (-10), Fl.fin 10, Fl.fin 100⟩, 1, -1⟩] }

/-- The tests a point candidate passes before it is accepted, as facts about
the candidate `m`, its two neighbours `m0`, `m1` and the key-points `kl`, `kr`
it refers to. -/
def PointGates (cfg : Config) (pts_l pts_r : List KeyPoint) (rl : List (List DMatch))
    (m : List DMatch) (m0 m1 : DMatch) (kl kr : KeyPoint) : Prop :=
  m[0]? = some m0 ∧ m[1]? = some m1 ∧
  rlTrainIdx cfg rl m0.queryIdx m0.trainIdx = some m0.queryIdx ∧
  Fl.lt (Fl.fin cfg.minRatio12P) (f32div m0.distance m1.distance) = true ∧
  at? pts_l m0.queryIdx = some kl ∧ at? pts_r m0.trainIdx = some kr ∧
  Fl.le (Fl.abs (f32sub kl.y kr.y)) (Fl.fin cfg.maxDistEpip) = true ∧
  Fl.le (Fl.fin cfg.minDisp) (f32sub kl.x kr.x) = true

/-- The point feature constructed at source lines 116-118 and 322-327 from the
key-points `kl`, `kr` and an identifier. -/
def pointFeatureOf (cam : PinholeStereoCamera) (kl kr : KeyPoint) (idx : Int) : PointFeature :=
  ⟨⟨kl.x, kl.y⟩, f32sub kl.x kr.x, cam.backProjection kl.x kl.y (f32sub kl.x kr.x), idx⟩

/-- The point block runs: the guard of source lines 57 and 265. -/
def pointBlockRuns (cfg : Config) (ext : Extern) (fr : StereoFrame) : Prop :=
  cfg.hasPoints = true ∧ ¬ (points_l cfg ext fr).length = 0 ∧ ¬ (points_r cfg ext fr).length = 0

/-- The line block runs: the guard of source lines 129 and 338. -/
def lineBlockRuns (cfg : Config) (ext : Extern) (fr : StereoFrame) : Prop :=
  cfg.hasLines = true ∧ ¬ (lines_l cfg ext fr).length = 0 ∧ ¬ (lines_r cfg ext fr).length = 0

/-- The left-to-right point candidates `pmatches_lr` as the matcher returns them. -/
def pmatches_lr (cfg : Config) (ext : Extern) (fr : StereoFrame) : List (List DMatch) :=
  ext.bfm_knnMatch (afterDetect cfg ext fr).pdesc_l (afterDetect cfg ext fr).pdesc_r

/-- The left-to-right line candidates `lmatches_lr` as the matcher returns them. -/
def lmatches_lr (cfg : Config) (ext : Extern) (fr : StereoFrame) : List (List DMatch) :=
  lineKnnMatch cfg ext (afterDetect cfg ext fr).ldesc_l (afterDetect cfg ext fr).ldesc_r

/-- Median as the spec words it: the element at index `⌊n/2⌋` of the sorted
population. -/
def medianSpec (l : List ℚ) : Option ℚ :=
  (l.insertionSort (fun a b => a ≤ b))[l.length / 2]?

/-- The threshold `nn12_mad` as the spec words it: `1.4826` times the median
absolute deviation of the gaps `second_best - best` from their own median. -/
def nn12MadSpec (gaps : List ℚ) : Option ℚ :=
  match medianSpec gaps with
  | none => none
  | some med => (medianSpec (gaps.map fun g => |g - med|)).map fun d => 7413 / 5000 * d

/-- Three candidates with gaps `1`, `2`, `4` between best and second-best
distance. -/
def exGaps : List (List DMatch) :=
  [[⟨0, 0, 1⟩, ⟨0, 1, 2⟩], [⟨1, 1, 2⟩, ⟨1, 0, 4⟩], [⟨2, 2, 4⟩, ⟨2, 1, 8⟩]]

/-- The uncertainty gate of source lines 480-482, read off a stored line feature:
`max_eig < Config::lineCovTh()` for the covariances of its two end points. -/
def uncertaintyGate (cfg : Config) (ext : Extern) (cam : PinholeStereoCamera)
    (f : LineFeature) : Bool :=
  Fl.lt (maxEig ext cam f.spl.x f.spl.y f.sdisp f.epl.x f.epl.y f.edisp) (Fl.fin cfg.lineCovTh)

/-- A line feature with its identifier replaced by the sentinel `-1`. -/
def LineFeature.unassigned (f : LineFeature) : LineFeature := { f with idx := -1 }

/-- A point feature with its identifier replaced by the sentinel `-1`. -/
def PointFeature.unassigned (f : PointFeature) : PointFeature := { f with idx := -1 }

/-- Detectors that find nothing in either image. -/
def exBlind : Extern :=
  { exExt with detectPoints := fun _ => ([], []), detectLines := fun _ _ => ([], []) }

/-- A frame that still holds the features of an earlier extraction. -/
def exStale : StereoFrame :=
  { exFrame with stereo_pt := exInitial.stereo_pt, stereo_ls := exInitial.stereo_ls }

/-- The configuration `exCfg` with `Config::minHorizAngle()` raised to `1`, the
angle of the first left and of the first right line of `exExt`. -/
def exAngleCfg : Config := { exCfg with minHorizAngle := 1 }

/-- The point candidate `m` passes every test of the point loop, `row` is the
row `pdesc_l.row(lr_qdx)` of its left key-point and `f` is the feature built
from its two key-points. -/
def PointBuilt (cfg : Config) (cam : PinholeStereoCamera) (pts_l pts_r : List KeyPoint)
    (pdesc_l : Mat) (rl : List (List DMatch)) (m : List DMatch) (row : Row)
    (f : PointFeature) : Prop :=
  ∃ m0 m1 kl kr idx, PointGates cfg pts_l pts_r rl m m0 m1 kl kr ∧
    at? pdesc_l m0.queryIdx = some row ∧ f = pointFeatureOf cam kl kr idx

/-- The line candidate `m` passes every test of the line loop (with `cov` the
uncertainty gate of `extractStereoFeatures` included), `row` is the row
`ldesc_l.row(lr_qdx)` of its left line and `f` is the feature built from it. -/
def LineBuilt (cov : Bool) (cfg : Config) (ext : Extern) (cam : PinholeStereoCamera)
    (lns_l lns_r : List KeyLine) (ldesc_l : Mat) (rl : List (List DMatch))
    (min_line_length_th nn12_dist_th : ℚ) (m : List DMatch) (row : Row)
    (f : LineFeature) : Prop :=
  ∃ m0 m1 L R ds de idx,
    LineGates cfg ext lns_l lns_r rl min_line_length_th nn12_dist_th m m0 m1 L R ds de ∧
    (cov = true →
      Fl.lt (maxEig ext cam L.startPointX L.startPointY ds L.endPointX L.endPointY de)
        (Fl.fin cfg.lineCovTh) = true) ∧
    at? ldesc_l m0.queryIdx = some row ∧ f = lineFeatureOf ext cam L ds de idx

/-- The right-to-left point candidates `pmatches_rl` as the matcher returns them. -/
def pmatches_rl (cfg : Config) (ext : Extern) (fr : StereoFrame) : List (List DMatch) :=
  ext.bfm_knnMatch (afterDetect cfg ext fr).pdesc_r (afterDetect cfg ext fr).pdesc_l

/-- The right-to-left line candidates `lmatches_rl` as the matcher returns them. -/
def lmatches_rl (cfg : Config) (ext : Extern) (fr : StereoFrame) : List (List DMatch) :=
  lineKnnMatch cfg ext (afterDetect cfg ext fr).ldesc_r (afterDetect cfg ext fr).ldesc_l

/-- The matcher returned exactly one entry per query, each with two neighbours
that carry the query's index: up to order the entries are those of the queries
`0 .. n-1`. -/
def OneEntryPerQuery (v : List (List DMatch)) : Prop :=
  (v.map fun m => m.map DMatch.queryIdx).Perm
    ((List.range v.length).map fun (q : Nat) => [(q : Int), (q : Int)])

/-- Three detections per class in the left image and two in the right one; the
third left detection matches the second right one and is its best match, the
second left detection is nobody's best match. -/
def exWide : Extern :=
  { exExt with
    detectPoints := fun img =>
      if img = [[0]] then ([⟨20, 5⟩, ⟨30, 8⟩, ⟨40, 8⟩], [[1], [2], [3]])
      else ([⟨10, 5⟩, ⟨29, 8⟩], [[4], [5]])
    detectLines := fun img _ =>
      if img = [[0]] then
        ([⟨20, 10, 30, 20, 1, 14⟩, ⟨25, 10, 35, 20, 1, 14⟩, ⟨40, 10, 40, 30, 2, 20⟩],
          [[6], [7], [8]])
      else ([⟨10, 10, 20, 20, 1, 14⟩, ⟨39, 10, 39, 30, 2, 20⟩], [[9], [10]])
    bfm_knnMatch := fun q _ =>
      if q.length = 3 then
        [[⟨1, 0, 5⟩, ⟨1, 1, 9⟩], [⟨2, 1, 2⟩, ⟨2, 0, 9⟩], [⟨0, 0, 1⟩, ⟨0, 1, 8⟩]]
      else [[⟨1, 2, 2⟩, ⟨1, 0, 9⟩], [⟨0, 0, 1⟩, ⟨0, 2, 8⟩]] }

/-- The frame `extractInitialStereoFeatures` returns for `exFrame` with the
detections and matches of `exWide`: both accepted points, one accepted line. -/
def exWideInitial : StereoFrame :=
  { exFrame with
    pdesc_l := [[1], [3]], pdesc_r := [[4], [5]], ldesc_l := [[6]], ldesc_r := [[9], [10]]
    stereo_pt := [⟨⟨20, 5⟩, Fl.fin 10, ⟨Fl.fin 4, Fl.fin (-2), Fl.fin (4 / 5)⟩, 0⟩,
      ⟨⟨40, 8⟩, Fl.fin 11, ⟨Fl.fin (120 / 11), Fl.fin (-8 / 11), Fl.fin (8 / 11)⟩, 1⟩]
    stereo_ls := [⟨⟨20, 10⟩, Fl.fin 10, ⟨Fl.fin 4, Fl.fin 0, Fl.fin (4 / 5)⟩, ⟨30, 20⟩,
        Fl.fin 10, ⟨Fl.fin 8, Fl.fin 4, Fl.fin (4 / 5)⟩,
        ⟨Fl.fin (-10), Fl.fin 10, Fl.fin 100⟩, 1, 0⟩] }

/-- A configuration for the ratio test: `exCfg` with one-directional matching
and `Config::minRatio12P()` the double nearest to `0.1`. -/
def exTenthCfg : Config :=
  { exCfg with bestLRMatches := false
               minRatio12P := 3602879701896397 / 36028797018963968 }

/-- A configuration with a negative `Config::lineHorizTh()`. -/
def exFlatCfg : Config := { exCfg with lineHorizTh := -1 }

/-- A left line for the horizontal right line `exFlatR`. -/
def exFlatL : KeyLine := ⟨30, 5, 20, 11 / 2, 1583 / 512, 10⟩

/-- A horizontal right line from `(20, 10)` to `(10, 10)`: its line equation is
`(0, -10, 100)`. -/
def exFlatR : KeyLine := ⟨20, 10, 10, 10, 13176795 / 4194304, 10⟩

/-- The detections of `exExt` with the first key-point pair replaced by
`(100.3f, 1.1f)` on the left and `(20.7f, 0.1f)` on the right (the `float`
nearest to each decimal). -/
def exRound : Extern :=
  { exExt with
    detectPoints := fun img =>
      if img = [[0]] then
        ([⟨6573261 / 65536, 9227469 / 8388608⟩, ⟨30, 8⟩], [[1], [2]])
      else ([⟨5426381 / 262144, 13421773 / 134217728⟩, ⟨29, 8⟩], [[3], [4]]) }

/-- The frame `extractInitialStereoFeatures` returns for `exFrame` with the
detections of `exRound`. -/
def exRoundInitial : StereoFrame :=
  { exInitial with
    stereo_pt := [⟨⟨6573261 / 65536, 9227469 / 8388608⟩, Fl.fin (2608333 / 32768),
        ⟨Fl.fin (11835802 / 2608333), Fl.fin (-74658611 / 166933312),
          Fl.fin (262144 / 2608333)⟩, 0⟩,
      ⟨⟨30, 8⟩, Fl.fin 1, ⟨Fl.fin 80, Fl.fin (-8), Fl.fin 8⟩, 1⟩] }

/-- The detections of `exExt` with the lines replaced by two pairs whose right
lines are horizontal: `exFlatL` against `exFlatR` (line equation
`(0, -10, 100)`) and a second pair thirty pixels below (line equation
`(0, -10, 400)`). -/
def exFlat : Extern :=
  { exExt with
    detectLines := fun img _ =>
      if img = [[0]] then ([exFlatL, ⟨30, 35, 20, 71 / 2, 1583 / 512, 10⟩], [[5], [6]])
      else ([exFlatR, ⟨20, 40, 10, 40, 13176795 / 4194304, 10⟩], [[7], [8]]) }

/-- The frame `extractInitialStereoFeatures` returns for `exFrame` with the
detections of `exFlat` and the configuration `exFlatCfg`. -/
def exFlatInitial : StereoFrame :=
  { exInitial with
    stereo_ls := [⟨⟨30, 5⟩, Fl.pinf, ⟨Fl.fin 0, Fl.fin 0, Fl.fin 0⟩, ⟨20, 11 / 2⟩, Fl.pinf,
        ⟨Fl.fin 0, Fl.fin 0, Fl.fin 0⟩, ⟨Fl.fin (-1 / 2), Fl.fin (-10), Fl.fin 65⟩,
        1583 / 512, 0⟩,
      ⟨⟨30, 35⟩, Fl.pinf, ⟨Fl.fin 0, Fl.fin 0, Fl.fin 0⟩, ⟨20, 71 / 2⟩, Fl.pinf,
        ⟨Fl.fin 0, Fl.fin 0, Fl.fin 0⟩, ⟨Fl.fin (-1 / 2), Fl.fin (-10), Fl.fin 365⟩,
        1583 / 512, 1⟩] }

/-- The collaborators of `exExt` for a call of `lineDescriptorMAD` in which the
uninitialised local `nn_dist_median` holds `1000` instead of `0`. -/
def exOther : Extern := { exExt with nn_dist_median := 1000 }

/-- The frame `extractStereoFeatures` returns for `exFrame` with `exOther`. -/
def exOtherStereo : StereoFrame := { exStereo with ldesc_l := [], stereo_ls := [] }

/-! # Theorems -/

/-! ## Rounding to `float` -/

theorem log2_eq (x : ℚ) (e : ℤ) (h1 : (2 : ℚ) ^ e ≤ x) (h2 : x < (2 : ℚ) ^ (e + 1)) :
    Int.log 2 x = e := by
  have hpos : (0 : ℚ) < x := lt_of_lt_of_le (by positivity) h1
  have a : e ≤ Int.log 2 x :=
    (Int.zpow_le_iff_le_log (by norm_num : 1 < 2) hpos).mp (by exact_mod_cast h1)
  have b : Int.log 2 x < e + 1 :=
    (Int.lt_zpow_iff_log_lt (by norm_num : 1 < 2) hpos).mp (by exact_mod_cast h2)
  omega

theorem roundNE_eq (x : ℚ) (n : ℤ) (h1 : (n : ℚ) - 1 / 2 < x) (h2 : x < (n : ℚ) + 1 / 2) :
    roundNE x = n := by
  unfold roundNE
  rcases le_or_lt (n : ℚ) x with h | h
  · have hf : ⌊x⌋ = n := Int.floor_eq_iff.mpr ⟨h, by linarith⟩
    rw [hf, if_pos (by linarith)]
  · have hf : ⌊x⌋ = n - 1 := Int.floor_eq_iff.mpr ⟨by push_cast; linarith, by push_cast; linarith⟩
    rw [hf]
    have h3 : ¬ (x - ((n - 1 : ℤ) : ℚ) < 1 / 2) := by push_cast; linarith
    have h4 : (1 : ℚ) / 2 < x - ((n - 1 : ℤ) : ℚ) := by push_cast; linarith
    rw [if_neg h3, if_pos h4]
    ring

theorem f32_eq (x y : ℚ) (e n : ℤ) (he : -126 ≤ e) (h1 : (2 : ℚ) ^ e ≤ |x|)
    (h2 : |x| < (2 : ℚ) ^ (e + 1))
    (hn1 : (n : ℚ) - 1 / 2 < x / (2 : ℚ) ^ (e - 23))
    (hn2 : x / (2 : ℚ) ^ (e - 23) < (n : ℚ) + 1 / 2)
    (hy : (n : ℚ) * (2 : ℚ) ^ (e - 23) = y) (hfin : |y| < (2 : ℚ) ^ (128 : ℤ)) :
    f32 x = Fl.fin y := by
  unfold f32
  simp only
  rw [log2_eq |x| e h1 h2, max_eq_left he, roundNE_eq _ n hn1 hn2, hy, if_neg (not_le.mpr hfin)]

theorem f32_pos (x y : ℚ) (e n : ℤ) (he : -126 ≤ e) (h1 : (2 : ℚ) ^ e ≤ x)
    (h2 : x < (2 : ℚ) ^ (e + 1))
    (hn1 : (n : ℚ) - 1 / 2 < x / (2 : ℚ) ^ (e - 23))
    (hn2 : x / (2 : ℚ) ^ (e - 23) < (n : ℚ) + 1 / 2)
    (hy : (n : ℚ) * (2 : ℚ) ^ (e - 23) = y) (hy0 : 0 ≤ y) (hfin : y < (2 : ℚ) ^ (128 : ℤ)) :
    f32 x = Fl.fin y := by
  have hx : 0 < x := lt_of_lt_of_le (by positivity) h1
  exact f32_eq x y e n he (by rw [abs_of_pos hx]; exact h1) (by rw [abs_of_pos hx]; exact h2)
    hn1 hn2 hy (by rw [abs_of_nonneg hy0]; exact hfin)

theorem f32_zero : f32 0 = Fl.fin 0 := by
  have h : (0 : ℚ) < (2 : ℚ) ^ (128 : ℤ) := by positivity
  simp [f32, roundNE, h]

theorem f32_one : f32 1 = Fl.fin 1 :=
  f32_pos 1 1 0 8388608 (by norm_num) (by norm_num) (by norm_num) (by norm_num) (by norm_num)
    (by norm_num) (by norm_num) (by norm_num)

theorem f32_ten : f32 10 = Fl.fin 10 :=
  f32_pos 10 10 3 10485760 (by norm_num) (by norm_num) (by norm_num) (by norm_num)
    (by norm_num) (by norm_num) (by norm_num) (by norm_num)

theorem f32_eleven : f32 11 = Fl.fin 11 :=
  f32_pos 11 11 3 11534336 (by norm_num) (by norm_num) (by norm_num) (by norm_num)
    (by norm_num) (by norm_num) (by norm_num) (by norm_num)

theorem f32_eighth : f32 (1 / 8) = Fl.fin (1 / 8) :=
  f32_pos (1 / 8) _ (-3) 8388608 (by norm_num) (by norm_num) (by norm_num) (by norm_num)
    (by norm_num) (by norm_num) (by norm_num) (by norm_num)

theorem f32_two_ninths : f32 (2 / 9) = Fl.fin (14913081 / 67108864) :=
  f32_pos (2 / 9) _ (-3) 14913081 (by norm_num) (by norm_num) (by norm_num) (by norm_num)
    (by norm_num) (by norm_num) (by norm_num) (by norm_num)

theorem f32_five_ninths : f32 (5 / 9) = Fl.fin (2330169 / 4194304) :=
  f32_pos (5 / 9) _ (-1) 9320676 (by norm_num) (by norm_num) (by norm_num) (by norm_num)
    (by norm_num) (by norm_num) (by norm_num) (by norm_num)

theorem f32_tenth : f32 (1 / 10) = Fl.fin (13421773 / 134217728) :=
  f32_pos (1 / 10) _ (-4) 13421773 (by norm_num) (by norm_num) (by norm_num) (by norm_num)
    (by norm_num) (by norm_num) (by norm_num) (by norm_num)

theorem roundNE_tie_odd (x : ℚ) (k : ℤ) (h : x = (k : ℚ) + 1 / 2) (hk : k % 2 = 1) :
    roundNE x = k + 1 := by
  unfold roundNE
  have hf : ⌊x⌋ = k := Int.floor_eq_iff.mpr ⟨by rw [h]; linarith, by rw [h]; linarith⟩
  rw [hf]
  have h3 : ¬ (x - (k : ℚ) < 1 / 2) := by rw [h]; norm_num
  have h4 : ¬ ((1 : ℚ) / 2 < x - (k : ℚ)) := by rw [h]; norm_num
  have h5 : ¬ (k % 2 = 0) := by omega
  rw [if_neg h3, if_neg h4, if_neg h5]

theorem f32_tie_odd (x y : ℚ) (e k : ℤ) (he : -126 ≤ e) (h1 : (2 : ℚ) ^ e ≤ x)
    (h2 : x < (2 : ℚ) ^ (e + 1)) (ht : x / (2 : ℚ) ^ (e - 23) = (k : ℚ) + 1 / 2)
    (hk : k % 2 = 1) (hy : ((k + 1 : ℤ) : ℚ) * (2 : ℚ) ^ (e - 23) = y) (hy0 : 0 ≤ y)
    (hfin : y < (2 : ℚ) ^ (128 : ℤ)) :
    f32 x = Fl.fin y := by
  have hx : 0 < x := lt_of_lt_of_le (by positivity) h1
  have hfin2 : ¬ (2 : ℚ) ^ (128 : ℤ) ≤ |y| := by rw [abs_of_nonneg hy0]; exact not_le.mpr hfin
  unfold f32
  simp only
  rw [abs_of_pos hx, log2_eq x e h1 h2, max_eq_left he, roundNE_tie_odd _ k ht hk, hy,
    if_neg hfin2]

theorem f32_epipolar_difference : f32 (134217731 / 134217728) = Fl.fin 1 :=
  f32_pos (134217731 / 134217728) _ 0 8388608 (by norm_num) (by norm_num) (by norm_num)
    (by norm_num) (by norm_num) (by norm_num) (by norm_num) (by norm_num)

theorem f32_disparity_difference : f32 (20866663 / 262144) = Fl.fin (2608333 / 32768) :=
  f32_tie_odd (20866663 / 262144) _ 6 10433331 (by norm_num) (by norm_num) (by norm_num)
    (by norm_num) (by norm_num) (by norm_num) (by norm_num) (by norm_num)

/-! ## Loops and loop bodies -/

theorem loopM_invariant {α σ : Type} (P : σ → Prop) (body : α → σ → Option σ) (l : List α)
    (hstep : ∀ a ∈ l, ∀ s s1, P s → body a s = some s1 → P s1) :
    ∀ s s1, P s → loopM body l s = some s1 → P s1 := by
  induction l with
  | nil => intro s s1 hs h; simp [loopM] at h; exact h ▸ hs
  | cons a l ih =>
    intro s s1 hs h
    simp only [loopM] at h
    cases hb : body a s with
    | none => simp [hb] at h
    | some s2 =>
      simp only [hb] at h
      exact ih (fun a1 ha1 => hstep a1 (List.mem_cons_of_mem _ ha1)) s2 s1
        (hstep a (List.mem_cons_self _ _) s s2 hs hb) h

theorem initialPointBody_cases (cfg : Config) (cam : PinholeStereoCamera)
    (pts_l pts_r : List KeyPoint) (pdesc_l : Mat) (rl : List (List DMatch))
    (m : List DMatch) (acc acc1 : PointAcc)
    (h : initialPointBody cfg cam pts_l pts_r pdesc_l rl m acc = some acc1) :
    acc1 = acc ∨ ∃ m0 m1 kl kr row, m[0]? = some m0 ∧ m[1]? = some m1 ∧
      rlTrainIdx cfg rl m0.queryIdx m0.trainIdx = some m0.queryIdx ∧
      Fl.lt (Fl.fin cfg.minRatio12P) (f32div m0.distance m1.distance) = true ∧
      at? pts_l m0.queryIdx = some kl ∧ at? pts_r m0.trainIdx = some kr ∧
      Fl.le (Fl.abs (f32sub kl.y kr.y)) (Fl.fin cfg.maxDistEpip) = true ∧
      Fl.le (Fl.fin cfg.minDisp) (f32sub kl.x kr.x) = true ∧
      at? pdesc_l m0.queryIdx = some row ∧
      acc1 = { pdesc_l_ := acc.pdesc_l_ ++ [row]
               stereo_pt := acc.stereo_pt ++
                 [⟨⟨kl.x, kl.y⟩, f32sub kl.x kr.x,
                   cam.backProjection kl.x kl.y (f32sub kl.x kr.x), acc.pt_idx⟩]
               pt_idx := acc.pt_idx + 1 } := by
  unfold initialPointBody at h
  cases h0 : m[0]? with
  | none => simp [h0] at h
  | some m0 =>
  cases hr : rlTrainIdx cfg rl m0.queryIdx m0.trainIdx with
  | none => simp [h0, hr] at h
  | some rl_tdx =>
  cases h1 : m[1]? with
  | none => simp [h0, hr, h1] at h
  | some m1 =>
  simp only [h0, hr, h1] at h
  split_ifs at h with hc
  · cases hkl : at? pts_l m0.queryIdx with
    | none => simp [hkl] at h
    | some kl =>
    cases hkr : at? pts_r m0.trainIdx with
    | none => simp [hkl, hkr] at h
    | some kr =>
    simp only [hkl, hkr] at h
    split_ifs at h with he hd
    · cases hrow : at? pdesc_l m0.queryIdx with
      | none => simp [hrow] at h
      | some row =>
        simp only [hrow, Option.some.injEq] at h
        exact Or.inr ⟨m0, m1, kl, kr, row, rfl, rfl, by rw [hr]; exact congrArg some hc.1.symm, hc.2, hkl, hkr, he, hd,
          hrow, h.symm⟩
    · left; simpa using h.symm
    · left; simpa using h.symm
  · left; simpa using h.symm

theorem stereoPointBody_cases (cfg : Config) (cam : PinholeStereoCamera)
    (pts_l pts_r : List KeyPoint) (pdesc_l : Mat) (rl : List (List DMatch))
    (m : List DMatch) (acc acc1 : PointAcc)
    (h : stereoPointBody cfg cam pts_l pts_r pdesc_l rl m acc = some acc1) :
    acc1 = acc ∨ ∃ m0 m1 kl kr row, m[0]? = some m0 ∧ m[1]? = some m1 ∧
      rlTrainIdx cfg rl m0.queryIdx m0.trainIdx = some m0.queryIdx ∧
      Fl.lt (Fl.fin cfg.minRatio12P) (f32div m0.distance m1.distance) = true ∧
      at? pts_l m0.queryIdx = some kl ∧ at? pts_r m0.trainIdx = some kr ∧
      Fl.le (Fl.abs (f32sub kl.y kr.y)) (Fl.fin cfg.maxDistEpip) = true ∧
      Fl.le (Fl.fin cfg.minDisp) (f32sub kl.x kr.x) = true ∧
      at? pdesc_l m0.queryIdx = some row ∧
      acc1 = { pdesc_l_ := acc.pdesc_l_ ++ [row]
               stereo_pt := acc.stereo_pt ++
                 [⟨⟨kl.x, kl.y⟩, f32sub kl.x kr.x,
                   cam.backProjection kl.x kl.y (f32sub kl.x kr.x), -1⟩]
               pt_idx := acc.pt_idx } := by
  unfold stereoPointBody at h
  cases h0 : m[0]? with
  | none => simp [h0] at h
  | some m0 =>
  cases hr : rlTrainIdx cfg rl m0.queryIdx m0.trainIdx with
  | none => simp [h0, hr] at h
  | some rl_tdx =>
  cases h1 : m[1]? with
  | none => simp [h0, hr, h1] at h
  | some m1 =>
  simp only [h0, hr, h1] at h
  split_ifs at h with hc
  · cases hkl : at? pts_l m0.queryIdx with
    | none => simp [hkl] at h
    | some kl =>
    cases hkr : at? pts_r m0.trainIdx with
    | none => simp [hkl, hkr] at h
    | some kr =>
    simp only [hkl, hkr] at h
    split_ifs at h with he hd
    · cases hrow : at? pdesc_l m0.queryIdx with
      | none => simp [hrow] at h
      | some row =>
        simp only [hrow, Option.some.injEq] at h
        exact Or.inr ⟨m0, m1, kl, kr, row, rfl, rfl, by rw [hr]; exact congrArg some hc.1.symm, hc.2, hkl, hkr, he, hd,
          hrow, h.symm⟩
    · left; simpa using h.symm
    · left; simpa using h.symm
  · left; simpa using h.symm

theorem initialLineBody_cases (cfg : Config) (ext : Extern) (cam : PinholeStereoCamera)
    (lns_l lns_r : List KeyLine) (ldesc_l : Mat) (rl : List (List DMatch))
    (th1 th2 : ℚ) (m : List DMatch) (acc acc1 : LineAcc)
    (h : initialLineBody cfg ext cam lns_l lns_r ldesc_l rl th1 th2 m acc = some acc1) :
    acc1 = acc ∨ ∃ m0 m1 L R ds de row,
      LineGates cfg ext lns_l lns_r rl th1 th2 m m0 m1 L R ds de ∧
      at? ldesc_l m0.queryIdx = some row ∧
      acc1 = { ldesc_l_ := acc.ldesc_l_ ++ [row]
               stereo_ls := acc.stereo_ls ++ [lineFeatureOf ext cam L ds de acc.ls_idx]
               ls_idx := acc.ls_idx + 1 } := by
  unfold initialLineBody at h
  cases h0 : m[0]? with
  | none => simp [h0] at h
  | some m0 =>
  cases hr : rlTrainIdx cfg rl m0.queryIdx m0.trainIdx with
  | none => simp [h0, hr] at h
  | some rl_tdx =>
  cases h1 : m[1]? with
  | none => simp [h0, hr, h1] at h
  | some m1 =>
  cases hR : at? lns_r m0.trainIdx with
  | none => simp [h0, hr, h1, hR] at h
  | some R =>
  simp only [h0, hr, h1, hR] at h
  split_ifs at h with hc
  · cases hL : at? lns_l m0.queryIdx with
    | none => simp [hL] at h
    | some L =>
    simp only [hL] at h
    split_ifs at h with ha hd
    · cases hrow : at? ldesc_l m0.queryIdx with
      | none => simp [hrow] at h
      | some row =>
        simp only [hrow, Option.some.injEq] at h
        exact Or.inr ⟨m0, m1, L, R, dispStart L R, dispEnd L R, row, ⟨h0, h1, by rw [hr, hc.1],
          hL, hR, hc.2.1, hc.2.2, ha.1, ha.2.1, ha.2.2, rfl, rfl, hd.1, hd.2.1, hd.2.2⟩, hrow,
          h.symm⟩
    · left; simpa using h.symm
    · left; simpa using h.symm
  · left; simpa using h.symm

theorem stereoLineBody_cases (cfg : Config) (ext : Extern) (cam : PinholeStereoCamera)
    (lns_l lns_r : List KeyLine) (ldesc_l : Mat) (rl : List (List DMatch))
    (th1 th2 : ℚ) (m : List DMatch) (acc acc1 : LineAcc)
    (h : stereoLineBody cfg ext cam lns_l lns_r ldesc_l rl th1 th2 m acc = some acc1) :
    acc1 = acc ∨ ∃ m0 m1 L R ds de row,
      LineGates cfg ext lns_l lns_r rl th1 th2 m m0 m1 L R ds de ∧
      Fl.lt (maxEig ext cam L.startPointX L.startPointY ds L.endPointX L.endPointY de)
        (Fl.fin cfg.lineCovTh) = true ∧
      at? ldesc_l m0.queryIdx = some row ∧
      acc1 = { ldesc_l_ := acc.ldesc_l_ ++ [row]
               stereo_ls := acc.stereo_ls ++ [lineFeatureOf ext cam L ds de (-1)]
               ls_idx := acc.ls_idx } := by
  unfold stereoLineBody at h
  cases h0 : m[0]? with
  | none => simp [h0] at h
  | some m0 =>
  cases hr : rlTrainIdx cfg rl m0.queryIdx m0.trainIdx with
  | none => simp [h0, hr] at h
  | some rl_tdx =>
  cases h1 : m[1]? with
  | none => simp [h0, hr, h1] at h
  | some m1 =>
  cases hR : at? lns_r m0.trainIdx with
  | none => simp [h0, hr, h1, hR] at h
  | some R =>
  simp only [h0, hr, h1, hR] at h
  split_ifs at h with hc
  · cases hL : at? lns_l m0.queryIdx with
    | none => simp [hL] at h
    | some L =>
    simp only [hL] at h
    split_ifs at h with ha hd hg
    · cases hrow : at? ldesc_l m0.queryIdx with
      | none => simp [hrow] at h
      | some row =>
        simp only [hrow, Option.some.injEq] at h
        exact Or.inr ⟨m0, m1, L, R, dispStart L R, dispEnd L R, row, ⟨h0, h1, by rw [hr, hc.1],
          hL, hR, hc.2.1, hc.2.2, ha.1, ha.2.1, ha.2.2, rfl, rfl, hd.1, hd.2.1, hd.2.2⟩, hg,
          hrow, h.symm⟩
    · left; simpa using h.symm
    · left; simpa using h.symm
    · left; simpa using h.symm
  · left; simpa using h.symm

/-! ## The concrete frame, evaluated -/

theorem ex_points_l : points_l exCfg exExt exFrame = [⟨20, 5⟩, ⟨30, 8⟩] := by
  simp [points_l, detectFeatures, exCfg, exExt, exFrame]

theorem ex_points_r : points_r exCfg exExt exFrame = [⟨10, 5⟩, ⟨29, 8⟩] := by
  simp [points_r, detectFeatures, exCfg, exExt, exFrame]

theorem ex_lines_l :
    lines_l exCfg exExt exFrame = [⟨20, 10, 30, 20, 1, 14⟩, ⟨40, 10, 40, 30, 2, 20⟩] := by
  simp [lines_l, detectFeatures, exCfg, exExt, exFrame]

theorem ex_lines_r :
    lines_r exCfg exExt exFrame = [⟨10, 10, 20, 20, 1, 14⟩, ⟨39, 10, 39, 30, 2, 20⟩] := by
  simp [lines_r, detectFeatures, exCfg, exExt, exFrame]

theorem ex_lineDescriptorMAD :
    lineDescriptorMAD [[⟨1, 1, 2⟩, ⟨1, 0, 9⟩], [⟨0, 0, 1⟩, ⟨0, 1, 8⟩]] 0
      = some (7413 / 2500, 51891 / 5000) := by
  norm_num [lineDescriptorMAD, stdSort, keyed, compare_descriptor_by_NN_dist,
    compare_descriptor_by_NN12_dist, midDistance0, midGap, absDevNN, absDev12, setDistance0,
    List.insertionSort, List.orderedInsert]

theorem ex_initial : extractInitialStereoFeatures exCfg exExt exFrame = some exInitial := by
  simp only [extractInitialStereoFeatures, ex_points_l, ex_points_r, ex_lines_l, ex_lines_r]
  norm_num [initialPoints, initialLines, afterDetect, detectFeatures, minLineLengthTh, exCfg, exExt, exFrame, exCam, exInitial,
    lineKnnMatch, ex_lineDescriptorMAD, stdSort, keyed, sort_descriptor_by_queryIdx, loopM, initialPointBody, initialLineBody,
    rlTrainIdx, at?, fdiv, Fl.lt, Fl.le, Fl.rsub, dispStart, dispEnd, rightLineEq, leftLineEq, Vector3d.cross,
    List.insertionSort, List.orderedInsert, f32sub, f32div, Fl.abs, Fl.div, f32_zero, f32_one,
    f32_ten, f32_eighth, f32_two_ninths]

theorem ex_stereo : extractStereoFeatures exCfg exExt exFrame = some exStereo := by
  simp only [extractStereoFeatures, ex_points_l, ex_points_r, ex_lines_l, ex_lines_r]
  norm_num [stereoPoints, stereoLines, afterDetect, detectFeatures, minLineLengthTh, exCfg,
    exExt, exFrame, exCam, exStereo, lineKnnMatch, ex_lineDescriptorMAD, stdSort, keyed,
    sort_descriptor_by_queryIdx, loopM, stereoPointBody, stereoLineBody, rlTrainIdx, at?, fdiv,
    Fl.lt, Fl.le, Fl.rsub, Fl.max, dispStart, dispEnd, rightLineEq, leftLineEq, Vector3d.cross,
    maxEig, endpointCov, covEntry, List.insertionSort, List.orderedInsert, f32sub, f32div,
    Fl.abs, Fl.div, Fl.mul, Fl.add, f32_zero, f32_one, f32_ten, f32_eighth, f32_two_ninths]

/-! ## The four blocks -/

theorem initialPoints_run (cfg : Config) (ext : Extern) (pl pr : List KeyPoint)
    (fr fr1 : StereoFrame) (h : initialPoints cfg ext pl pr fr = some fr1) :
    (¬ (cfg.hasPoints = true ∧ ¬ pl.length = 0 ∧ ¬ pr.length = 0) ∧ fr1 = fr) ∨
    ((cfg.hasPoints = true ∧ ¬ pl.length = 0 ∧ ¬ pr.length = 0) ∧ ∃ lr rl acc,
      stdSort sort_descriptor_by_queryIdx (ext.bfm_knnMatch fr.pdesc_l fr.pdesc_r) = some lr ∧
      (if cfg.bestLRMatches = true then
          stdSort sort_descriptor_by_queryIdx (ext.bfm_knnMatch fr.pdesc_r fr.pdesc_l)
        else some []) = some rl ∧
      loopM (initialPointBody cfg fr.cam pl pr fr.pdesc_l rl) lr ⟨[], [], 0⟩ = some acc ∧
      fr1 = { fr with pdesc_l := acc.pdesc_l_, stereo_pt := acc.stereo_pt }) := by
  unfold initialPoints at h
  by_cases hc : cfg.hasPoints = true ∧ ¬ pl.length = 0 ∧ ¬ pr.length = 0
  · rw [if_pos hc] at h
    refine Or.inr ⟨hc, ?_⟩
    cases h1 : stdSort sort_descriptor_by_queryIdx (ext.bfm_knnMatch fr.pdesc_l fr.pdesc_r) with
    | none => simp [h1] at h
    | some lr =>
      cases hb : cfg.bestLRMatches with
      | false =>
        simp only [h1, hb, Bool.false_eq_true, if_false] at h
        cases h3 : loopM (initialPointBody cfg fr.cam pl pr fr.pdesc_l []) lr ⟨[], [], 0⟩ with
        | none => simp [h3] at h
        | some acc =>
          simp only [h3, Option.some.injEq] at h
          exact ⟨lr, [], acc, rfl, rfl, h3, h.symm⟩
      | true =>
        simp only [h1, hb, if_true] at h
        cases h2 : stdSort sort_descriptor_by_queryIdx (ext.bfm_knnMatch fr.pdesc_r fr.pdesc_l) with
        | none => simp [h2] at h
        | some rl =>
          simp only [h2] at h
          cases h3 : loopM (initialPointBody cfg fr.cam pl pr fr.pdesc_l rl) lr ⟨[], [], 0⟩ with
          | none => simp [h3] at h
          | some acc =>
            simp only [h3, Option.some.injEq] at h
            exact ⟨lr, rl, acc, rfl, rfl, h3, h.symm⟩
  · rw [if_neg hc] at h
    exact Or.inl ⟨hc, by simpa using h.symm⟩

theorem stereoPoints_run (cfg : Config) (ext : Extern) (pl pr : List KeyPoint)
    (fr fr1 : StereoFrame) (h : stereoPoints cfg ext pl pr fr = some fr1) :
    (¬ (cfg.hasPoints = true ∧ ¬ pl.length = 0 ∧ ¬ pr.length = 0) ∧ fr1 = fr) ∨
    ((cfg.hasPoints = true ∧ ¬ pl.length = 0 ∧ ¬ pr.length = 0) ∧ ∃ lr rl acc,
      stdSort sort_descriptor_by_queryIdx (ext.bfm_knnMatch fr.pdesc_l fr.pdesc_r) = some lr ∧
      (if cfg.bestLRMatches = true then
          stdSort sort_descriptor_by_queryIdx (ext.bfm_knnMatch fr.pdesc_r fr.pdesc_l)
        else some []) = some rl ∧
      loopM (stereoPointBody cfg fr.cam pl pr fr.pdesc_l rl) lr ⟨[], [], 0⟩ = some acc ∧
      fr1 = { fr with pdesc_l := acc.pdesc_l_, stereo_pt := acc.stereo_pt }) := by
  unfold stereoPoints at h
  by_cases hc : cfg.hasPoints = true ∧ ¬ pl.length = 0 ∧ ¬ pr.length = 0
  · rw [if_pos hc] at h
    refine Or.inr ⟨hc, ?_⟩
    cases h1 : stdSort sort_descriptor_by_queryIdx (ext.bfm_knnMatch fr.pdesc_l fr.pdesc_r) with
    | none => simp [h1] at h
    | some lr =>
      cases hb : cfg.bestLRMatches with
      | false =>
        simp only [h1, hb, Bool.false_eq_true, if_false] at h
        cases h3 : loopM (stereoPointBody cfg fr.cam pl pr fr.pdesc_l []) lr ⟨[], [], 0⟩ with
        | none => simp [h3] at h
        | some acc =>
          simp only [h3, Option.some.injEq] at h
          exact ⟨lr, [], acc, rfl, rfl, h3, h.symm⟩
      | true =>
        simp only [h1, hb, if_true] at h
        cases h2 : stdSort sort_descriptor_by_queryIdx (ext.bfm_knnMatch fr.pdesc_r fr.pdesc_l) with
        | none => simp [h2] at h
        | some rl =>
          simp only [h2] at h
          cases h3 : loopM (stereoPointBody cfg fr.cam pl pr fr.pdesc_l rl) lr ⟨[], [], 0⟩ with
          | none => simp [h3] at h
          | some acc =>
            simp only [h3, Option.some.injEq] at h
            exact ⟨lr, rl, acc, rfl, rfl, h3, h.symm⟩
  · rw [if_neg hc] at h
    exact Or.inl ⟨hc, by simpa using h.symm⟩

theorem initialLines_run (cfg : Config) (ext : Extern) (ll lr_ : List KeyLine) (th : ℚ)
    (fr fr1 : StereoFrame) (h : initialLines cfg ext ll lr_ th fr = some fr1) :
    (¬ (cfg.hasLines = true ∧ ¬ ll.length = 0 ∧ ¬ lr_.length = 0) ∧ fr1 = fr) ∨
    ((cfg.hasLines = true ∧ ¬ ll.length = 0 ∧ ¬ lr_.length = 0) ∧ ∃ nn nn12 lr rl acc,
      lineDescriptorMAD (lineKnnMatch cfg ext fr.ldesc_l fr.ldesc_r) ext.nn_dist_median
        = some (nn, nn12) ∧
      stdSort sort_descriptor_by_queryIdx (lineKnnMatch cfg ext fr.ldesc_l fr.ldesc_r) = some lr ∧
      (if cfg.bestLRMatches = true then
          stdSort sort_descriptor_by_queryIdx (lineKnnMatch cfg ext fr.ldesc_r fr.ldesc_l)
        else some []) = some rl ∧
      loopM (initialLineBody cfg ext fr.cam ll lr_ fr.ldesc_l rl th (nn12 * cfg.descThL))
        (lr.take (if cfg.bestLRMatches = true then min lr.length rl.length else lr.length))
        ⟨[], [], 0⟩ = some acc ∧
      fr1 = { fr with ldesc_l := acc.ldesc_l_, stereo_ls := acc.stereo_ls }) := by
  unfold initialLines at h
  by_cases hc : cfg.hasLines = true ∧ ¬ ll.length = 0 ∧ ¬ lr_.length = 0
  · rw [if_pos hc] at h
    refine Or.inr ⟨hc, ?_⟩
    cases h0 : lineDescriptorMAD (lineKnnMatch cfg ext fr.ldesc_l fr.ldesc_r)
        ext.nn_dist_median with
    | none => simp [h0] at h
    | some p =>
      obtain ⟨nn, nn12⟩ := p
      cases h1 : stdSort sort_descriptor_by_queryIdx
          (lineKnnMatch cfg ext fr.ldesc_l fr.ldesc_r) with
      | none => simp [h0, h1] at h
      | some lr =>
        cases hb : cfg.bestLRMatches with
        | false =>
          simp only [h0, h1, hb, Bool.false_eq_true, if_false, List.take_length] at h
          cases h3 : loopM (initialLineBody cfg ext fr.cam ll lr_ fr.ldesc_l [] th
              (nn12 * cfg.descThL)) lr ⟨[], [], 0⟩ with
          | none => rw [h3] at h; simp at h
          | some acc =>
            simp only [h3, Option.some.injEq] at h
            exact ⟨nn, nn12, lr, [], acc, rfl, rfl, rfl, by simpa using h3, h.symm⟩
        | true =>
          simp only [h0, h1, hb, if_true] at h
          cases h2 : stdSort sort_descriptor_by_queryIdx
              (lineKnnMatch cfg ext fr.ldesc_r fr.ldesc_l) with
          | none => simp [h2] at h
          | some rl =>
            simp only [h2] at h
            cases h3 : loopM (initialLineBody cfg ext fr.cam ll lr_ fr.ldesc_l rl th
                (nn12 * cfg.descThL)) (lr.take (min lr.length rl.length)) ⟨[], [], 0⟩ with
            | none => simp [h3] at h
            | some acc =>
              simp only [h3, Option.some.injEq] at h
              exact ⟨nn, nn12, lr, rl, acc, rfl, rfl, rfl, h3, h.symm⟩
  · rw [if_neg hc] at h
    exact Or.inl ⟨hc, by simpa using h.symm⟩

theorem stereoLines_run (cfg : Config) (ext : Extern) (ll lr_ : List KeyLine) (th : ℚ)
    (fr fr1 : StereoFrame) (h : stereoLines cfg ext ll lr_ th fr = some fr1) :
    (¬ (cfg.hasLines = true ∧ ¬ ll.length = 0 ∧ ¬ lr_.length = 0) ∧ fr1 = fr) ∨
    ((cfg.hasLines = true ∧ ¬ ll.length = 0 ∧ ¬ lr_.length = 0) ∧ ∃ nn nn12 lr rl acc,
      lineDescriptorMAD (lineKnnMatch cfg ext fr.ldesc_l fr.ldesc_r) ext.nn_dist_median
        = some (nn, nn12) ∧
      stdSort sort_descriptor_by_queryIdx (lineKnnMatch cfg ext fr.ldesc_l fr.ldesc_r) = some lr ∧
      (if cfg.bestLRMatches = true then
          stdSort sort_descriptor_by_queryIdx (lineKnnMatch cfg ext fr.ldesc_r fr.ldesc_l)
        else some []) = some rl ∧
      loopM (stereoLineBody cfg ext fr.cam ll lr_ fr.ldesc_l rl th (nn12 * cfg.descThL))
        (lr.take (if cfg.bestLRMatches = true then min lr.length rl.length else lr.length))
        ⟨[], [], 0⟩ = some acc ∧
      fr1 = { fr with ldesc_l := acc.ldesc_l_, stereo_ls := acc.stereo_ls }) := by
  unfold stereoLines at h
  by_cases hc : cfg.hasLines = true ∧ ¬ ll.length = 0 ∧ ¬ lr_.length = 0
  · rw [if_pos hc] at h
    refine Or.inr ⟨hc, ?_⟩
    cases h0 : lineDescriptorMAD (lineKnnMatch cfg ext fr.ldesc_l fr.ldesc_r)
        ext.nn_dist_median with
    | none => simp [h0] at h
    | some p =>
      obtain ⟨nn, nn12⟩ := p
      cases h1 : stdSort sort_descriptor_by_queryIdx
          (lineKnnMatch cfg ext fr.ldesc_l fr.ldesc_r) with
      | none => simp [h0, h1] at h
      | some lr =>
        cases hb : cfg.bestLRMatches with
        | false =>
          simp only [h0, h1, hb, Bool.false_eq_true, if_false, List.take_length] at h
          cases h3 : loopM (stereoLineBody cfg ext fr.cam ll lr_ fr.ldesc_l [] th
              (nn12 * cfg.descThL)) lr ⟨[], [], 0⟩ with
          | none => rw [h3] at h; simp at h
          | some acc =>
            simp only [h3, Option.some.injEq] at h
            exact ⟨nn, nn12, lr, [], acc, rfl, rfl, rfl, by simpa using h3, h.symm⟩
        | true =>
          simp only [h0, h1, hb, if_true] at h
          cases h2 : stdSort sort_descriptor_by_queryIdx
              (lineKnnMatch cfg ext fr.ldesc_r fr.ldesc_l) with
          | none => simp [h2] at h
          | some rl =>
            simp only [h2] at h
            cases h3 : loopM (stereoLineBody cfg ext fr.cam ll lr_ fr.ldesc_l rl th
                (nn12 * cfg.descThL)) (lr.take (min lr.length rl.length)) ⟨[], [], 0⟩ with
            | none => simp [h3] at h
            | some acc =>
              simp only [h3, Option.some.injEq] at h
              exact ⟨nn, nn12, lr, rl, acc, rfl, rfl, rfl, h3, h.symm⟩
  · rw [if_neg hc] at h
    exact Or.inl ⟨hc, by simpa using h.symm⟩

/-! ## The two methods, block by block -/

theorem initial_points_loop (cfg : Config) (ext : Extern) (fr fr2 : StereoFrame)
    (h : extractInitialStereoFeatures cfg ext fr = some fr2) :
    (¬ (cfg.hasPoints = true ∧ ¬ (points_l cfg ext fr).length = 0
        ∧ ¬ (points_r cfg ext fr).length = 0) ∧ fr2.stereo_pt = fr.stereo_pt) ∨
    ((cfg.hasPoints = true ∧ ¬ (points_l cfg ext fr).length = 0
        ∧ ¬ (points_r cfg ext fr).length = 0) ∧ ∃ lr rl acc,
      stdSort sort_descriptor_by_queryIdx (ext.bfm_knnMatch (afterDetect cfg ext fr).pdesc_l
        (afterDetect cfg ext fr).pdesc_r) = some lr ∧
      (if cfg.bestLRMatches = true then
          stdSort sort_descriptor_by_queryIdx (ext.bfm_knnMatch (afterDetect cfg ext fr).pdesc_r
            (afterDetect cfg ext fr).pdesc_l)
        else some []) = some rl ∧
      loopM (initialPointBody cfg fr.cam (points_l cfg ext fr) (points_r cfg ext fr)
        (afterDetect cfg ext fr).pdesc_l rl) lr ⟨[], [], 0⟩ = some acc ∧
      fr2.stereo_pt = acc.stereo_pt ∧ fr2.pdesc_l = acc.pdesc_l_) := by
  unfold extractInitialStereoFeatures at h
  cases hp : initialPoints cfg ext (points_l cfg ext fr) (points_r cfg ext fr)
      (afterDetect cfg ext fr) with
  | none => simp [hp] at h
  | some fr1 =>
    simp only [hp] at h
    have hl : fr2.stereo_pt = fr1.stereo_pt ∧ fr2.pdesc_l = fr1.pdesc_l := by
      rcases initialLines_run _ _ _ _ _ _ _ h with ⟨_, e⟩ | ⟨_, _, _, _, _, _, _, _, _, _, e⟩
      · rw [e]; exact ⟨rfl, rfl⟩
      · rw [e]; exact ⟨rfl, rfl⟩
    rcases initialPoints_run _ _ _ _ _ _ hp with ⟨hc, e⟩ | ⟨hc, lr, rl, acc, h1, h2, h3, e⟩
    · refine Or.inl ⟨hc, ?_⟩
      rw [hl.1, e]; rfl
    · refine Or.inr ⟨hc, lr, rl, acc, h1, h2, h3, ?_, ?_⟩
      · rw [hl.1, e]
      · rw [hl.2, e]

theorem stereo_points_loop (cfg : Config) (ext : Extern) (fr fr2 : StereoFrame)
    (h : extractStereoFeatures cfg ext fr = some fr2) :
    (¬ (cfg.hasPoints = true ∧ ¬ (points_l cfg ext fr).length = 0
        ∧ ¬ (points_r cfg ext fr).length = 0) ∧ fr2.stereo_pt = fr.stereo_pt) ∨
    ((cfg.hasPoints = true ∧ ¬ (points_l cfg ext fr).length = 0
        ∧ ¬ (points_r cfg ext fr).length = 0) ∧ ∃ lr rl acc,
      stdSort sort_descriptor_by_queryIdx (ext.bfm_knnMatch (afterDetect cfg ext fr).pdesc_l
        (afterDetect cfg ext fr).pdesc_r) = some lr ∧
      (if cfg.bestLRMatches = true then
          stdSort sort_descriptor_by_queryIdx (ext.bfm_knnMatch (afterDetect cfg ext fr).pdesc_r
            (afterDetect cfg ext fr).pdesc_l)
        else some []) = some rl ∧
      loopM (stereoPointBody cfg fr.cam (points_l cfg ext fr) (points_r cfg ext fr)
        (afterDetect cfg ext fr).pdesc_l rl) lr ⟨[], [], 0⟩ = some acc ∧
      fr2.stereo_pt = acc.stereo_pt ∧ fr2.pdesc_l = acc.pdesc_l_) := by
  unfold extractStereoFeatures at h
  cases hp : stereoPoints cfg ext (points_l cfg ext fr) (points_r cfg ext fr)
      (afterDetect cfg ext fr) with
  | none => simp [hp] at h
  | some fr1 =>
    simp only [hp] at h
    have hl : fr2.stereo_pt = fr1.stereo_pt ∧ fr2.pdesc_l = fr1.pdesc_l := by
      rcases stereoLines_run _ _ _ _ _ _ _ h with ⟨_, e⟩ | ⟨_, _, _, _, _, _, _, _, _, _, e⟩
      · rw [e]; exact ⟨rfl, rfl⟩
      · rw [e]; exact ⟨rfl, rfl⟩
    rcases stereoPoints_run _ _ _ _ _ _ hp with ⟨hc, e⟩ | ⟨hc, lr, rl, acc, h1, h2, h3, e⟩
    · refine Or.inl ⟨hc, ?_⟩
      rw [hl.1, e]; rfl
    · refine Or.inr ⟨hc, lr, rl, acc, h1, h2, h3, ?_, ?_⟩
      · rw [hl.1, e]
      · rw [hl.2, e]

theorem initial_lines_loop (cfg : Config) (ext : Extern) (fr fr2 : StereoFrame)
    (h : extractInitialStereoFeatures cfg ext fr = some fr2) :
    (¬ (cfg.hasLines = true ∧ ¬ (lines_l cfg ext fr).length = 0
        ∧ ¬ (lines_r cfg ext fr).length = 0) ∧ fr2.stereo_ls = fr.stereo_ls) ∨
    ((cfg.hasLines = true ∧ ¬ (lines_l cfg ext fr).length = 0
        ∧ ¬ (lines_r cfg ext fr).length = 0) ∧ ∃ nn nn12 lr rl acc,
      lineDescriptorMAD (lineKnnMatch cfg ext (afterDetect cfg ext fr).ldesc_l
        (afterDetect cfg ext fr).ldesc_r) ext.nn_dist_median = some (nn, nn12) ∧
      stdSort sort_descriptor_by_queryIdx (lineKnnMatch cfg ext (afterDetect cfg ext fr).ldesc_l
        (afterDetect cfg ext fr).ldesc_r) = some lr ∧
      (if cfg.bestLRMatches = true then
          stdSort sort_descriptor_by_queryIdx (lineKnnMatch cfg ext
            (afterDetect cfg ext fr).ldesc_r (afterDetect cfg ext fr).ldesc_l)
        else some []) = some rl ∧
      loopM (initialLineBody cfg ext fr.cam (lines_l cfg ext fr) (lines_r cfg ext fr)
          (afterDetect cfg ext fr).ldesc_l rl (minLineLengthTh cfg fr.cam) (nn12 * cfg.descThL))
        (lr.take (if cfg.bestLRMatches = true then min lr.length rl.length else lr.length))
        ⟨[], [], 0⟩ = some acc ∧
      fr2.stereo_ls = acc.stereo_ls ∧ fr2.ldesc_l = acc.ldesc_l_) := by
  unfold extractInitialStereoFeatures at h
  cases hp : initialPoints cfg ext (points_l cfg ext fr) (points_r cfg ext fr)
      (afterDetect cfg ext fr) with
  | none => simp [hp] at h
  | some fr1 =>
    simp only [hp] at h
    have hl : fr1.stereo_ls = fr.stereo_ls ∧ fr1.ldesc_l = (afterDetect cfg ext fr).ldesc_l ∧
        fr1.ldesc_r = (afterDetect cfg ext fr).ldesc_r ∧ fr1.cam = fr.cam := by
      rcases initialPoints_run _ _ _ _ _ _ hp with ⟨_, e⟩ | ⟨_, _, _, _, _, _, _, e⟩
      · rw [e]; exact ⟨rfl, rfl, rfl, rfl⟩
      · rw [e]; exact ⟨rfl, rfl, rfl, rfl⟩
    obtain ⟨e1, e2, e3, e4⟩ := hl
    rcases initialLines_run _ _ _ _ _ _ _ h with
      ⟨hc, e⟩ | ⟨hc, nn, nn12, lr, rl, acc, h0, h1, h2, h3, e⟩
    · refine Or.inl ⟨hc, ?_⟩
      rw [e, e1]
    · rw [e2, e3] at h0 h1 h2
      rw [e2, e4] at h3
      refine Or.inr ⟨hc, nn, nn12, lr, rl, acc, h0, h1, h2, h3, ?_, ?_⟩
      · rw [e]
      · rw [e]

theorem stereo_lines_loop (cfg : Config) (ext : Extern) (fr fr2 : StereoFrame)
    (h : extractStereoFeatures cfg ext fr = some fr2) :
    (¬ (cfg.hasLines = true ∧ ¬ (lines_l cfg ext fr).length = 0
        ∧ ¬ (lines_r cfg ext fr).length = 0) ∧ fr2.stereo_ls = fr.stereo_ls) ∨
    ((cfg.hasLines = true ∧ ¬ (lines_l cfg ext fr).length = 0
        ∧ ¬ (lines_r cfg ext fr).length = 0) ∧ ∃ nn nn12 lr rl acc,
      lineDescriptorMAD (lineKnnMatch cfg ext (afterDetect cfg ext fr).ldesc_l
        (afterDetect cfg ext fr).ldesc_r) ext.nn_dist_median = some (nn, nn12) ∧
      stdSort sort_descriptor_by_queryIdx (lineKnnMatch cfg ext (afterDetect cfg ext fr).ldesc_l
        (afterDetect cfg ext fr).ldesc_r) = some lr ∧
      (if cfg.bestLRMatches = true then
          stdSort sort_descriptor_by_queryIdx (lineKnnMatch cfg ext
            (afterDetect cfg ext fr).ldesc_r (afterDetect cfg ext fr).ldesc_l)
        else some []) = some rl ∧
      loopM (stereoLineBody cfg ext fr.cam (lines_l cfg ext fr) (lines_r cfg ext fr)
          (afterDetect cfg ext fr).ldesc_l rl (minLineLengthTh cfg fr.cam) (nn12 * cfg.descThL))
        (lr.take (if cfg.bestLRMatches = true then min lr.length rl.length else lr.length))
        ⟨[], [], 0⟩ = some acc ∧
      fr2.stereo_ls = acc.stereo_ls ∧ fr2.ldesc_l = acc.ldesc_l_) := by
  unfold extractStereoFeatures at h
  cases hp : stereoPoints cfg ext (points_l cfg ext fr) (points_r cfg ext fr)
      (afterDetect cfg ext fr) with
  | none => simp [hp] at h
  | some fr1 =>
    simp only [hp] at h
    have hl : fr1.stereo_ls = fr.stereo_ls ∧ fr1.ldesc_l = (afterDetect cfg ext fr).ldesc_l ∧
        fr1.ldesc_r = (afterDetect cfg ext fr).ldesc_r ∧ fr1.cam = fr.cam := by
      rcases stereoPoints_run _ _ _ _ _ _ hp with ⟨_, e⟩ | ⟨_, _, _, _, _, _, _, e⟩
      · rw [e]; exact ⟨rfl, rfl, rfl, rfl⟩
      · rw [e]; exact ⟨rfl, rfl, rfl, rfl⟩
    obtain ⟨e1, e2, e3, e4⟩ := hl
    rcases stereoLines_run _ _ _ _ _ _ _ h with
      ⟨hc, e⟩ | ⟨hc, nn, nn12, lr, rl, acc, h0, h1, h2, h3, e⟩
    · refine Or.inl ⟨hc, ?_⟩
      rw [e, e1]
    · rw [e2, e3] at h0 h1 h2
      rw [e2, e4] at h3
      refine Or.inr ⟨hc, nn, nn12, lr, rl, acc, h0, h1, h2, h3, ?_, ?_⟩
      · rw [e]
      · rw [e]

/-! ## Sorting keeps the candidates -/

theorem keyed_map_snd {α K : Type} (key : α → Option K) :
    ∀ (v : List α) (kv : List (K × α)), keyed key v = some kv → kv.map Prod.snd = v := by
  intro v
  induction v with
  | nil => intro kv h; simp [keyed] at h; simp [← h]
  | cons a l ih =>
    intro kv h
    unfold keyed at h
    cases hk : key a with
    | none => simp [hk] at h
    | some k =>
      cases hr : keyed key l with
      | none => simp [hk, hr] at h
      | some r =>
        simp only [hk, hr, Option.some.injEq] at h
        rw [← h]
        simp [ih r hr]

theorem stdSort_perm {α K : Type} [LinearOrder K] (key : α → Option K) (v w : List α)
    (h : stdSort key v = some w) : w.Perm v := by
  unfold stdSort at h
  split_ifs at h with hl
  · simp only [Option.some.injEq] at h
    rw [h]
  · cases hk : keyed key v with
    | none => simp [hk] at h
    | some kv =>
      simp only [hk, Option.map_some', Option.some.injEq] at h
      rw [← h, ← keyed_map_snd key v kv hk]
      exact (List.perm_insertionSort _ kv).map _

theorem stdSort_mem {α K : Type} [LinearOrder K] (key : α → Option K) (v w : List α)
    (h : stdSort key v = some w) (a : α) (ha : a ∈ w) : a ∈ v :=
  (stdSort_perm key v w h).mem_iff.mp ha

/-! ## Every accepted feature comes from a candidate that passes the tests -/

theorem initialPointBody_step (cfg : Config) (cam : PinholeStereoCamera)
    (pts_l pts_r : List KeyPoint) (pdesc_l : Mat) (rl : List (List DMatch))
    (m : List DMatch) (acc acc1 : PointAcc)
    (h : initialPointBody cfg cam pts_l pts_r pdesc_l rl m acc = some acc1) :
    acc1 = acc ∨ ∃ m0 m1 kl kr row, PointGates cfg pts_l pts_r rl m m0 m1 kl kr ∧
      at? pdesc_l m0.queryIdx = some row ∧
      acc1 = { pdesc_l_ := acc.pdesc_l_ ++ [row]
               stereo_pt := acc.stereo_pt ++ [pointFeatureOf cam kl kr acc.pt_idx]
               pt_idx := acc.pt_idx + 1 } := by
  rcases initialPointBody_cases _ _ _ _ _ _ _ _ _ h with e | ⟨m0, m1, kl, kr, row, a1, a2, a3, a4,
    a5, a6, a7, a8, a9, e⟩
  · exact Or.inl e
  · exact Or.inr ⟨m0, m1, kl, kr, row, ⟨a1, a2, a3, a4, a5, a6, a7, a8⟩, a9, e⟩

theorem stereoPointBody_step (cfg : Config) (cam : PinholeStereoCamera)
    (pts_l pts_r : List KeyPoint) (pdesc_l : Mat) (rl : List (List DMatch))
    (m : List DMatch) (acc acc1 : PointAcc)
    (h : stereoPointBody cfg cam pts_l pts_r pdesc_l rl m acc = some acc1) :
    acc1 = acc ∨ ∃ m0 m1 kl kr row, PointGates cfg pts_l pts_r rl m m0 m1 kl kr ∧
      at? pdesc_l m0.queryIdx = some row ∧
      acc1 = { pdesc_l_ := acc.pdesc_l_ ++ [row]
               stereo_pt := acc.stereo_pt ++ [pointFeatureOf cam kl kr (-1)]
               pt_idx := acc.pt_idx } := by
  rcases stereoPointBody_cases _ _ _ _ _ _ _ _ _ h with e | ⟨m0, m1, kl, kr, row, a1, a2, a3, a4,
    a5, a6, a7, a8, a9, e⟩
  · exact Or.inl e
  · exact Or.inr ⟨m0, m1, kl, kr, row, ⟨a1, a2, a3, a4, a5, a6, a7, a8⟩, a9, e⟩

theorem initialPoint_loop_features (cfg : Config) (cam : PinholeStereoCamera)
    (pts_l pts_r : List KeyPoint) (pdesc_l : Mat) (rl lr : List (List DMatch)) (acc : PointAcc)
    (h : loopM (initialPointBody cfg cam pts_l pts_r pdesc_l rl) lr ⟨[], [], 0⟩ = some acc) :
    ∀ f ∈ acc.stereo_pt, ∃ m ∈ lr, ∃ m0 m1 kl kr idx,
      PointGates cfg pts_l pts_r rl m m0 m1 kl kr ∧ f = pointFeatureOf cam kl kr idx := by
  refine loopM_invariant (fun s => ∀ f ∈ s.stereo_pt, ∃ m ∈ lr, ∃ m0 m1 kl kr idx,
      PointGates cfg pts_l pts_r rl m m0 m1 kl kr ∧ f = pointFeatureOf cam kl kr idx)
    _ lr ?_ _ _ (by simp) h
  intro m hm s s1 hs hb f hf
  rcases initialPointBody_step _ _ _ _ _ _ _ _ _ hb with e | ⟨m0, m1, kl, kr, row, hg, _, e⟩
  · rw [e] at hf; exact hs f hf
  · rw [e] at hf
    rcases List.mem_append.mp hf with hf | hf
    · exact hs f hf
    · exact ⟨m, hm, m0, m1, kl, kr, s.pt_idx, hg, by simpa using hf⟩

theorem stereoPoint_loop_features (cfg : Config) (cam : PinholeStereoCamera)
    (pts_l pts_r : List KeyPoint) (pdesc_l : Mat) (rl lr : List (List DMatch)) (acc : PointAcc)
    (h : loopM (stereoPointBody cfg cam pts_l pts_r pdesc_l rl) lr ⟨[], [], 0⟩ = some acc) :
    ∀ f ∈ acc.stereo_pt, ∃ m ∈ lr, ∃ m0 m1 kl kr idx,
      PointGates cfg pts_l pts_r rl m m0 m1 kl kr ∧ f = pointFeatureOf cam kl kr idx := by
  refine loopM_invariant (fun s => ∀ f ∈ s.stereo_pt, ∃ m ∈ lr, ∃ m0 m1 kl kr idx,
      PointGates cfg pts_l pts_r rl m m0 m1 kl kr ∧ f = pointFeatureOf cam kl kr idx)
    _ lr ?_ _ _ (by simp) h
  intro m hm s s1 hs hb f hf
  rcases stereoPointBody_step _ _ _ _ _ _ _ _ _ hb with e | ⟨m0, m1, kl, kr, row, hg, _, e⟩
  · rw [e] at hf; exact hs f hf
  · rw [e] at hf
    rcases List.mem_append.mp hf with hf | hf
    · exact hs f hf
    · exact ⟨m, hm, m0, m1, kl, kr, -1, hg, by simpa using hf⟩

theorem initialLine_loop_features (cfg : Config) (ext : Extern) (cam : PinholeStereoCamera)
    (lns_l lns_r : List KeyLine) (ldesc_l : Mat) (rl lr : List (List DMatch)) (th1 th2 : ℚ)
    (acc : LineAcc)
    (h : loopM (initialLineBody cfg ext cam lns_l lns_r ldesc_l rl th1 th2) lr ⟨[], [], 0⟩
      = some acc) :
    ∀ f ∈ acc.stereo_ls, ∃ m ∈ lr, ∃ m0 m1 L R ds de idx,
      LineGates cfg ext lns_l lns_r rl th1 th2 m m0 m1 L R ds de ∧
      f = lineFeatureOf ext cam L ds de idx := by
  refine loopM_invariant (fun s => ∀ f ∈ s.stereo_ls, ∃ m ∈ lr, ∃ m0 m1 L R ds de idx,
      LineGates cfg ext lns_l lns_r rl th1 th2 m m0 m1 L R ds de ∧
      f = lineFeatureOf ext cam L ds de idx) _ lr ?_ _ _ (by simp) h
  intro m hm s s1 hs hb f hf
  rcases initialLineBody_cases _ _ _ _ _ _ _ _ _ _ _ _ hb with
    e | ⟨m0, m1, L, R, ds, de, row, hg, _, e⟩
  · rw [e] at hf; exact hs f hf
  · rw [e] at hf
    rcases List.mem_append.mp hf with hf | hf
    · exact hs f hf
    · exact ⟨m, hm, m0, m1, L, R, ds, de, s.ls_idx, hg, by simpa using hf⟩

theorem stereoLine_loop_features (cfg : Config) (ext : Extern) (cam : PinholeStereoCamera)
    (lns_l lns_r : List KeyLine) (ldesc_l : Mat) (rl lr : List (List DMatch)) (th1 th2 : ℚ)
    (acc : LineAcc)
    (h : loopM (stereoLineBody cfg ext cam lns_l lns_r ldesc_l rl th1 th2) lr ⟨[], [], 0⟩
      = some acc) :
    ∀ f ∈ acc.stereo_ls, ∃ m ∈ lr, ∃ m0 m1 L R ds de idx,
      LineGates cfg ext lns_l lns_r rl th1 th2 m m0 m1 L R ds de ∧
      Fl.lt (maxEig ext cam L.startPointX L.startPointY ds L.endPointX L.endPointY de)
        (Fl.fin cfg.lineCovTh) = true ∧
      f = lineFeatureOf ext cam L ds de idx := by
  refine loopM_invariant (fun s => ∀ f ∈ s.stereo_ls, ∃ m ∈ lr, ∃ m0 m1 L R ds de idx,
      LineGates cfg ext lns_l lns_r rl th1 th2 m m0 m1 L R ds de ∧
      Fl.lt (maxEig ext cam L.startPointX L.startPointY ds L.endPointX L.endPointY de)
        (Fl.fin cfg.lineCovTh) = true ∧
      f = lineFeatureOf ext cam L ds de idx) _ lr ?_ _ _ (by simp) h
  intro m hm s s1 hs hb f hf
  rcases stereoLineBody_cases _ _ _ _ _ _ _ _ _ _ _ _ hb with
    e | ⟨m0, m1, L, R, ds, de, row, hg, hu, _, e⟩
  · rw [e] at hf; exact hs f hf
  · rw [e] at hf
    rcases List.mem_append.mp hf with hf | hf
    · exact hs f hf
    · exact ⟨m, hm, m0, m1, L, R, ds, de, -1, hg, hu, by simpa using hf⟩

theorem ex_pointBlockRuns : pointBlockRuns exCfg exExt exFrame :=
  ⟨rfl, by rw [ex_points_l]; simp, by rw [ex_points_r]; simp⟩

theorem ex_lineBlockRuns : lineBlockRuns exCfg exExt exFrame :=
  ⟨rfl, by rw [ex_lines_l]; simp, by rw [ex_lines_r]; simp⟩

/-! ## Accepted point features -/

/-- C1 (as amended): every point feature that `extractInitialStereoFeatures` or
`extractStereoFeatures` appends to `stereo_pt` is built from the left and right
key-points of a candidate, its disparity is the `float` difference
`left.x - right.x`, the disparity is at least `Config::minDisp()` and the
`float` difference of the ordinates satisfies
`|y_left - y_right| <= Config::maxDistEpip()`. -/
theorem point_features_meet_disparity_and_epipolar_gate (cfg : Config) (ext : Extern)
    (fr fr2 : StereoFrame)
    (h : extractInitialStereoFeatures cfg ext fr = some fr2 ∨
      extractStereoFeatures cfg ext fr = some fr2)
    (hrun : pointBlockRuns cfg ext fr) :
    ∀ f ∈ fr2.stereo_pt, ∃ m ∈ pmatches_lr cfg ext fr, ∃ m0 kl kr,
      m[0]? = some m0 ∧ at? (points_l cfg ext fr) m0.queryIdx = some kl ∧
      at? (points_r cfg ext fr) m0.trainIdx = some kr ∧
      f.pl = ⟨kl.x, kl.y⟩ ∧ f.disp = f32sub kl.x kr.x ∧
      Fl.le (Fl.fin cfg.minDisp) f.disp = true ∧
      Fl.le (Fl.abs (f32sub kl.y kr.y)) (Fl.fin cfg.maxDistEpip) = true := by
  intro f hf
  have key : ∃ lr, stdSort sort_descriptor_by_queryIdx (pmatches_lr cfg ext fr) = some lr ∧
      ∃ rl, ∃ m ∈ lr, ∃ m0 m1 kl kr idx,
        PointGates cfg (points_l cfg ext fr) (points_r cfg ext fr) rl m m0 m1 kl kr ∧
        f = pointFeatureOf fr.cam kl kr idx := by
    rcases h with h | h
    · rcases initial_points_loop cfg ext fr fr2 h with ⟨hc, _⟩ | ⟨_, lr, rl, acc, h1, _, h3, e, _⟩
      · exact absurd hrun hc
      · rw [e] at hf
        exact ⟨lr, h1, rl, initialPoint_loop_features _ _ _ _ _ _ _ _ h3 f hf⟩
    · rcases stereo_points_loop cfg ext fr fr2 h with ⟨hc, _⟩ | ⟨_, lr, rl, acc, h1, _, h3, e, _⟩
      · exact absurd hrun hc
      · rw [e] at hf
        exact ⟨lr, h1, rl, stereoPoint_loop_features _ _ _ _ _ _ _ _ h3 f hf⟩
  obtain ⟨lr, h1, rl, m, hm, m0, m1, kl, kr, idx, hg, e⟩ := key
  obtain ⟨g1, _, _, _, g5, g6, g7, g8⟩ := hg
  refine ⟨m, stdSort_mem _ _ _ h1 m hm, m0, kl, kr, g1, g5, g6, ?_, ?_, ?_, g7⟩
  · rw [e]; rfl
  · rw [e]; rfl
  · rw [e]; exact g8

theorem point_features_meet_disparity_and_epipolar_gate_witness :
    (extractInitialStereoFeatures exCfg exExt exFrame = some exInitial ∨
      extractStereoFeatures exCfg exExt exFrame = some exInitial) ∧
    pointBlockRuns exCfg exExt exFrame ∧
    ∀ f ∈ exInitial.stereo_pt, ∃ m ∈ pmatches_lr exCfg exExt exFrame, ∃ m0 kl kr,
      m[0]? = some m0 ∧ at? (points_l exCfg exExt exFrame) m0.queryIdx = some kl ∧
      at? (points_r exCfg exExt exFrame) m0.trainIdx = some kr ∧
      f.pl = ⟨kl.x, kl.y⟩ ∧ f.disp = f32sub kl.x kr.x ∧
      Fl.le (Fl.fin exCfg.minDisp) f.disp = true ∧
      Fl.le (Fl.abs (f32sub kl.y kr.y)) (Fl.fin exCfg.maxDistEpip) = true :=
  ⟨Or.inl ex_initial, ex_pointBlockRuns,
    point_features_meet_disparity_and_epipolar_gate exCfg exExt exFrame exInitial
      (Or.inl ex_initial) ex_pointBlockRuns⟩

theorem ex_round_points_l :
    points_l exCfg exRound exFrame = [⟨6573261 / 65536, 9227469 / 8388608⟩, ⟨30, 8⟩] := by
  simp [points_l, detectFeatures, exCfg, exRound, exExt, exFrame]

theorem ex_round_points_r :
    points_r exCfg exRound exFrame = [⟨5426381 / 262144, 13421773 / 134217728⟩, ⟨29, 8⟩] := by
  simp [points_r, detectFeatures, exCfg, exRound, exExt, exFrame]

theorem ex_round_lines_l :
    lines_l exCfg exRound exFrame = [⟨20, 10, 30, 20, 1, 14⟩, ⟨40, 10, 40, 30, 2, 20⟩] := by
  simp [lines_l, detectFeatures, exCfg, exRound, exExt, exFrame]

theorem ex_round_lines_r :
    lines_r exCfg exRound exFrame = [⟨10, 10, 20, 20, 1, 14⟩, ⟨39, 10, 39, 30, 2, 20⟩] := by
  simp [lines_r, detectFeatures, exCfg, exRound, exExt, exFrame]

theorem ex_round_initial :
    extractInitialStereoFeatures exCfg exRound exFrame = some exRoundInitial := by
  simp only [extractInitialStereoFeatures, ex_round_points_l, ex_round_points_r,
    ex_round_lines_l, ex_round_lines_r]
  norm_num [initialPoints, initialLines, afterDetect, detectFeatures, minLineLengthTh, exCfg,
    exRound, exExt, exFrame, exCam, exInitial, exRoundInitial, lineKnnMatch,
    ex_lineDescriptorMAD, stdSort, keyed, sort_descriptor_by_queryIdx, loopM,
    initialPointBody, initialLineBody, rlTrainIdx, at?, fdiv, Fl.lt, Fl.le, Fl.rsub, dispStart,
    dispEnd, rightLineEq, leftLineEq, Vector3d.cross, List.insertionSort, List.orderedInsert,
    f32sub, f32div, Fl.abs, Fl.div, f32_zero, f32_one, f32_eighth, f32_two_ninths,
    f32_epipolar_difference, f32_disparity_difference]

/-- C1 (as stated) fails: with `maxDistEpip = 1` and `minDisp = 1` the bootstrap
extraction stores a point feature for the left key-point `(100.3f, 1.1f)`,
matched to the right key-point `(20.7f, 0.1f)`.  No right key-point has
`|y_left - y_right| <= 1` (the difference to `0.1f` is `134217731 / 134217728`,
which the code rounds to `1`), and the stored disparity `2608333 / 32768` is the
rounded difference, not `left.x - right.x` of any right key-point. -/
theorem rounded_epipolar_difference_accepts_point :
    extractInitialStereoFeatures exCfg exRound exFrame = some exRoundInitial ∧
    pointBlockRuns exCfg exRound exFrame ∧
    points_r exCfg exRound exFrame = [⟨5426381 / 262144, 13421773 / 134217728⟩, ⟨29, 8⟩] ∧
    ∃ f ∈ exRoundInitial.stereo_pt,
      f.pl = ⟨6573261 / 65536, 9227469 / 8388608⟩ ∧
      f.disp = Fl.fin (2608333 / 32768) ∧
      (∀ kr ∈ points_r exCfg exRound exFrame, f.disp ≠ Fl.fin (f.pl.x - kr.x)) ∧
      (∀ kr ∈ points_r exCfg exRound exFrame, ¬ |f.pl.y - kr.y| ≤ exCfg.maxDistEpip) := by
  refine ⟨ex_round_initial,
    ⟨rfl, by rw [ex_round_points_l]; simp, by rw [ex_round_points_r]; simp⟩,
    ex_round_points_r, _, List.mem_cons_self _ _, rfl, rfl, ?_, ?_⟩
  · intro kr hkr
    rw [ex_round_points_r] at hkr
    simp only [List.mem_cons, List.mem_singleton, List.not_mem_nil, or_false] at hkr
    rcases hkr with rfl | rfl <;> norm_num
  · intro kr hkr
    rw [ex_round_points_r] at hkr
    simp only [List.mem_cons, List.mem_singleton, List.not_mem_nil, or_false] at hkr
    rcases hkr with rfl | rfl <;> norm_num [exCfg, abs_of_pos, abs_of_neg]

/-! ## Mutual best matches -/

/-- C2: with `Config::bestLRMatches()` enabled, a left-to-right point candidate
with query index `q` and best train index `t` that passes the ratio, epipolar
and disparity tests (as the code evaluates them, in `float`) is accepted by the loop body of either method when the best
match of entry `t` of the right-to-left list is `q` (one feature is appended),
and rejected when it is any other index (nothing changes). -/
theorem mutual_best_match_decides_point_candidate (cfg : Config) (cam : PinholeStereoCamera)
    (pts_l pts_r : List KeyPoint) (pdesc_l : Mat) (pmatches_rl : List (List DMatch))
    (m : List DMatch) (acc : PointAcc) (m0 m1 : DMatch) (kl kr : KeyPoint) (row : Row)
    (e : List DMatch) (e0 : DMatch)
    (hbest : cfg.bestLRMatches = true)
    (h0 : m[0]? = some m0) (h1 : m[1]? = some m1)
    (hratio : Fl.lt (Fl.fin cfg.minRatio12P) (f32div m0.distance m1.distance) = true)
    (hkl : at? pts_l m0.queryIdx = some kl) (hkr : at? pts_r m0.trainIdx = some kr)
    (hepi : Fl.le (Fl.abs (f32sub kl.y kr.y)) (Fl.fin cfg.maxDistEpip) = true)
    (hdisp : Fl.le (Fl.fin cfg.minDisp) (f32sub kl.x kr.x) = true)
    (hrow : at? pdesc_l m0.queryIdx = some row)
    (he : at? pmatches_rl m0.trainIdx = some e) (he0 : e[0]? = some e0) :
    (e0.trainIdx = m0.queryIdx →
      initialPointBody cfg cam pts_l pts_r pdesc_l pmatches_rl m acc =
        some { pdesc_l_ := acc.pdesc_l_ ++ [row]
               stereo_pt := acc.stereo_pt ++ [pointFeatureOf cam kl kr acc.pt_idx]
               pt_idx := acc.pt_idx + 1 } ∧
      stereoPointBody cfg cam pts_l pts_r pdesc_l pmatches_rl m acc =
        some { pdesc_l_ := acc.pdesc_l_ ++ [row]
               stereo_pt := acc.stereo_pt ++ [pointFeatureOf cam kl kr (-1)]
               pt_idx := acc.pt_idx }) ∧
    (e0.trainIdx ≠ m0.queryIdx →
      initialPointBody cfg cam pts_l pts_r pdesc_l pmatches_rl m acc = some acc ∧
      stereoPointBody cfg cam pts_l pts_r pdesc_l pmatches_rl m acc = some acc) := by
  have hr : rlTrainIdx cfg pmatches_rl m0.queryIdx m0.trainIdx = some e0.trainIdx := by
    simp [rlTrainIdx, hbest, he, he0]
  constructor
  · intro heq
    rw [heq] at hr
    constructor
    · simp [initialPointBody, h0, h1, hr, hratio, hkl, hkr, hepi, hdisp, hrow, pointFeatureOf]
    · simp [stereoPointBody, h0, h1, hr, hratio, hkl, hkr, hepi, hdisp, hrow, pointFeatureOf]
  · intro hne
    have hne1 : ¬ m0.queryIdx = e0.trainIdx := fun h => hne h.symm
    constructor
    · simp [initialPointBody, h0, h1, hr, hne1]
    · simp [stereoPointBody, h0, h1, hr, hne1]

theorem mutual_best_match_decides_point_candidate_witness :
    initialPointBody exCfg exCam [⟨20, 5⟩, ⟨30, 8⟩] [⟨10, 5⟩, ⟨29, 8⟩] [[1], [2]]
        [[⟨0, 0, 1⟩, ⟨0, 1, 8⟩], [⟨1, 1, 2⟩, ⟨1, 0, 9⟩]] [⟨0, 0, 1⟩, ⟨0, 1, 8⟩] ⟨[], [], 0⟩ =
      some { pdesc_l_ := [] ++ [[1]]
             stereo_pt := [] ++ [pointFeatureOf exCam ⟨20, 5⟩ ⟨10, 5⟩ 0]
             pt_idx := 0 + 1 } ∧
    stereoPointBody exCfg exCam [⟨20, 5⟩, ⟨30, 8⟩] [⟨10, 5⟩, ⟨29, 8⟩] [[1], [2]]
        [[⟨0, 0, 1⟩, ⟨0, 1, 8⟩], [⟨1, 1, 2⟩, ⟨1, 0, 9⟩]] [⟨0, 0, 1⟩, ⟨0, 1, 8⟩] ⟨[], [], 0⟩ =
      some { pdesc_l_ := [] ++ [[1]]
             stereo_pt := [] ++ [pointFeatureOf exCam ⟨20, 5⟩ ⟨10, 5⟩ (-1)]
             pt_idx := 0 } :=
  (mutual_best_match_decides_point_candidate exCfg exCam [⟨20, 5⟩, ⟨30, 8⟩] [⟨10, 5⟩, ⟨29, 8⟩]
    [[1], [2]] [[⟨0, 0, 1⟩, ⟨0, 1, 8⟩], [⟨1, 1, 2⟩, ⟨1, 0, 9⟩]] [⟨0, 0, 1⟩, ⟨0, 1, 8⟩] ⟨[], [], 0⟩
    ⟨0, 0, 1⟩ ⟨0, 1, 8⟩ ⟨20, 5⟩ ⟨10, 5⟩ [1] [⟨0, 0, 1⟩, ⟨0, 1, 8⟩] ⟨0, 0, 1⟩
    rfl rfl rfl (by norm_num [Fl.lt, f32div, fdiv, f32_eighth, exCfg]) (by simp [at?])
    (by simp [at?]) (by norm_num [Fl.le, Fl.abs, f32sub, f32_zero, exCfg])
    (by norm_num [Fl.le, f32sub, f32_ten, exCfg]) (by simp [at?]) (by simp [at?]) rfl).1 rfl

/-! ## Accepted line features -/

theorem dispStart_fin (L R : KeyLine) (ds : ℚ) (h : dispStart L R = Fl.fin ds) :
    (rightLineEq R).x ≠ 0 ∧
    ds = L.startPointX -
      -((rightLineEq R).z + (rightLineEq R).y * L.startPointY) / (rightLineEq R).x := by
  unfold dispStart fdiv at h
  simp only at h
  split_ifs at h with h1 h2 h3
  · simp [Fl.rsub] at h
  · simp [Fl.rsub] at h
  · simp [Fl.rsub] at h
  · simp only [Fl.rsub, Fl.fin.injEq] at h
    exact ⟨h1, h.symm⟩

theorem dispEnd_fin (L R : KeyLine) (de : ℚ) (h : dispEnd L R = Fl.fin de) :
    (rightLineEq R).x ≠ 0 ∧
    de = L.endPointX -
      -((rightLineEq R).z + (rightLineEq R).y * L.endPointY) / (rightLineEq R).x := by
  unfold dispEnd fdiv at h
  simp only at h
  split_ifs at h with h1 h2 h3
  · simp [Fl.rsub] at h
  · simp [Fl.rsub] at h
  · simp [Fl.rsub] at h
  · simp only [Fl.rsub, Fl.fin.injEq] at h
    exact ⟨h1, h.symm⟩

theorem dispStart_of_ne (L R : KeyLine) (h : (rightLineEq R).x ≠ 0) :
    dispStart L R = Fl.fin (L.startPointX -
      -((rightLineEq R).z + (rightLineEq R).y * L.startPointY) / (rightLineEq R).x) := by
  simp [dispStart, fdiv, h, Fl.rsub]

theorem dispEnd_of_ne (L R : KeyLine) (h : (rightLineEq R).x ≠ 0) :
    dispEnd L R = Fl.fin (L.endPointX -
      -((rightLineEq R).z + (rightLineEq R).y * L.endPointY) / (rightLineEq R).x) := by
  simp [dispEnd, fdiv, h, Fl.rsub]

theorem coefficient_ne_zero (th a : ℚ) (hth : 0 ≤ th) (h : th < |a|) : a ≠ 0 := by
  intro e
  rw [e, abs_zero] at h
  exact absurd h (not_lt.mpr hth)

theorem line_features_of_run (cfg : Config) (ext : Extern) (fr fr2 : StereoFrame)
    (h : extractInitialStereoFeatures cfg ext fr = some fr2 ∨
      extractStereoFeatures cfg ext fr = some fr2)
    (hrun : lineBlockRuns cfg ext fr) :
    ∃ nn nn12, lineDescriptorMAD (lmatches_lr cfg ext fr) ext.nn_dist_median = some (nn, nn12) ∧
    ∃ rl, ∀ f ∈ fr2.stereo_ls, ∃ m ∈ lmatches_lr cfg ext fr, ∃ m0 m1 L R ds de idx,
      LineGates cfg ext (lines_l cfg ext fr) (lines_r cfg ext fr) rl (minLineLengthTh cfg fr.cam)
        (nn12 * cfg.descThL) m m0 m1 L R ds de ∧
      f = lineFeatureOf ext fr.cam L ds de idx := by
  rcases h with h | h
  · rcases initial_lines_loop cfg ext fr fr2 h with
      ⟨hc, _⟩ | ⟨_, nn, nn12, lr, rl, acc, h0, h1, _, h3, e, _⟩
    · exact absurd hrun hc
    · refine ⟨nn, nn12, h0, rl, ?_⟩
      intro f hf
      rw [e] at hf
      obtain ⟨m, hm, rest⟩ := initialLine_loop_features _ _ _ _ _ _ _ _ _ _ _ h3 f hf
      exact ⟨m, stdSort_mem _ _ _ h1 m (List.mem_of_mem_take hm), rest⟩
  · rcases stereo_lines_loop cfg ext fr fr2 h with
      ⟨hc, _⟩ | ⟨_, nn, nn12, lr, rl, acc, h0, h1, _, h3, e, _⟩
    · exact absurd hrun hc
    · refine ⟨nn, nn12, h0, rl, ?_⟩
      intro f hf
      rw [e] at hf
      obtain ⟨m, hm, m0, m1, L, R, ds, de, idx, hg, _, hfe⟩ :=
        stereoLine_loop_features _ _ _ _ _ _ _ _ _ _ _ h3 f hf
      exact ⟨m, stdSort_mem _ _ _ h1 m (List.mem_of_mem_take hm), m0, m1, L, R, ds, de, idx,
        hg, hfe⟩

/-- C3: every line feature that `extractInitialStereoFeatures` or
`extractStereoFeatures` appends to `stereo_ls` has its start-point disparity
and its end-point disparity at least `Config::minDisp()` (the comparison
`disp >= Config::minDisp()` of the code, which an infinite disparity passes
too). -/
theorem line_features_meet_disparity_gate (cfg : Config) (ext : Extern)
    (fr fr2 : StereoFrame)
    (h : extractInitialStereoFeatures cfg ext fr = some fr2 ∨
      extractStereoFeatures cfg ext fr = some fr2)
    (hrun : lineBlockRuns cfg ext fr) :
    ∀ f ∈ fr2.stereo_ls, Fl.le (Fl.fin cfg.minDisp) f.sdisp = true ∧
      Fl.le (Fl.fin cfg.minDisp) f.edisp = true := by
  obtain ⟨_, _, _, rl, hall⟩ := line_features_of_run cfg ext fr fr2 h hrun
  intro f hf
  obtain ⟨m, _, m0, m1, L, R, ds, de, idx, hg, e⟩ := hall f hf
  obtain ⟨_, _, _, _, _, _, _, _, _, _, _, _, g13, g14, _⟩ := hg
  rw [e]
  exact ⟨g13, g14⟩

theorem line_features_meet_disparity_gate_witness :
    (extractInitialStereoFeatures exCfg exExt exFrame = some exStereo ∨
      extractStereoFeatures exCfg exExt exFrame = some exStereo) ∧
    lineBlockRuns exCfg exExt exFrame ∧
    ∀ f ∈ exStereo.stereo_ls, Fl.le (Fl.fin exCfg.minDisp) f.sdisp = true ∧
      Fl.le (Fl.fin exCfg.minDisp) f.edisp = true :=
  ⟨Or.inr ex_stereo, ex_lineBlockRuns,
    line_features_meet_disparity_gate exCfg exExt exFrame exStereo (Or.inr ex_stereo)
      ex_lineBlockRuns⟩

/-- C4 (as amended): every accepted line feature is built from a left line `L`
and the matched right line `R` of a candidate; with `(a, b, c) = rightLineEq R`
the cross product of the homogeneous end points of `R`, the coefficient `a` is
not zero when `Config::lineHorizTh()` is not negative, and whenever `a` is not
zero the two stored disparities are finite and, for each left end point
`(x, y)` with stored disparity `d`, the derived abscissa is `-(c + b * y) / a`,
`d = x - (-(c + b * y) / a)`, and the derived right-image point `(x - d, y)`
lies on the right line: `a * (x - d) + b * y + c = 0`. -/
theorem line_feature_endpoints_lie_on_right_line (cfg : Config) (ext : Extern)
    (fr fr2 : StereoFrame)
    (h : extractInitialStereoFeatures cfg ext fr = some fr2 ∨
      extractStereoFeatures cfg ext fr = some fr2)
    (hrun : lineBlockRuns cfg ext fr) :
    ∀ f ∈ fr2.stereo_ls, ∃ m ∈ lmatches_lr cfg ext fr, ∃ m0 L R,
      m[0]? = some m0 ∧ at? (lines_l cfg ext fr) m0.queryIdx = some L ∧
      at? (lines_r cfg ext fr) m0.trainIdx = some R ∧
      f.spl = ⟨L.startPointX, L.startPointY⟩ ∧ f.epl = ⟨L.endPointX, L.endPointY⟩ ∧
      (0 ≤ cfg.lineHorizTh → (rightLineEq R).x ≠ 0) ∧
      ((rightLineEq R).x ≠ 0 → ∃ ds de, f.sdisp = Fl.fin ds ∧ f.edisp = Fl.fin de ∧
        ds = f.spl.x - -((rightLineEq R).z + (rightLineEq R).y * f.spl.y) / (rightLineEq R).x ∧
        de = f.epl.x - -((rightLineEq R).z + (rightLineEq R).y * f.epl.y) / (rightLineEq R).x ∧
        (rightLineEq R).x * (f.spl.x - ds) + (rightLineEq R).y * f.spl.y
          + (rightLineEq R).z = 0 ∧
        (rightLineEq R).x * (f.epl.x - de) + (rightLineEq R).y * f.epl.y
          + (rightLineEq R).z = 0) := by
  obtain ⟨_, _, _, rl, hall⟩ := line_features_of_run cfg ext fr fr2 h hrun
  intro f hf
  obtain ⟨m, hm, m0, m1, L, R, ds, de, idx, hg, e⟩ := hall f hf
  obtain ⟨g1, _, _, g4, g5, _, _, _, _, _, g11, g12, _, _, g15⟩ := hg
  refine ⟨m, hm, m0, L, R, g1, g4, g5, by rw [e]; rfl, by rw [e]; rfl,
    fun hth => coefficient_ne_zero _ _ hth g15, ?_⟩
  intro ha
  rw [dispStart_of_ne L R ha] at g11
  rw [dispEnd_of_ne L R ha] at g12
  refine ⟨_, _, by rw [e, ← g11]; rfl, by rw [e, ← g12]; rfl, by rw [e]; rfl, by rw [e]; rfl,
    ?_, ?_⟩
  · rw [e]
    show (rightLineEq R).x * (L.startPointX - (L.startPointX -
        -((rightLineEq R).z + (rightLineEq R).y * L.startPointY) / (rightLineEq R).x))
        + (rightLineEq R).y * L.startPointY + (rightLineEq R).z = 0
    field_simp
  · rw [e]
    show (rightLineEq R).x * (L.endPointX - (L.endPointX -
        -((rightLineEq R).z + (rightLineEq R).y * L.endPointY) / (rightLineEq R).x))
        + (rightLineEq R).y * L.endPointY + (rightLineEq R).z = 0
    field_simp

theorem line_feature_endpoints_lie_on_right_line_witness :
    (extractInitialStereoFeatures exCfg exExt exFrame = some exInitial ∨
      extractStereoFeatures exCfg exExt exFrame = some exInitial) ∧
    lineBlockRuns exCfg exExt exFrame ∧
    ∀ f ∈ exInitial.stereo_ls, ∃ m ∈ lmatches_lr exCfg exExt exFrame, ∃ m0 L R,
      m[0]? = some m0 ∧ at? (lines_l exCfg exExt exFrame) m0.queryIdx = some L ∧
      at? (lines_r exCfg exExt exFrame) m0.trainIdx = some R ∧
      f.spl = ⟨L.startPointX, L.startPointY⟩ ∧ f.epl = ⟨L.endPointX, L.endPointY⟩ ∧
      (0 ≤ exCfg.lineHorizTh → (rightLineEq R).x ≠ 0) ∧
      ((rightLineEq R).x ≠ 0 → ∃ ds de, f.sdisp = Fl.fin ds ∧ f.edisp = Fl.fin de ∧
        ds = f.spl.x - -((rightLineEq R).z + (rightLineEq R).y * f.spl.y) / (rightLineEq R).x ∧
        de = f.epl.x - -((rightLineEq R).z + (rightLineEq R).y * f.epl.y) / (rightLineEq R).x ∧
        (rightLineEq R).x * (f.spl.x - ds) + (rightLineEq R).y * f.spl.y
          + (rightLineEq R).z = 0 ∧
        (rightLineEq R).x * (f.epl.x - de) + (rightLineEq R).y * f.epl.y
          + (rightLineEq R).z = 0) :=
  ⟨Or.inl ex_initial, ex_lineBlockRuns,
    line_feature_endpoints_lie_on_right_line exCfg exExt exFrame exInitial (Or.inl ex_initial)
      ex_lineBlockRuns⟩

theorem ex_flat_points_l : points_l exFlatCfg exFlat exFrame = [⟨20, 5⟩, ⟨30, 8⟩] := by
  simp [points_l, detectFeatures, exFlatCfg, exCfg, exFlat, exExt, exFrame]

theorem ex_flat_points_r : points_r exFlatCfg exFlat exFrame = [⟨10, 5⟩, ⟨29, 8⟩] := by
  simp [points_r, detectFeatures, exFlatCfg, exCfg, exFlat, exExt, exFrame]

theorem ex_flat_lines_l :
    lines_l exFlatCfg exFlat exFrame
      = [exFlatL, ⟨30, 35, 20, 71 / 2, 1583 / 512, 10⟩] := by
  simp [lines_l, detectFeatures, exFlatCfg, exCfg, exFlat, exExt, exFrame]

theorem ex_flat_lines_r :
    lines_r exFlatCfg exFlat exFrame
      = [exFlatR, ⟨20, 40, 10, 40, 13176795 / 4194304, 10⟩] := by
  simp [lines_r, detectFeatures, exFlatCfg, exCfg, exFlat, exExt, exFrame]

theorem ex_flat_initial :
    extractInitialStereoFeatures exFlatCfg exFlat exFrame = some exFlatInitial := by
  simp only [extractInitialStereoFeatures, ex_flat_points_l, ex_flat_points_r, ex_flat_lines_l,
    ex_flat_lines_r]
  norm_num [initialPoints, initialLines, afterDetect, detectFeatures, minLineLengthTh,
    exFlatCfg, exCfg, exFlat, exFlatL, exFlatR, exExt, exFrame, exCam, exInitial,
    exFlatInitial, lineKnnMatch, ex_lineDescriptorMAD, stdSort, keyed,
    sort_descriptor_by_queryIdx, loopM, initialPointBody, initialLineBody, rlTrainIdx, at?,
    fdiv, Fl.lt, Fl.le, Fl.rsub, dispStart, dispEnd, rightLineEq, leftLineEq, Vector3d.cross,
    List.insertionSort, List.orderedInsert, f32sub, f32div, Fl.abs, Fl.div, f32_zero, f32_one,
    f32_ten, f32_eighth, f32_two_ninths, abs_of_pos]

/-- C4 (as stated) fails: with `Config::lineHorizTh() = -1` and horizontal right
lines (line equations `(0, -10, 100)` and `(0, -10, 400)`) the bootstrap
extraction stores a line feature whose two disparities are `+inf`; for its
start point `(30, 5)` no right line and no number `d` satisfy
`a * (x - d) + b * y + c = 0`, because `a = 0` and `b * y + c ≠ 0`. -/
theorem horizontal_right_line_stores_infinite_disparity :
    extractInitialStereoFeatures exFlatCfg exFlat exFrame = some exFlatInitial ∧
    lineBlockRuns exFlatCfg exFlat exFrame ∧
    ∃ f ∈ exFlatInitial.stereo_ls, f.sdisp = Fl.pinf ∧ f.edisp = Fl.pinf ∧
      ∀ R ∈ lines_r exFlatCfg exFlat exFrame, (rightLineEq R).x = 0 ∧
        ∀ d : ℚ, (rightLineEq R).x * (f.spl.x - d) + (rightLineEq R).y * f.spl.y
          + (rightLineEq R).z ≠ 0 := by
  refine ⟨ex_flat_initial, ⟨rfl, by rw [ex_flat_lines_l]; simp, by rw [ex_flat_lines_r]; simp⟩,
    _, List.mem_cons_self _ _, rfl, rfl, ?_⟩
  intro R hR
  rw [ex_flat_lines_r] at hR
  simp only [List.mem_cons, List.mem_singleton, List.not_mem_nil, or_false] at hR
  rcases hR with rfl | rfl
  · refine ⟨by norm_num [rightLineEq, Vector3d.cross, exFlatR], fun d => ?_⟩
    norm_num [rightLineEq, Vector3d.cross, exFlatR]
  · refine ⟨by norm_num [rightLineEq, Vector3d.cross], fun d => ?_⟩
    norm_num [rightLineEq, Vector3d.cross]

/-! ## `lineDescriptorMAD` -/

theorem ex_single_MAD (g : ℚ) :
    lineDescriptorMAD [[⟨0, 0, 1⟩, ⟨0, 1, 3⟩]] g
      = some (7413 / 5000 * |1 - g|, 7413 / 5000 * |3 - 1 - g|) := by
  simp [lineDescriptorMAD, stdSort, midDistance0, midGap, absDevNN, absDev12, setDistance0]

theorem ex_gaps_MAD : lineDescriptorMAD exGaps 0 = some (7413 / 2500, 7413 / 2500) := by
  norm_num [exGaps, lineDescriptorMAD, stdSort, keyed, compare_descriptor_by_NN_dist,
    compare_descriptor_by_NN12_dist, midDistance0, midGap, absDevNN, absDev12, setDistance0,
    List.insertionSort, List.orderedInsert]

/-- C6 fails on the code: the deviations are measured from the uninitialised
local `nn_dist_median`, not from the median of the gaps.  For the one-candidate
list with distances `1`, `3` the call returns
`nn12_mad = 1.4826 * |3 - 1 - nn_dist_median|` where the spec gives `0`, and for
the gaps `1`, `2`, `4` with `nn_dist_median = 0` it returns `1.4826 * 2` where
the spec gives `1.4826 * 1`. -/
theorem lineDescriptorMAD_deviates_from_uninitialised_median (g : ℚ) :
    (lineDescriptorMAD [[⟨0, 0, 1⟩, ⟨0, 1, 3⟩]] g).map Prod.snd
        = some (7413 / 5000 * |3 - 1 - g|) ∧
    nn12MadSpec [3 - 1] = some 0 ∧
    (lineDescriptorMAD exGaps 0).map Prod.snd = some (7413 / 5000 * 2) ∧
    nn12MadSpec [2 - 1, 4 - 2, 8 - 4] = some (7413 / 5000 * 1) := by
  refine ⟨by rw [ex_single_MAD]; rfl, ?_, ?_, ?_⟩
  · norm_num [nn12MadSpec, medianSpec]
  · rw [ex_gaps_MAD]; norm_num
  · norm_num [nn12MadSpec, medianSpec, List.insertionSort, List.orderedInsert]

/-! ## The uncertainty gate -/

theorem stereoLineBody_of_gates (cfg : Config) (ext : Extern) (cam : PinholeStereoCamera)
    (lns_l lns_r : List KeyLine) (ldesc_l : Mat) (rl : List (List DMatch))
    (th1 th2 : ℚ) (m : List DMatch) (acc : LineAcc) (m0 m1 : DMatch) (L R : KeyLine)
    (ds de : Fl) (hg : LineGates cfg ext lns_l lns_r rl th1 th2 m m0 m1 L R ds de) :
    stereoLineBody cfg ext cam lns_l lns_r ldesc_l rl th1 th2 m acc =
      if Fl.lt (maxEig ext cam L.startPointX L.startPointY ds L.endPointX L.endPointY de)
          (Fl.fin cfg.lineCovTh) = true then
        match at? ldesc_l m0.queryIdx with
        | none => none
        | some row =>
          some { ldesc_l_ := acc.ldesc_l_ ++ [row]
                 stereo_ls := acc.stereo_ls ++ [lineFeatureOf ext cam L ds de (-1)]
                 ls_idx := acc.ls_idx }
      else some acc := by
  obtain ⟨g1, g2, g3, g4, g5, g6, g7, g8, g9, g10, g11, g12, g13, g14, g15⟩ := hg
  subst g11 g12
  simp only [stereoLineBody, g1, g2, g3, g4, g5, g6, g7, g8, g9, g10, g15, g13, g14, and_self,
    if_true, lineFeatureOf]

theorem initialLineBody_of_gates (cfg : Config) (ext : Extern) (cam : PinholeStereoCamera)
    (lns_l lns_r : List KeyLine) (ldesc_l : Mat) (rl : List (List DMatch))
    (th1 th2 : ℚ) (m : List DMatch) (acc : LineAcc) (m0 m1 : DMatch) (L R : KeyLine)
    (ds de : Fl) (hg : LineGates cfg ext lns_l lns_r rl th1 th2 m m0 m1 L R ds de) :
    initialLineBody cfg ext cam lns_l lns_r ldesc_l rl th1 th2 m acc =
      match at? ldesc_l m0.queryIdx with
      | none => none
      | some row =>
        some { ldesc_l_ := acc.ldesc_l_ ++ [row]
               stereo_ls := acc.stereo_ls ++ [lineFeatureOf ext cam L ds de acc.ls_idx]
               ls_idx := acc.ls_idx + 1 } := by
  obtain ⟨g1, g2, g3, g4, g5, g6, g7, g8, g9, g10, g11, g12, g13, g14, g15⟩ := hg
  subst g11 g12
  simp only [initialLineBody, g1, g2, g3, g4, g5, g6, g7, g8, g9, g10, g15, g13, g14, and_self,
    if_true, lineFeatureOf]

theorem loopM_related {α σ τ : Type} (Rel : σ → τ → Prop) (b1 : α → σ → Option σ)
    (b2 : α → τ → Option τ)
    (hstep : ∀ a s t s1, Rel s t → b1 a s = some s1 → ∃ t1, b2 a t = some t1 ∧ Rel s1 t1) :
    ∀ (l : List α) s t s1, Rel s t → loopM b1 l s = some s1 →
      ∃ t1, loopM b2 l t = some t1 ∧ Rel s1 t1 := by
  intro l
  induction l with
  | nil =>
    intro s t s1 hr h
    simp only [loopM, Option.some.injEq] at h
    exact ⟨t, rfl, h ▸ hr⟩
  | cons a l ih =>
    intro s t s1 hr h
    simp only [loopM] at h
    cases hb : b1 a s with
    | none => simp [hb] at h
    | some s2 =>
      simp only [hb] at h
      obtain ⟨t2, ht2, hr2⟩ := hstep a s t s2 hr hb
      obtain ⟨t1, ht1, hr1⟩ := ih s2 t2 s1 hr2 h
      exact ⟨t1, by simp only [loopM, ht2, ht1], hr1⟩

theorem pointBodies_agree (cfg : Config) (cam : PinholeStereoCamera)
    (pts_l pts_r : List KeyPoint) (pdesc_l : Mat) (rl : List (List DMatch))
    (m : List DMatch) (s s1 t : PointAcc)
    (h : initialPointBody cfg cam pts_l pts_r pdesc_l rl m s = some s1) :
    (s1 = s ∧ stereoPointBody cfg cam pts_l pts_r pdesc_l rl m t = some t) ∨
    ∃ f row, s1 = ⟨s.pdesc_l_ ++ [row], s.stereo_pt ++ [f], s.pt_idx + 1⟩ ∧
      stereoPointBody cfg cam pts_l pts_r pdesc_l rl m t =
        some ⟨t.pdesc_l_ ++ [row], t.stereo_pt ++ [f.unassigned], t.pt_idx⟩ := by
  unfold initialPointBody at h
  unfold stereoPointBody
  cases h0 : m[0]? with
  | none => simp [h0] at h
  | some m0 =>
  cases hr : rlTrainIdx cfg rl m0.queryIdx m0.trainIdx with
  | none => simp [h0, hr] at h
  | some rl_tdx =>
  cases h1 : m[1]? with
  | none => simp [h0, hr, h1] at h
  | some m1 =>
  simp only [h0, hr, h1] at h ⊢
  split_ifs at h ⊢ with hc
  · cases hkl : at? pts_l m0.queryIdx with
    | none => simp [hkl] at h
    | some kl =>
    cases hkr : at? pts_r m0.trainIdx with
    | none => simp [hkl, hkr] at h
    | some kr =>
    simp only [hkl, hkr] at h ⊢
    split_ifs at h ⊢ with he hd
    · cases hrow : at? pdesc_l m0.queryIdx with
      | none => simp [hrow] at h
      | some row =>
        simp only [hrow, Option.some.injEq] at h ⊢
        exact Or.inr ⟨_, row, h.symm, rfl⟩
    · exact Or.inl ⟨by simpa using h.symm, rfl⟩
    · exact Or.inl ⟨by simpa using h.symm, rfl⟩
  · exact Or.inl ⟨by simpa using h.symm, rfl⟩

theorem lineBodies_agree (cfg : Config) (ext : Extern) (cam : PinholeStereoCamera)
    (lns_l lns_r : List KeyLine) (ldesc_l : Mat) (rl : List (List DMatch))
    (th1 th2 : ℚ) (m : List DMatch) (s s1 t : LineAcc)
    (h : initialLineBody cfg ext cam lns_l lns_r ldesc_l rl th1 th2 m s = some s1) :
    (s1 = s ∧ stereoLineBody cfg ext cam lns_l lns_r ldesc_l rl th1 th2 m t = some t) ∨
    ∃ f row, s1 = ⟨s.ldesc_l_ ++ [row], s.stereo_ls ++ [f], s.ls_idx + 1⟩ ∧
      stereoLineBody cfg ext cam lns_l lns_r ldesc_l rl th1 th2 m t =
        some (if uncertaintyGate cfg ext cam f = true then
          ⟨t.ldesc_l_ ++ [row], t.stereo_ls ++ [f.unassigned], t.ls_idx⟩ else t) := by
  unfold initialLineBody at h
  unfold stereoLineBody
  cases h0 : m[0]? with
  | none => simp [h0] at h
  | some m0 =>
  cases hr : rlTrainIdx cfg rl m0.queryIdx m0.trainIdx with
  | none => simp [h0, hr] at h
  | some rl_tdx =>
  cases h1 : m[1]? with
  | none => simp [h0, hr, h1] at h
  | some m1 =>
  cases hR : at? lns_r m0.trainIdx with
  | none => simp [h0, hr, h1, hR] at h
  | some R =>
  simp only [h0, hr, h1, hR] at h ⊢
  split_ifs at h ⊢ with hc
  · cases hL : at? lns_l m0.queryIdx with
    | none => simp [hL] at h
    | some L =>
    simp only [hL] at h ⊢
    by_cases ha : cfg.minHorizAngle ≤ |L.angle| ∧ cfg.minHorizAngle ≤ |R.angle|
        ∧ |ext.angDiff L.angle R.angle| < cfg.maxAngleDiff
    · by_cases hd : Fl.le (Fl.fin cfg.minDisp) (dispStart L R) = true
          ∧ Fl.le (Fl.fin cfg.minDisp) (dispEnd L R) = true
          ∧ cfg.lineHorizTh < |(rightLineEq R).x|
      · simp only [if_pos ha, if_pos hd] at h ⊢
        cases hrow : at? ldesc_l m0.queryIdx with
        | none => simp [hrow] at h
        | some row =>
          simp only [hrow, Option.some.injEq] at h
          refine Or.inr ⟨_, row, h.symm, ?_⟩
          simp only [uncertaintyGate, LineFeature.unassigned]
          split_ifs <;> rfl
      · rw [if_pos ha, if_neg hd] at h ⊢
        exact Or.inl ⟨by simpa using h.symm, rfl⟩
    · rw [if_neg ha] at h ⊢
      exact Or.inl ⟨by simpa using h.symm, rfl⟩
  · exact Or.inl ⟨by simpa using h.symm, rfl⟩

theorem stereoPoints_of_initial (cfg : Config) (ext : Extern) (pl pr : List KeyPoint)
    (fr frA : StereoFrame) (h : initialPoints cfg ext pl pr fr = some frA) :
    ∃ frB, stereoPoints cfg ext pl pr fr = some frB ∧ frB.ldesc_l = frA.ldesc_l ∧
      frB.ldesc_r = frA.ldesc_r ∧ frB.cam = frA.cam ∧ frB.stereo_ls = frA.stereo_ls := by
  unfold initialPoints at h
  unfold stereoPoints
  by_cases hc : cfg.hasPoints = true ∧ ¬ pl.length = 0 ∧ ¬ pr.length = 0
  · rw [if_pos hc] at h ⊢
    simp only at h ⊢
    cases h1 : stdSort sort_descriptor_by_queryIdx (ext.bfm_knnMatch fr.pdesc_l fr.pdesc_r) with
    | none => simp [h1] at h
    | some lr =>
      cases h2 : (if cfg.bestLRMatches = true then
          stdSort sort_descriptor_by_queryIdx
            (if cfg.bestLRMatches = true then ext.bfm_knnMatch fr.pdesc_r fr.pdesc_l else [])
          else some (if cfg.bestLRMatches = true then ext.bfm_knnMatch fr.pdesc_r fr.pdesc_l
            else [])) with
      | none => simp [h1, h2] at h
      | some rl =>
        simp only [h1, h2] at h ⊢
        cases h3 : loopM (initialPointBody cfg fr.cam pl pr fr.pdesc_l rl) lr ⟨[], [], 0⟩ with
        | none => simp [h3] at h
        | some acc =>
          simp only [h3, Option.some.injEq] at h
          obtain ⟨t1, ht1, _⟩ := loopM_related
            (fun (s t : PointAcc) => t.stereo_pt = s.stereo_pt.map PointFeature.unassigned)
            (initialPointBody cfg fr.cam pl pr fr.pdesc_l rl)
            (stereoPointBody cfg fr.cam pl pr fr.pdesc_l rl)
            (by
              intro a s t s1 hrel hb
              rcases pointBodies_agree _ _ _ _ _ _ _ _ _ t hb with ⟨e, hb2⟩ | ⟨f, row, e, hb2⟩
              · exact ⟨t, hb2, by rw [e]; exact hrel⟩
              · exact ⟨_, hb2, by rw [e]; simp [hrel]⟩)
            lr ⟨[], [], 0⟩ ⟨[], [], 0⟩ acc rfl h3
          simp only [ht1]
          exact ⟨_, rfl, by rw [← h], by rw [← h], by rw [← h], by rw [← h]⟩
  · rw [if_neg hc] at h ⊢
    simp only [Option.some.injEq] at h
    exact ⟨fr, rfl, by rw [h], by rw [h], by rw [h], by rw [h]⟩

theorem stereoLines_of_initial (cfg : Config) (ext : Extern) (ll lr_ : List KeyLine) (th : ℚ)
    (frA frB fr1 : StereoFrame) (h : initialLines cfg ext ll lr_ th frA = some fr1)
    (e1 : frB.ldesc_l = frA.ldesc_l) (e2 : frB.ldesc_r = frA.ldesc_r) (e3 : frB.cam = frA.cam) :
    ∃ fr2, stereoLines cfg ext ll lr_ th frB = some fr2 ∧
      ((cfg.hasLines = true ∧ ¬ ll.length = 0 ∧ ¬ lr_.length = 0) →
        fr2.stereo_ls =
          (fr1.stereo_ls.filter (uncertaintyGate cfg ext frA.cam)).map LineFeature.unassigned) ∧
      (¬ (cfg.hasLines = true ∧ ¬ ll.length = 0 ∧ ¬ lr_.length = 0) →
        fr2.stereo_ls = frB.stereo_ls ∧ fr1.stereo_ls = frA.stereo_ls) := by
  unfold initialLines at h
  unfold stereoLines
  rw [e1, e2, e3]
  by_cases hc : cfg.hasLines = true ∧ ¬ ll.length = 0 ∧ ¬ lr_.length = 0
  · rw [if_pos hc] at h ⊢
    simp only at h ⊢
    cases h0 : lineDescriptorMAD (lineKnnMatch cfg ext frA.ldesc_l frA.ldesc_r)
        ext.nn_dist_median with
    | none => simp [h0] at h
    | some p =>
      obtain ⟨nn, nn12⟩ := p
      cases h1 : stdSort sort_descriptor_by_queryIdx
          (lineKnnMatch cfg ext frA.ldesc_l frA.ldesc_r) with
      | none => simp [h0, h1] at h
      | some lr =>
        cases h2 : (if cfg.bestLRMatches = true then
            stdSort sort_descriptor_by_queryIdx
              (if cfg.bestLRMatches = true then lineKnnMatch cfg ext frA.ldesc_r frA.ldesc_l
                else [])
            else some (if cfg.bestLRMatches = true then
              lineKnnMatch cfg ext frA.ldesc_r frA.ldesc_l else [])) with
        | none => simp [h0, h1, h2] at h
        | some rl =>
          simp only [h0, h1, h2] at h ⊢
          cases h3 : loopM (initialLineBody cfg ext frA.cam ll lr_ frA.ldesc_l rl th
              (nn12 * cfg.descThL))
              (lr.take (if cfg.bestLRMatches = true then min lr.length rl.length
                else lr.length)) ⟨[], [], 0⟩ with
          | none => simp [h3] at h
          | some acc =>
            simp only [h3, Option.some.injEq] at h
            obtain ⟨t1, ht1, hrel⟩ := loopM_related
              (fun (s t : LineAcc) => t.stereo_ls =
                (s.stereo_ls.filter (uncertaintyGate cfg ext frA.cam)).map
                  LineFeature.unassigned)
              (initialLineBody cfg ext frA.cam ll lr_ frA.ldesc_l rl th (nn12 * cfg.descThL))
              (stereoLineBody cfg ext frA.cam ll lr_ frA.ldesc_l rl th (nn12 * cfg.descThL))
              (by
                intro a s t s1 hrel hb
                rcases lineBodies_agree _ _ _ _ _ _ _ _ _ _ _ _ t hb with
                  ⟨e, hb2⟩ | ⟨f, row, e, hb2⟩
                · exact ⟨t, hb2, by rw [e]; exact hrel⟩
                · refine ⟨_, hb2, ?_⟩
                  rw [e]
                  by_cases hg : uncertaintyGate cfg ext frA.cam f = true
                  · simp [hg, hrel, List.filter_append]
                  · simp [hg, hrel, List.filter_append])
              _ ⟨[], [], 0⟩ ⟨[], [], 0⟩ acc rfl h3
            simp only [ht1]
            refine ⟨_, rfl, fun _ => ?_, fun hn => absurd hc hn⟩
            rw [← h]
            exact hrel
  · rw [if_neg hc] at h ⊢
    simp only [Option.some.injEq] at h
    exact ⟨frB, rfl, fun hn => absurd hn hc, fun _ => ⟨rfl, by rw [h]⟩⟩

/-- With one value `ext.nn_dist_median` read by both methods: whenever
`extractInitialStereoFeatures` returns, `extractStereoFeatures` returns too and
its sequence of line features is the sequence of the bootstrap variant filtered
by the uncertainty gate `max_eig < Config::lineCovTh()`, with every identifier
replaced by `-1`; when every bootstrap feature passes the gate the two
sequences agree position by position on end points, disparities, 3-D points,
line equation and angle. -/
theorem stereo_lines_of_same_median (cfg : Config) (ext : Extern)
    (fr fr1 : StereoFrame) (h : extractInitialStereoFeatures cfg ext fr = some fr1)
    (hrun : lineBlockRuns cfg ext fr) :
    ∃ fr2, extractStereoFeatures cfg ext fr = some fr2 ∧
      fr2.stereo_ls =
        (fr1.stereo_ls.filter (uncertaintyGate cfg ext fr.cam)).map LineFeature.unassigned ∧
      ((∀ f ∈ fr1.stereo_ls, uncertaintyGate cfg ext fr.cam f = true) →
        List.Forall₂ (fun a b : LineFeature => a.spl = b.spl ∧ a.sdisp = b.sdisp ∧ a.sP = b.sP ∧
          a.epl = b.epl ∧ a.edisp = b.edisp ∧ a.eP = b.eP ∧ a.le = b.le ∧ a.angle = b.angle ∧
          b.idx = -1) fr1.stereo_ls fr2.stereo_ls) := by
  unfold extractInitialStereoFeatures at h
  unfold extractStereoFeatures
  cases hp : initialPoints cfg ext (points_l cfg ext fr) (points_r cfg ext fr)
      (afterDetect cfg ext fr) with
  | none => simp [hp] at h
  | some frA =>
    simp only [hp] at h
    obtain ⟨frB, hB, e1, e2, e3, _⟩ := stereoPoints_of_initial _ _ _ _ _ _ hp
    have hcam : frA.cam = fr.cam := by
      rcases initialPoints_run _ _ _ _ _ _ hp with ⟨_, e⟩ | ⟨_, _, _, _, _, _, _, e⟩
      · rw [e]; rfl
      · rw [e]; rfl
    obtain ⟨fr2, h2, hyes, _⟩ := stereoLines_of_initial _ _ _ _ _ _ frB _ h e1 e2 e3
    have hls := hyes hrun
    rw [hcam] at hls
    refine ⟨fr2, by simp only [hB, h2], hls, ?_⟩
    intro hall
    rw [hls, List.filter_eq_self.mpr hall]
    generalize fr1.stereo_ls = l
    induction l with
    | nil => exact List.Forall₂.nil
    | cons a l ih =>
      exact List.Forall₂.cons ⟨rfl, rfl, rfl, rfl, rfl, rfl, rfl, rfl, rfl⟩ ih

theorem ex_other_lineDescriptorMAD :
    lineDescriptorMAD [[⟨1, 1, 2⟩, ⟨1, 0, 9⟩], [⟨0, 0, 1⟩, ⟨0, 1, 8⟩]] 1000
      = some (7405587 / 5000, 7361109 / 5000) := by
  norm_num [lineDescriptorMAD, stdSort, keyed, compare_descriptor_by_NN_dist,
    compare_descriptor_by_NN12_dist, midDistance0, midGap, absDevNN, absDev12, setDistance0,
    List.insertionSort, List.orderedInsert]

theorem ex_other_stereo : extractStereoFeatures exCfg exOther exFrame = some exOtherStereo := by
  have e1 : points_l exCfg exOther exFrame = [⟨20, 5⟩, ⟨30, 8⟩] := ex_points_l
  have e2 : points_r exCfg exOther exFrame = [⟨10, 5⟩, ⟨29, 8⟩] := ex_points_r
  have e3 : lines_l exCfg exOther exFrame
      = [⟨20, 10, 30, 20, 1, 14⟩, ⟨40, 10, 40, 30, 2, 20⟩] := ex_lines_l
  have e4 : lines_r exCfg exOther exFrame
      = [⟨10, 10, 20, 20, 1, 14⟩, ⟨39, 10, 39, 30, 2, 20⟩] := ex_lines_r
  simp only [extractStereoFeatures, e1, e2, e3, e4]
  norm_num [stereoPoints, stereoLines, afterDetect, detectFeatures, minLineLengthTh, exCfg,
    exOther, exExt, exFrame, exCam, exStereo, exOtherStereo, lineKnnMatch,
    ex_other_lineDescriptorMAD, stdSort, keyed, sort_descriptor_by_queryIdx, loopM,
    stereoPointBody, stereoLineBody, rlTrainIdx, at?, fdiv, Fl.lt, Fl.le, Fl.rsub, dispStart,
    dispEnd, rightLineEq, leftLineEq, Vector3d.cross, List.insertionSort, List.orderedInsert,
    f32sub, f32div, Fl.abs, Fl.div, f32_zero, f32_one, f32_ten, f32_eighth, f32_two_ninths]

/-- C8: when the two calls of `lineDescriptorMAD` read the same value of the
uninitialised local `nn_dist_median`, `extractStereoFeatures` returns whenever
`extractInitialStereoFeatures` does, its line features are those of the
bootstrap variant filtered by the uncertainty gate, with identifier `-1`, and
they agree field by field when the gate passes everything.  The two calls are
separate, though: on `exFrame`, with the same detections, matches, camera and
configuration, the bootstrap call reading `0` stores two line features, one of
which passes the uncertainty gate, while the live call reading `1000` stores
none. -/
theorem stereo_lines_depend_on_uninitialised_median :
    (∀ cfg ext fr fr1, extractInitialStereoFeatures cfg ext fr = some fr1 →
      lineBlockRuns cfg ext fr →
      ∃ fr2, extractStereoFeatures cfg ext fr = some fr2 ∧
        fr2.stereo_ls =
          (fr1.stereo_ls.filter (uncertaintyGate cfg ext fr.cam)).map LineFeature.unassigned ∧
        ((∀ f ∈ fr1.stereo_ls, uncertaintyGate cfg ext fr.cam f = true) →
          List.Forall₂ (fun a b : LineFeature => a.spl = b.spl ∧ a.sdisp = b.sdisp ∧
            a.sP = b.sP ∧ a.epl = b.epl ∧ a.edisp = b.edisp ∧ a.eP = b.eP ∧ a.le = b.le ∧
            a.angle = b.angle ∧ b.idx = -1) fr1.stereo_ls fr2.stereo_ls)) ∧
    exOther = { exExt with nn_dist_median := 1000 } ∧ exExt.nn_dist_median = 0 ∧
    extractInitialStereoFeatures exCfg exExt exFrame = some exInitial ∧
    extractStereoFeatures exCfg exOther exFrame = some exOtherStereo ∧
    exOtherStereo.stereo_ls = [] ∧
    (exInitial.stereo_ls.filter (uncertaintyGate exCfg exOther exFrame.cam)).map
      LineFeature.unassigned = exStereo.stereo_ls ∧
    exStereo.stereo_ls.length = 1 := by
  refine ⟨fun cfg ext fr fr1 h hrun => stereo_lines_of_same_median cfg ext fr fr1 h hrun,
    rfl, rfl, ex_initial, ex_other_stereo, rfl, ?_, rfl⟩
  · obtain ⟨fr2, h2, h3, _⟩ :=
      stereo_lines_of_same_median exCfg exExt exFrame exInitial ex_initial
        ex_lineBlockRuns
    rw [ex_stereo] at h2
    cases h2
    exact h3.symm

/-! ## Identifiers -/

theorem range_succ_map_ofNat (n : Nat) :
    (List.range (n + 1)).map Int.ofNat = (List.range n).map Int.ofNat ++ [(n : Int)] := by
  rw [List.range_succ, List.map_append]
  rfl

theorem initialPoint_loop_ids (cfg : Config) (cam : PinholeStereoCamera)
    (pts_l pts_r : List KeyPoint) (pdesc_l : Mat) (rl lr : List (List DMatch)) (acc : PointAcc)
    (h : loopM (initialPointBody cfg cam pts_l pts_r pdesc_l rl) lr ⟨[], [], 0⟩ = some acc) :
    acc.stereo_pt.map PointFeature.idx = (List.range acc.stereo_pt.length).map Int.ofNat := by
  have key := loopM_invariant (fun s : PointAcc => s.pt_idx = (s.stereo_pt.length : Int) ∧
      s.stereo_pt.map PointFeature.idx = (List.range s.stereo_pt.length).map Int.ofNat)
    _ lr ?_ _ _ (by simp) h
  · exact key.2
  · intro m _ s s1 hs hb
    rcases initialPointBody_step _ _ _ _ _ _ _ _ _ hb with e | ⟨m0, m1, kl, kr, row, _, _, e⟩
    · rw [e]; exact hs
    · rw [e]
      refine ⟨by simp [hs.1], ?_⟩
      simp only [List.map_append, List.length_append, List.length_singleton, List.map_cons,
        List.map_nil, range_succ_map_ofNat, hs.2, pointFeatureOf, hs.1]

theorem initialLine_loop_ids (cfg : Config) (ext : Extern) (cam : PinholeStereoCamera)
    (lns_l lns_r : List KeyLine) (ldesc_l : Mat) (rl lr : List (List DMatch)) (th1 th2 : ℚ)
    (acc : LineAcc)
    (h : loopM (initialLineBody cfg ext cam lns_l lns_r ldesc_l rl th1 th2) lr ⟨[], [], 0⟩
      = some acc) :
    acc.stereo_ls.map LineFeature.idx = (List.range acc.stereo_ls.length).map Int.ofNat := by
  have key := loopM_invariant (fun s : LineAcc => s.ls_idx = (s.stereo_ls.length : Int) ∧
      s.stereo_ls.map LineFeature.idx = (List.range s.stereo_ls.length).map Int.ofNat)
    _ lr ?_ _ _ (by simp) h
  · exact key.2
  · intro m _ s s1 hs hb
    rcases initialLineBody_cases _ _ _ _ _ _ _ _ _ _ _ _ hb with
      e | ⟨m0, m1, L, R, ds, de, row, _, _, e⟩
    · rw [e]; exact hs
    · rw [e]
      refine ⟨by simp [hs.1], ?_⟩
      simp only [List.map_append, List.length_append, List.length_singleton, List.map_cons,
        List.map_nil, range_succ_map_ofNat, hs.2, lineFeatureOf, hs.1]

/-- C9: in `extractInitialStereoFeatures` the `k`-th accepted point feature and
the `k`-th accepted line feature (in scan order, `k = 0, 1, 2, ...`) get the
identifier `k`, so the identifiers of each collection are exactly
`0, ..., n-1`; in `extractStereoFeatures` every accepted point feature and every
accepted line feature gets the identifier `-1`. -/
theorem identifiers_sequential_or_sentinel (cfg : Config) (ext : Extern) (fr : StereoFrame) :
    (∀ fr1, extractInitialStereoFeatures cfg ext fr = some fr1 →
      (pointBlockRuns cfg ext fr →
        fr1.stereo_pt.map PointFeature.idx = (List.range fr1.stereo_pt.length).map Int.ofNat) ∧
      (lineBlockRuns cfg ext fr →
        fr1.stereo_ls.map LineFeature.idx = (List.range fr1.stereo_ls.length).map Int.ofNat)) ∧
    (∀ fr2, extractStereoFeatures cfg ext fr = some fr2 →
      (pointBlockRuns cfg ext fr → ∀ f ∈ fr2.stereo_pt, f.idx = -1) ∧
      (lineBlockRuns cfg ext fr → ∀ f ∈ fr2.stereo_ls, f.idx = -1)) := by
  constructor
  · intro fr1 h
    constructor
    · intro hrun
      rcases initial_points_loop cfg ext fr fr1 h with ⟨hc, _⟩ | ⟨_, lr, rl, acc, _, _, h3, e, _⟩
      · exact absurd hrun hc
      · rw [e]; exact initialPoint_loop_ids _ _ _ _ _ _ _ _ h3
    · intro hrun
      rcases initial_lines_loop cfg ext fr fr1 h with
        ⟨hc, _⟩ | ⟨_, nn, nn12, lr, rl, acc, _, _, _, h3, e, _⟩
      · exact absurd hrun hc
      · rw [e]; exact initialLine_loop_ids _ _ _ _ _ _ _ _ _ _ _ h3
  · intro fr2 h
    constructor
    · intro hrun f hf
      rcases stereo_points_loop cfg ext fr fr2 h with ⟨hc, _⟩ | ⟨_, lr, rl, acc, _, _, h3, e, _⟩
      · exact absurd hrun hc
      · rw [e] at hf
        refine loopM_invariant (fun s : PointAcc => ∀ f ∈ s.stereo_pt, f.idx = -1) _ lr ?_ _ _
          (by simp) h3 f hf
        intro m _ s s1 hs hb g hg
        rcases stereoPointBody_step _ _ _ _ _ _ _ _ _ hb with e | ⟨_, _, kl, kr, _, _, _, e⟩
        · rw [e] at hg; exact hs g hg
        · rw [e] at hg
          rcases List.mem_append.mp hg with hg | hg
          · exact hs g hg
          · rw [List.mem_singleton.mp hg]; rfl
    · intro hrun f hf
      rcases stereo_lines_loop cfg ext fr fr2 h with
        ⟨hc, _⟩ | ⟨_, nn, nn12, lr, rl, acc, _, _, _, h3, e, _⟩
      · exact absurd hrun hc
      · rw [e] at hf
        refine loopM_invariant (fun s : LineAcc => ∀ f ∈ s.stereo_ls, f.idx = -1) _ _ ?_ _ _
          (by simp) h3 f hf
        intro m _ s s1 hs hb g hg
        rcases stereoLineBody_cases _ _ _ _ _ _ _ _ _ _ _ _ hb with
          e | ⟨_, _, L, _, ds, de, _, _, _, _, e⟩
        · rw [e] at hg; exact hs g hg
        · rw [e] at hg
          rcases List.mem_append.mp hg with hg | hg
          · exact hs g hg
          · rw [List.mem_singleton.mp hg]; rfl

theorem identifiers_sequential_or_sentinel_witness :
    (exInitial.stereo_pt.map PointFeature.idx = [0, 1] ∧
      exInitial.stereo_ls.map LineFeature.idx = [0, 1]) ∧
    (∀ f ∈ exStereo.stereo_pt, f.idx = -1) ∧ (∀ f ∈ exStereo.stereo_ls, f.idx = -1) :=
  have h := identifiers_sequential_or_sentinel exCfg exExt exFrame
  ⟨⟨(h.1 exInitial ex_initial).1 ex_pointBlockRuns, (h.1 exInitial ex_initial).2 ex_lineBlockRuns⟩,
    (h.2 exStereo ex_stereo).1 ex_pointBlockRuns, (h.2 exStereo ex_stereo).2 ex_lineBlockRuns⟩

/-! ## Skipped blocks -/

theorem extract_of_no_detections (cfg : Config) (ext : Extern) (fr : StereoFrame)
    (hp : ¬ pointBlockRuns cfg ext fr) (hl : ¬ lineBlockRuns cfg ext fr) :
    extractInitialStereoFeatures cfg ext fr = some (afterDetect cfg ext fr) ∧
    extractStereoFeatures cfg ext fr = some (afterDetect cfg ext fr) := by
  unfold pointBlockRuns at hp
  unfold lineBlockRuns at hl
  constructor
  · simp only [extractInitialStereoFeatures, initialPoints, initialLines, if_neg hp, if_neg hl]
  · simp only [extractStereoFeatures, stereoPoints, stereoLines, if_neg hp, if_neg hl]

/-- C10 (as amended): a feature class that is disabled or has no detections in
the left or in the right image is skipped by both extraction methods: the
collection of that class (`stereo_pt` for points, `stereo_ls` for lines) is
left exactly as it was before the call, and when both classes are skipped the
call returns the frame with only its descriptor buffers replaced.  When the
point block runs and the matcher returns no left-to-right candidate,
`stereo_pt` is empty after the call, whatever it held before. -/
theorem skipped_class_keeps_collection (cfg : Config) (ext : Extern) (fr : StereoFrame) :
    (∀ fr1, extractInitialStereoFeatures cfg ext fr = some fr1 ∨
        extractStereoFeatures cfg ext fr = some fr1 →
      (¬ pointBlockRuns cfg ext fr → fr1.stereo_pt = fr.stereo_pt) ∧
      (¬ lineBlockRuns cfg ext fr → fr1.stereo_ls = fr.stereo_ls) ∧
      (pointBlockRuns cfg ext fr → pmatches_lr cfg ext fr = [] → fr1.stereo_pt = [])) ∧
    (¬ pointBlockRuns cfg ext fr → ¬ lineBlockRuns cfg ext fr →
      extractInitialStereoFeatures cfg ext fr = some (afterDetect cfg ext fr) ∧
      extractStereoFeatures cfg ext fr = some (afterDetect cfg ext fr) ∧
      (afterDetect cfg ext fr).stereo_pt = fr.stereo_pt ∧
      (afterDetect cfg ext fr).stereo_ls = fr.stereo_ls) := by
  refine ⟨?_, fun hp hl => ⟨(extract_of_no_detections cfg ext fr hp hl).1,
    (extract_of_no_detections cfg ext fr hp hl).2, rfl, rfl⟩⟩
  intro fr1 h
  refine ⟨?_, ?_, ?_⟩
  · intro hn
    rcases h with h | h
    · rcases initial_points_loop cfg ext fr fr1 h with ⟨_, e⟩ | ⟨hc, _⟩
      · exact e
      · exact absurd hc hn
    · rcases stereo_points_loop cfg ext fr fr1 h with ⟨_, e⟩ | ⟨hc, _⟩
      · exact e
      · exact absurd hc hn
  · intro hn
    rcases h with h | h
    · rcases initial_lines_loop cfg ext fr fr1 h with ⟨_, e⟩ | ⟨hc, _⟩
      · exact e
      · exact absurd hc hn
    · rcases stereo_lines_loop cfg ext fr fr1 h with ⟨_, e⟩ | ⟨hc, _⟩
      · exact e
      · exact absurd hc hn
  · intro hrun hnone
    unfold pmatches_lr at hnone
    rcases h with h | h
    · rcases initial_points_loop cfg ext fr fr1 h with ⟨hc, _⟩ | ⟨_, lr, rl, acc, h1, _, h3, e, _⟩
      · exact absurd hrun hc
      · rw [hnone] at h1
        simp only [stdSort, List.length_nil, Nat.ofNat_pos, if_true, Option.some.injEq] at h1
        rw [← h1] at h3
        simp only [loopM, Option.some.injEq] at h3
        rw [e, ← h3]
    · rcases stereo_points_loop cfg ext fr fr1 h with ⟨hc, _⟩ | ⟨_, lr, rl, acc, h1, _, h3, e, _⟩
      · exact absurd hrun hc
      · rw [hnone] at h1
        simp only [stdSort, List.length_nil, Nat.ofNat_pos, if_true, Option.some.injEq] at h1
        rw [← h1] at h3
        simp only [loopM, Option.some.injEq] at h3
        rw [e, ← h3]

theorem ex_blind_no_points : ¬ pointBlockRuns exCfg exBlind exStale := by
  simp [pointBlockRuns, points_l, detectFeatures, exBlind, exCfg]

theorem ex_blind_no_lines : ¬ lineBlockRuns exCfg exBlind exStale := by
  simp [lineBlockRuns, lines_l, detectFeatures, exBlind, exCfg]

theorem skipped_class_keeps_collection_witness :
    extractInitialStereoFeatures exCfg exBlind exStale = some (afterDetect exCfg exBlind exStale) ∧
    extractStereoFeatures exCfg exBlind exStale = some (afterDetect exCfg exBlind exStale) ∧
    (afterDetect exCfg exBlind exStale).stereo_pt = exStale.stereo_pt ∧
    (afterDetect exCfg exBlind exStale).stereo_ls = exStale.stereo_ls :=
  (skipped_class_keeps_collection exCfg exBlind exStale).2 ex_blind_no_points ex_blind_no_lines

/-- C10 (as stated) fails: with detectors that find nothing in either image, a
frame that holds two point features and two line features of an earlier
extraction still holds them after `extractInitialStereoFeatures` and after
`extractStereoFeatures`. -/
theorem stale_features_survive_empty_detection :
    (points_l exCfg exBlind exStale = [] ∧ lines_l exCfg exBlind exStale = []) ∧
    (∃ fr1, extractInitialStereoFeatures exCfg exBlind exStale = some fr1 ∧
      fr1.stereo_pt.length = 2 ∧ fr1.stereo_ls.length = 2) ∧
    (∃ fr2, extractStereoFeatures exCfg exBlind exStale = some fr2 ∧
      fr2.stereo_pt.length = 2 ∧ fr2.stereo_ls.length = 2) := by
  have h := extract_of_no_detections exCfg exBlind exStale ex_blind_no_points ex_blind_no_lines
  refine ⟨⟨by simp [points_l, detectFeatures, exBlind, exCfg],
    by simp [lines_l, detectFeatures, exBlind, exCfg]⟩, ⟨_, h.1, rfl, rfl⟩, ⟨_, h.2, rfl, rfl⟩⟩

/-! ## Degenerate right lines -/

theorem Fl.not_lt_of_le (x : Fl) (t : ℚ) (h : Fl.le x (Fl.fin t) = true) :
    Fl.lt (Fl.fin t) x = false := by
  cases x with
  | fin a =>
    simp only [Fl.le, decide_eq_true_eq] at h
    simp [Fl.lt, not_lt.mpr h]
  | pinf => simp [Fl.le] at h
  | ninf => simp [Fl.lt]
  | nan => simp [Fl.le] at h

/-- C13 (as amended): in both extraction methods a point candidate whose ratio
`best_distance / second_best_distance`, as the code computes it (one
single-precision division), is at most `Config::minRatio12P()` is never appended
(whenever the loop body returns, the collections are unchanged).  With
`Config::bestLRMatches()` disabled and the subscripts of the candidate in range,
the loop body of either method appends the candidate's feature exactly when
that single-precision ratio exceeds `minRatio12P`, the single-precision
difference `y_left - y_right` has absolute value `<= maxDistEpip` and the
single-precision difference `left.x - right.x` is `>= minDisp`, and leaves the
collections unchanged otherwise. -/
theorem point_ratio_test_decides_acceptance (cfg : Config) (cam : PinholeStereoCamera)
    (pts_l pts_r : List KeyPoint) (pdesc_l : Mat) (pmatches_rl : List (List DMatch))
    (m : List DMatch) (acc : PointAcc) (m0 m1 : DMatch)
    (h0 : m[0]? = some m0) (h1 : m[1]? = some m1) :
    (Fl.le (f32div m0.distance m1.distance) (Fl.fin cfg.minRatio12P) = true →
      (∀ acc1, initialPointBody cfg cam pts_l pts_r pdesc_l pmatches_rl m acc = some acc1 →
        acc1 = acc) ∧
      (∀ acc1, stereoPointBody cfg cam pts_l pts_r pdesc_l pmatches_rl m acc = some acc1 →
        acc1 = acc)) ∧
    (cfg.bestLRMatches = false →
      ∀ kl kr row, at? pts_l m0.queryIdx = some kl → at? pts_r m0.trainIdx = some kr →
        at? pdesc_l m0.queryIdx = some row →
        ((Fl.lt (Fl.fin cfg.minRatio12P) (f32div m0.distance m1.distance) = true ∧
            Fl.le (Fl.abs (f32sub kl.y kr.y)) (Fl.fin cfg.maxDistEpip) = true ∧
            Fl.le (Fl.fin cfg.minDisp) (f32sub kl.x kr.x) = true) →
          initialPointBody cfg cam pts_l pts_r pdesc_l pmatches_rl m acc =
            some { pdesc_l_ := acc.pdesc_l_ ++ [row]
                   stereo_pt := acc.stereo_pt ++ [pointFeatureOf cam kl kr acc.pt_idx]
                   pt_idx := acc.pt_idx + 1 } ∧
          stereoPointBody cfg cam pts_l pts_r pdesc_l pmatches_rl m acc =
            some { pdesc_l_ := acc.pdesc_l_ ++ [row]
                   stereo_pt := acc.stereo_pt ++ [pointFeatureOf cam kl kr (-1)]
                   pt_idx := acc.pt_idx }) ∧
        (¬ (Fl.lt (Fl.fin cfg.minRatio12P) (f32div m0.distance m1.distance) = true ∧
            Fl.le (Fl.abs (f32sub kl.y kr.y)) (Fl.fin cfg.maxDistEpip) = true ∧
            Fl.le (Fl.fin cfg.minDisp) (f32sub kl.x kr.x) = true) →
          initialPointBody cfg cam pts_l pts_r pdesc_l pmatches_rl m acc = some acc ∧
          stereoPointBody cfg cam pts_l pts_r pdesc_l pmatches_rl m acc = some acc)) := by
  constructor
  · intro hle
    have hn := Fl.not_lt_of_le _ _ hle
    constructor
    · intro acc1 hb
      rcases initialPointBody_cases _ _ _ _ _ _ _ _ _ hb with
        e | ⟨m0', m1', _, _, _, a1, a2, _, a4, _⟩
      · exact e
      · rw [h0] at a1; cases a1
        rw [h1] at a2; cases a2
        rw [hn] at a4
        exact absurd a4 (by simp)
    · intro acc1 hb
      rcases stereoPointBody_cases _ _ _ _ _ _ _ _ _ hb with
        e | ⟨m0', m1', _, _, _, a1, a2, _, a4, _⟩
      · exact e
      · rw [h0] at a1; cases a1
        rw [h1] at a2; cases a2
        rw [hn] at a4
        exact absurd a4 (by simp)
  · intro hb kl kr row hkl hkr hrow
    have hr : rlTrainIdx cfg pmatches_rl m0.queryIdx m0.trainIdx = some m0.queryIdx := by
      simp [rlTrainIdx, hb]
    constructor
    · rintro ⟨c1, c2, c3⟩
      constructor
      · simp [initialPointBody, h0, h1, hr, c1, c2, c3, hkl, hkr, hrow, pointFeatureOf]
      · simp [stereoPointBody, h0, h1, hr, c1, c2, c3, hkl, hkr, hrow, pointFeatureOf]
    · intro hn
      by_cases c1 : Fl.lt (Fl.fin cfg.minRatio12P) (f32div m0.distance m1.distance) = true
      · by_cases c2 : Fl.le (Fl.abs (f32sub kl.y kr.y)) (Fl.fin cfg.maxDistEpip) = true
        · have c3 : ¬ Fl.le (Fl.fin cfg.minDisp) (f32sub kl.x kr.x) = true :=
            fun c3 => hn ⟨c1, c2, c3⟩
          constructor
          · simp [initialPointBody, h0, h1, hr, c1, c2, c3, hkl, hkr]
          · simp [stereoPointBody, h0, h1, hr, c1, c2, c3, hkl, hkr]
        · constructor
          · simp [initialPointBody, h0, h1, hr, c1, c2, hkl, hkr]
          · simp [stereoPointBody, h0, h1, hr, c1, c2, hkl, hkr]
      · constructor
        · simp [initialPointBody, h0, h1, hr, c1]
        · simp [stereoPointBody, h0, h1, hr, c1]

/-- One-directional matching: `exCfg` with `bestLRMatches` disabled. -/
theorem point_ratio_test_decides_acceptance_witness :
    (initialPointBody { exCfg with bestLRMatches := false } exCam [⟨20, 5⟩, ⟨30, 8⟩]
        [⟨10, 5⟩, ⟨29, 8⟩] [[1], [2]] [] [⟨0, 0, 1⟩, ⟨0, 1, 8⟩] ⟨[], [], 0⟩ =
      some { pdesc_l_ := [] ++ [[1]]
             stereo_pt := [] ++ [pointFeatureOf exCam ⟨20, 5⟩ ⟨10, 5⟩ 0]
             pt_idx := 0 + 1 } ∧
      stereoPointBody { exCfg with bestLRMatches := false } exCam [⟨20, 5⟩, ⟨30, 8⟩]
        [⟨10, 5⟩, ⟨29, 8⟩] [[1], [2]] [] [⟨0, 0, 1⟩, ⟨0, 1, 8⟩] ⟨[], [], 0⟩ =
      some { pdesc_l_ := [] ++ [[1]]
             stereo_pt := [] ++ [pointFeatureOf exCam ⟨20, 5⟩ ⟨10, 5⟩ (-1)]
             pt_idx := 0 }) :=
  ((point_ratio_test_decides_acceptance { exCfg with bestLRMatches := false } exCam
    [⟨20, 5⟩, ⟨30, 8⟩] [⟨10, 5⟩, ⟨29, 8⟩] [[1], [2]] [] [⟨0, 0, 1⟩, ⟨0, 1, 8⟩] ⟨[], [], 0⟩
    ⟨0, 0, 1⟩ ⟨0, 1, 8⟩ rfl rfl).2 rfl ⟨20, 5⟩ ⟨10, 5⟩ [1] (by simp [at?]) (by simp [at?])
    (by simp [at?])).1
    ⟨by norm_num [Fl.lt, f32div, fdiv, f32_eighth, exCfg],
      by norm_num [Fl.le, Fl.abs, f32sub, f32_zero, exCfg],
      by norm_num [Fl.le, f32sub, f32_ten, exCfg]⟩

/-- C13 (as stated) fails: with `Config::minRatio12P()` the double nearest to
`0.1` and one-directional matching, a candidate with distances `8` and `80`
has the exact ratio `1/10`, which is not above the threshold, yet both methods
append its feature, because the single-precision quotient
`13421773 / 134217728` is above the threshold. -/
theorem rounded_ratio_accepts_candidate_at_threshold :
    (8 : ℚ) / 80 ≤ exTenthCfg.minRatio12P ∧
    exTenthCfg.bestLRMatches = false ∧
    initialPointBody exTenthCfg exCam [⟨20, 5⟩] [⟨10, 5⟩] [[1]] [] [⟨0, 0, 8⟩, ⟨0, 0, 80⟩]
        ⟨[], [], 0⟩ =
      some ⟨[[1]], [pointFeatureOf exCam ⟨20, 5⟩ ⟨10, 5⟩ 0], 1⟩ ∧
    stereoPointBody exTenthCfg exCam [⟨20, 5⟩] [⟨10, 5⟩] [[1]] [] [⟨0, 0, 8⟩, ⟨0, 0, 80⟩]
        ⟨[], [], 0⟩ =
      some ⟨[[1]], [pointFeatureOf exCam ⟨20, 5⟩ ⟨10, 5⟩ (-1)], 0⟩ := by
  have h : (8 : ℚ) / 80 = 1 / 10 := by norm_num
  refine ⟨by norm_num [exTenthCfg, exCfg], rfl, ?_, ?_⟩
  · norm_num [initialPointBody, rlTrainIdx, exTenthCfg, exCfg, at?, Fl.lt, Fl.le, Fl.abs,
      f32div, fdiv, f32sub, h, f32_tenth, f32_zero, f32_ten, pointFeatureOf]
  · norm_num [stereoPointBody, rlTrainIdx, exTenthCfg, exCfg, at?, Fl.lt, Fl.le, Fl.abs,
      f32div, fdiv, f32sub, h, f32_tenth, f32_zero, f32_ten, pointFeatureOf]

/-! ## First-stage line tests -/

/-- C14 (as amended): every line feature accepted by either extraction method
comes from a candidate (left line `L`, right line `R`) with
`R.lineLength > min_line_length_th`,
`second_best - best distance > nn12_mad * Config::descThL()`,
`|L.angle| >= Config::minHorizAngle()`, `|R.angle| >= Config::minHorizAngle()`
(at least, not strictly above) and
`|angDiff(L.angle, R.angle)| < Config::maxAngleDiff()`. -/
theorem line_features_pass_first_stage_tests (cfg : Config) (ext : Extern)
    (fr fr2 : StereoFrame)
    (h : extractInitialStereoFeatures cfg ext fr = some fr2 ∨
      extractStereoFeatures cfg ext fr = some fr2)
    (hrun : lineBlockRuns cfg ext fr) :
    ∃ nn_mad nn12_mad,
      lineDescriptorMAD (lmatches_lr cfg ext fr) ext.nn_dist_median = some (nn_mad, nn12_mad) ∧
      ∀ f ∈ fr2.stereo_ls, ∃ m ∈ lmatches_lr cfg ext fr, ∃ m0 m1 L R,
        m[0]? = some m0 ∧ m[1]? = some m1 ∧
        at? (lines_l cfg ext fr) m0.queryIdx = some L ∧
        at? (lines_r cfg ext fr) m0.trainIdx = some R ∧
        f.spl = ⟨L.startPointX, L.startPointY⟩ ∧ f.epl = ⟨L.endPointX, L.endPointY⟩ ∧
        f.angle = L.angle ∧
        minLineLengthTh cfg fr.cam < R.lineLength ∧
        nn12_mad * cfg.descThL < m1.distance - m0.distance ∧
        cfg.minHorizAngle ≤ |L.angle| ∧ cfg.minHorizAngle ≤ |R.angle| ∧
        |ext.angDiff L.angle R.angle| < cfg.maxAngleDiff := by
  obtain ⟨nn, nn12, h0, rl, hall⟩ := line_features_of_run cfg ext fr fr2 h hrun
  refine ⟨nn, nn12, h0, ?_⟩
  intro f hf
  obtain ⟨m, hm, m0, m1, L, R, ds, de, idx, hg, e⟩ := hall f hf
  obtain ⟨g1, g2, _, g4, g5, g6, g7, g8, g9, g10, _⟩ := hg
  exact ⟨m, hm, m0, m1, L, R, g1, g2, g4, g5, by rw [e]; rfl, by rw [e]; rfl, by rw [e]; rfl,
    g6, g7, g8, g9, g10⟩

theorem line_features_pass_first_stage_tests_witness :
    (extractInitialStereoFeatures exCfg exExt exFrame = some exInitial ∨
      extractStereoFeatures exCfg exExt exFrame = some exInitial) ∧
    lineBlockRuns exCfg exExt exFrame ∧
    ∃ nn_mad nn12_mad,
      lineDescriptorMAD (lmatches_lr exCfg exExt exFrame) exExt.nn_dist_median
        = some (nn_mad, nn12_mad) ∧
      ∀ f ∈ exInitial.stereo_ls, ∃ m ∈ lmatches_lr exCfg exExt exFrame, ∃ m0 m1 L R,
        m[0]? = some m0 ∧ m[1]? = some m1 ∧
        at? (lines_l exCfg exExt exFrame) m0.queryIdx = some L ∧
        at? (lines_r exCfg exExt exFrame) m0.trainIdx = some R ∧
        f.spl = ⟨L.startPointX, L.startPointY⟩ ∧ f.epl = ⟨L.endPointX, L.endPointY⟩ ∧
        f.angle = L.angle ∧
        minLineLengthTh exCfg exFrame.cam < R.lineLength ∧
        nn12_mad * exCfg.descThL < m1.distance - m0.distance ∧
        exCfg.minHorizAngle ≤ |L.angle| ∧ exCfg.minHorizAngle ≤ |R.angle| ∧
        |exExt.angDiff L.angle R.angle| < exCfg.maxAngleDiff :=
  ⟨Or.inl ex_initial, ex_lineBlockRuns,
    line_features_pass_first_stage_tests exCfg exExt exFrame exInitial (Or.inl ex_initial)
      ex_lineBlockRuns⟩

theorem ex_angle_initial :
    extractInitialStereoFeatures exAngleCfg exExt exFrame = some exInitial := by
  have e1 : points_l exAngleCfg exExt exFrame = [⟨20, 5⟩, ⟨30, 8⟩] := by
    simp [points_l, detectFeatures, exAngleCfg, exCfg, exExt, exFrame]
  have e2 : points_r exAngleCfg exExt exFrame = [⟨10, 5⟩, ⟨29, 8⟩] := by
    simp [points_r, detectFeatures, exAngleCfg, exCfg, exExt, exFrame]
  have e3 : lines_l exAngleCfg exExt exFrame
      = [⟨20, 10, 30, 20, 1, 14⟩, ⟨40, 10, 40, 30, 2, 20⟩] := by
    simp [lines_l, detectFeatures, exAngleCfg, exCfg, exExt, exFrame]
  have e4 : lines_r exAngleCfg exExt exFrame
      = [⟨10, 10, 20, 20, 1, 14⟩, ⟨39, 10, 39, 30, 2, 20⟩] := by
    simp [lines_r, detectFeatures, exAngleCfg, exCfg, exExt, exFrame]
  simp only [extractInitialStereoFeatures, e1, e2, e3, e4]
  norm_num [initialPoints, initialLines, afterDetect, detectFeatures, minLineLengthTh,
    exAngleCfg, exCfg, exExt, exFrame, exCam, exInitial, lineKnnMatch, ex_lineDescriptorMAD,
    stdSort, keyed, sort_descriptor_by_queryIdx, loopM, initialPointBody, initialLineBody,
    rlTrainIdx, at?, fdiv, Fl.lt, Fl.le, Fl.rsub, dispStart, dispEnd, rightLineEq, leftLineEq,
    Vector3d.cross, List.insertionSort, List.orderedInsert, f32sub, f32div, Fl.abs, Fl.div,
    f32_zero, f32_one, f32_ten, f32_eighth, f32_two_ninths]

/-- C14 (as stated) fails: with `Config::minHorizAngle() = 1` the bootstrap
extraction of `exFrame` stores a line feature of angle `1`; the left line it is
built from has `|L.angle| = 1`, which does not exceed the bound. -/
theorem line_with_boundary_angle_is_accepted :
    extractInitialStereoFeatures exAngleCfg exExt exFrame = some exInitial ∧
    ∃ f ∈ exInitial.stereo_ls, |f.angle| = exAngleCfg.minHorizAngle ∧
      ∀ L ds de idx, f = lineFeatureOf exExt exFrame.cam L ds de idx →
        ¬ exAngleCfg.minHorizAngle < |L.angle| := by
  refine ⟨ex_angle_initial, _, List.mem_cons_self _ _, by norm_num [exAngleCfg], ?_⟩
  intro L ds de idx e
  have ha : L.angle = 1 := (congrArg LineFeature.angle e).symm
  rw [ha]
  norm_num [exAngleCfg]

/-! ## `lineDescriptorMAD` on small populations -/

theorem keyed_isSome {α K : Type} (key : α → Option K) (v : List α)
    (h : ∀ a ∈ v, ∃ k, key a = some k) : ∃ kv, keyed key v = some kv := by
  induction v with
  | nil => exact ⟨[], rfl⟩
  | cons a l ih =>
    obtain ⟨k, hk⟩ := h a (List.mem_cons_self _ _)
    obtain ⟨r, hr⟩ := ih (fun b hb => h b (List.mem_cons_of_mem _ hb))
    exact ⟨(k, a) :: r, by simp [keyed, hk, hr]⟩

theorem stdSort_isSome {α K : Type} [LinearOrder K] (key : α → Option K) (v : List α)
    (h : ∀ a ∈ v, ∃ k, key a = some k) : ∃ w, stdSort key v = some w := by
  unfold stdSort
  split_ifs
  · exact ⟨v, rfl⟩
  · obtain ⟨kv, hkv⟩ := keyed_isSome key v h
    exact ⟨_, by rw [hkv]; rfl⟩

theorem pair_getElem? (m : List DMatch) (h : 2 ≤ m.length) :
    ∃ d0 d1, m[0]? = some d0 ∧ m[1]? = some d1 := by
  match m, h with
  | d0 :: d1 :: _, _ => exact ⟨d0, d1, by simp, by simp⟩

theorem NN_dist_readable (v : List (List DMatch)) (h : ∀ m ∈ v, 2 ≤ m.length) :
    ∀ m ∈ v, ∃ k, compare_descriptor_by_NN_dist m = some k := by
  intro m hm
  obtain ⟨d0, _, e0, _⟩ := pair_getElem? m (h m hm)
  exact ⟨d0.distance, by simp [compare_descriptor_by_NN_dist, e0]⟩

theorem NN12_dist_readable (v : List (List DMatch)) (h : ∀ m ∈ v, 2 ≤ m.length) :
    ∀ m ∈ v, ∃ k, compare_descriptor_by_NN12_dist m = some k := by
  intro m hm
  obtain ⟨d0, d1, e0, e1⟩ := pair_getElem? m (h m hm)
  exact ⟨-(d1.distance - d0.distance), by simp [compare_descriptor_by_NN12_dist, e0, e1]⟩

theorem mid_getElem? {α : Type} (v : List α) (h : v ≠ []) :
    ∃ m ∈ v, v[v.length / 2]? = some m := by
  have hlen : 0 < v.length := List.length_pos.mpr h
  have hlt : v.length / 2 < v.length := Nat.div_lt_self hlen (by norm_num)
  exact ⟨v[v.length / 2], List.getElem_mem _, List.getElem?_eq_getElem hlt⟩

theorem midDistance0_isSome (v : List (List DMatch)) (hne : v ≠ [])
    (h : ∀ m ∈ v, 2 ≤ m.length) : ∃ x, midDistance0 v = some x := by
  obtain ⟨m, hm, e⟩ := mid_getElem? v hne
  obtain ⟨d0, _, e0, _⟩ := pair_getElem? m (h m hm)
  exact ⟨d0.distance, by simp [midDistance0, e, e0]⟩

theorem midGap_isSome (v : List (List DMatch)) (hne : v ≠ [])
    (h : ∀ m ∈ v, 2 ≤ m.length) : ∃ x, midGap v = some x := by
  obtain ⟨m, hm, e⟩ := mid_getElem? v hne
  obtain ⟨d0, d1, e0, e1⟩ := pair_getElem? m (h m hm)
  exact ⟨d1.distance - d0.distance, by simp [midGap, e, e0, e1]⟩

theorem setDistance0_length (x : ℚ) (m m1 : List DMatch) (h : setDistance0 x m = some m1) :
    m1.length = m.length := by
  cases m with
  | nil => simp [setDistance0] at h
  | cons d r =>
    simp only [setDistance0, Option.some.injEq] at h
    rw [← h]; rfl

theorem absDevNN_isSome (g : ℚ) (v : List (List DMatch)) (h : ∀ m ∈ v, 2 ≤ m.length) :
    ∃ w, absDevNN g v = some w ∧ w.length = v.length ∧ ∀ m ∈ w, 2 ≤ m.length := by
  induction v with
  | nil => exact ⟨[], rfl, rfl, by simp⟩
  | cons m l ih =>
    obtain ⟨w, hw, hl, hp⟩ := ih (fun b hb => h b (List.mem_cons_of_mem _ hb))
    have hm := h m (List.mem_cons_self _ _)
    match m, hm with
    | d0 :: d1 :: r, _ =>
      refine ⟨_ :: w, by simp [absDevNN, setDistance0, hw]; rfl, by simp [hl], ?_⟩
      intro b hb
      rcases List.mem_cons.mp hb with e | hb
      · rw [e]; simp
      · exact hp b hb

theorem absDev12_isSome (g : ℚ) (v : List (List DMatch)) (h : ∀ m ∈ v, 2 ≤ m.length) :
    ∃ w, absDev12 g v = some w ∧ w.length = v.length ∧ ∀ m ∈ w, 2 ≤ m.length := by
  induction v with
  | nil => exact ⟨[], rfl, rfl, by simp⟩
  | cons m l ih =>
    obtain ⟨w, hw, hl, hp⟩ := ih (fun b hb => h b (List.mem_cons_of_mem _ hb))
    have hm := h m (List.mem_cons_self _ _)
    match m, hm with
    | d0 :: d1 :: r, _ =>
      refine ⟨_ :: w, by simp [absDev12, setDistance0, hw]; rfl, by simp [hl], ?_⟩
      intro b hb
      rcases List.mem_cons.mp hb with e | hb
      · rw [e]; simp
      · exact hp b hb

theorem stdSort_keeps_pairs {K : Type} [LinearOrder K] (key : List DMatch → Option K)
    (v w : List (List DMatch)) (hs : stdSort key v = some w) (hne : v ≠ [])
    (h : ∀ m ∈ v, 2 ≤ m.length) : w ≠ [] ∧ ∀ m ∈ w, 2 ≤ m.length := by
  have hp := stdSort_perm key v w hs
  refine ⟨?_, fun m hm => h m (hp.mem_iff.mp hm)⟩
  intro e
  rw [e] at hp
  exact hne (List.Perm.nil_eq hp).symm

theorem lineDescriptorMAD_isSome (v : List (List DMatch)) (g : ℚ) (hne : v ≠ [])
    (h : ∀ m ∈ v, 2 ≤ m.length) :
    ∃ nn_mad nn12_mad, lineDescriptorMAD v g = some (nn_mad, nn12_mad) := by
  obtain ⟨a1, ha1⟩ := stdSort_isSome compare_descriptor_by_NN_dist v (NN_dist_readable v h)
  obtain ⟨na1, pa1⟩ := stdSort_keeps_pairs _ v a1 ha1 hne h
  obtain ⟨x1, hx1⟩ := midDistance0_isSome a1 na1 pa1
  obtain ⟨a2, ha2, la2, pa2⟩ := absDevNN_isSome g a1 pa1
  have na2 : a2 ≠ [] := by
    intro e; rw [e] at la2; exact na1 (List.length_eq_zero.mp la2.symm)
  obtain ⟨a3, ha3⟩ := stdSort_isSome compare_descriptor_by_NN_dist a2 (NN_dist_readable a2 pa2)
  obtain ⟨na3, pa3⟩ := stdSort_keeps_pairs _ a2 a3 ha3 na2 pa2
  obtain ⟨x2, hx2⟩ := midDistance0_isSome a3 na3 pa3
  obtain ⟨b1, hb1⟩ := stdSort_isSome compare_descriptor_by_NN12_dist v (NN12_dist_readable v h)
  obtain ⟨nb1, pb1⟩ := stdSort_keeps_pairs _ v b1 hb1 hne h
  obtain ⟨y1, hy1⟩ := midGap_isSome b1 nb1 pb1
  obtain ⟨b2, hb2, lb2, pb2⟩ := absDev12_isSome g b1 pb1
  have nb2 : b2 ≠ [] := by
    intro e; rw [e] at lb2; exact nb1 (List.length_eq_zero.mp lb2.symm)
  obtain ⟨b3, hb3⟩ := stdSort_isSome compare_descriptor_by_NN_dist b2 (NN_dist_readable b2 pb2)
  obtain ⟨nb3, pb3⟩ := stdSort_keeps_pairs _ b2 b3 hb3 nb2 pb2
  obtain ⟨y2, hy2⟩ := midDistance0_isSome b3 nb3 pb3
  exact ⟨7413 / 5000 * x2, 7413 / 5000 * y2, by
    simp [lineDescriptorMAD, ha1, hx1, ha2, ha3, hx2, hb1, hy1, hb2, hb3, hy2]⟩

theorem absDev12_pairs (g : ℚ) (v w : List (List DMatch)) (h : absDev12 g v = some w) :
    ∀ m ∈ v, 2 ≤ m.length := by
  induction v generalizing w with
  | nil => simp
  | cons m l ih =>
    unfold absDev12 at h
    cases h1 : m[1]? with
    | none => simp [h1] at h
    | some d1 =>
      cases h0 : m[0]? with
      | none => simp [h1, h0] at h
      | some d0 =>
        simp only [h1, h0] at h
        cases hl : absDev12 g l with
        | none =>
          cases hs : setDistance0 (|d1.distance - d0.distance - g|) m <;> simp [hl, hs] at h
        | some l1 =>
          intro b hb
          rcases List.mem_cons.mp hb with e | hb
          · rw [e]
            have := List.getElem?_eq_some_iff.mp h1
            obtain ⟨hlt, _⟩ := this
            omega
          · exact ih l1 hl b hb

theorem lineDescriptorMAD_some_iff (v : List (List DMatch)) (g : ℚ) :
    (∃ nn_mad nn12_mad, lineDescriptorMAD v g = some (nn_mad, nn12_mad)) ↔
      (v ≠ [] ∧ ∀ m ∈ v, 2 ≤ m.length) := by
  constructor
  · rintro ⟨a, b, h⟩
    simp only [lineDescriptorMAD, Option.bind_eq_bind, Option.bind_eq_some] at h
    obtain ⟨a1, ha1, x1, hx1, a2, ha2, a3, ha3, x2, hx2, b1, hb1, y1, hy1, b2, hb2, _⟩ := h
    have hp := stdSort_perm _ v b1 hb1
    refine ⟨?_, fun m hm => absDev12_pairs g b1 b2 hb2 m (hp.mem_iff.mpr hm)⟩
    intro e
    rw [e] at hb1
    simp only [stdSort, List.length_nil, Nat.ofNat_pos, if_true, Option.some.injEq] at hb1
    rw [← hb1] at hy1
    simp [midGap] at hy1
  · rintro ⟨hne, h⟩
    exact lineDescriptorMAD_isSome v g hne h

/-- C15 fails on the code for the empty population: `lineDescriptorMAD` returns
its two thresholds exactly when the candidate list is non-empty and every
candidate has two neighbours.  With no candidate the subscript
`matches_nn[int(0 / 2)]` is out of range, and a candidate with a single
neighbour makes `matches_12[j][1]` out of range; with one, two or more
candidates of two neighbours each the call completes. -/
theorem lineDescriptorMAD_completes_iff_nonempty_pairs :
    (∀ g, lineDescriptorMAD [] g = none) ∧
    (∀ g d, lineDescriptorMAD [[d]] g = none) ∧
    (∀ (v : List (List DMatch)) (g : ℚ),
      (∃ nn_mad nn12_mad, lineDescriptorMAD v g = some (nn_mad, nn12_mad)) ↔
        (v ≠ [] ∧ ∀ m ∈ v, 2 ≤ m.length)) ∧
    (∀ g m1 m2, 2 ≤ m1.length → 2 ≤ m2.length →
      (∃ nn_mad nn12_mad, lineDescriptorMAD [m1] g = some (nn_mad, nn12_mad)) ∧
      (∃ nn_mad nn12_mad, lineDescriptorMAD [m1, m2] g = some (nn_mad, nn12_mad))) := by
  refine ⟨?_, ?_, lineDescriptorMAD_some_iff, ?_⟩
  · intro g
    simp [lineDescriptorMAD, stdSort, midDistance0]
  · intro g d
    simp [lineDescriptorMAD, stdSort, midDistance0, midGap, absDevNN, setDistance0]
  · intro g m1 m2 h1 h2
    constructor
    · exact lineDescriptorMAD_isSome [m1] g (by simp) (by simpa using h1)
    · exact lineDescriptorMAD_isSome [m1, m2] g (by simp) (by simp [h1, h2])

/-! ## The accepted candidates of a loop, by position -/

theorem loopM_trace {α σ β γ : Type} (out1 : σ → List β) (out2 : σ → List γ)
    (Built : α → β → γ → Prop) (body : α → σ → Option σ) (l : List α)
    (hstep : ∀ a ∈ l, ∀ s s1, body a s = some s1 →
      (out1 s1 = out1 s ∧ out2 s1 = out2 s ∧ ∀ b c, ¬ Built a b c) ∨
      ∃ b c, Built a b c ∧ out1 s1 = out1 s ++ [b] ∧ out2 s1 = out2 s ++ [c]) :
    ∀ s s1, loopM body l s = some s1 → ∃ tr : List (Nat × α × β × γ),
      out1 s1 = out1 s ++ tr.map (fun t => t.2.2.1) ∧
      out2 s1 = out2 s ++ tr.map (fun t => t.2.2.2) ∧
      tr.Pairwise (fun t u => t.1 < u.1) ∧
      (∀ t ∈ tr, l[t.1]? = some t.2.1 ∧ Built t.2.1 t.2.2.1 t.2.2.2) ∧
      (∀ i a b c, l[i]? = some a → Built a b c → ∃ t ∈ tr, t.1 = i) := by
  induction l with
  | nil =>
    intro s s1 h
    simp only [loopM, Option.some.injEq] at h
    exact ⟨[], by simp [h], by simp [h], List.Pairwise.nil, by simp, by simp⟩
  | cons a l ih =>
    intro s s1 h
    simp only [loopM] at h
    cases hb : body a s with
    | none => simp [hb] at h
    | some s2 =>
      simp only [hb] at h
      obtain ⟨tr, e1, e2, hp, hall, hex⟩ :=
        ih (fun a1 ha1 => hstep a1 (List.mem_cons_of_mem _ ha1)) s2 s1 h
      have hsh : (tr.map fun t => (t.1 + 1, t.2)).Pairwise (fun t u => t.1 < u.1) := by
        rw [List.pairwise_map]
        exact hp.imp (fun h => Nat.succ_lt_succ h)
      have hall1 : ∀ t ∈ tr.map (fun t => (t.1 + 1, t.2)),
          (a :: l)[t.1]? = some t.2.1 ∧ Built t.2.1 t.2.2.1 t.2.2.2 := by
        intro t ht
        obtain ⟨u, hu, rfl⟩ := List.mem_map.mp ht
        simpa using hall u hu
      rcases hstep a (List.mem_cons_self _ _) s s2 hb with ⟨f1, f2, hn⟩ | ⟨b, c, hB, f1, f2⟩
      · refine ⟨tr.map fun t => (t.1 + 1, t.2), ?_, ?_, hsh, hall1, ?_⟩
        · rw [e1, f1]; simp [Function.comp_def]
        · rw [e2, f2]; simp [Function.comp_def]
        · intro i a1 b c hi hB
          cases i with
          | zero =>
            simp only [List.getElem?_cons_zero, Option.some.injEq] at hi
            rw [← hi] at hB
            exact absurd hB (hn b c)
          | succ j =>
            simp only [List.getElem?_cons_succ] at hi
            obtain ⟨t, ht, e⟩ := hex j a1 b c hi hB
            exact ⟨(t.1 + 1, t.2), List.mem_map.mpr ⟨t, ht, rfl⟩, by simp [e]⟩
      · refine ⟨(0, a, b, c) :: tr.map fun t => (t.1 + 1, t.2), ?_, ?_, ?_, ?_, ?_⟩
        · rw [e1, f1]; simp [Function.comp_def]
        · rw [e2, f2]; simp [Function.comp_def]
        · refine List.Pairwise.cons ?_ hsh
          intro t ht
          obtain ⟨u, _, rfl⟩ := List.mem_map.mp ht
          exact Nat.succ_pos _
        · intro t ht
          rcases List.mem_cons.mp ht with e | ht
          · rw [e]; exact ⟨by simp, hB⟩
          · exact hall1 t ht
        · intro i a1 b1 c1 hi hB1
          cases i with
          | zero => exact ⟨_, List.mem_cons_self _ _, rfl⟩
          | succ j =>
            simp only [List.getElem?_cons_succ] at hi
            obtain ⟨t, ht, e⟩ := hex j a1 b1 c1 hi hB1
            exact ⟨(t.1 + 1, t.2), List.mem_cons_of_mem _ (List.mem_map.mpr ⟨t, ht, rfl⟩),
              by simp [e]⟩

theorem initialPointBody_of_gates (cfg : Config) (cam : PinholeStereoCamera)
    (pts_l pts_r : List KeyPoint) (pdesc_l : Mat) (rl : List (List DMatch))
    (m : List DMatch) (acc : PointAcc) (m0 m1 : DMatch) (kl kr : KeyPoint)
    (hg : PointGates cfg pts_l pts_r rl m m0 m1 kl kr) :
    initialPointBody cfg cam pts_l pts_r pdesc_l rl m acc =
      match at? pdesc_l m0.queryIdx with
      | none => none
      | some row =>
        some { pdesc_l_ := acc.pdesc_l_ ++ [row]
               stereo_pt := acc.stereo_pt ++ [pointFeatureOf cam kl kr acc.pt_idx]
               pt_idx := acc.pt_idx + 1 } := by
  obtain ⟨g1, g2, g3, g4, g5, g6, g7, g8⟩ := hg
  simp only [initialPointBody, g1, g2, g3, g4, g5, g6, g7, g8, and_self, if_true,
    pointFeatureOf]

theorem stereoPointBody_of_gates (cfg : Config) (cam : PinholeStereoCamera)
    (pts_l pts_r : List KeyPoint) (pdesc_l : Mat) (rl : List (List DMatch))
    (m : List DMatch) (acc : PointAcc) (m0 m1 : DMatch) (kl kr : KeyPoint)
    (hg : PointGates cfg pts_l pts_r rl m m0 m1 kl kr) :
    stereoPointBody cfg cam pts_l pts_r pdesc_l rl m acc =
      match at? pdesc_l m0.queryIdx with
      | none => none
      | some row =>
        some { pdesc_l_ := acc.pdesc_l_ ++ [row]
               stereo_pt := acc.stereo_pt ++ [pointFeatureOf cam kl kr (-1)]
               pt_idx := acc.pt_idx } := by
  obtain ⟨g1, g2, g3, g4, g5, g6, g7, g8⟩ := hg
  simp only [stereoPointBody, g1, g2, g3, g4, g5, g6, g7, g8, and_self, if_true,
    pointFeatureOf]

theorem initialPointBody_trace (cfg : Config) (cam : PinholeStereoCamera)
    (pts_l pts_r : List KeyPoint) (pdesc_l : Mat) (rl : List (List DMatch))
    (m : List DMatch) (s s1 : PointAcc)
    (h : initialPointBody cfg cam pts_l pts_r pdesc_l rl m s = some s1) :
    (s1.pdesc_l_ = s.pdesc_l_ ∧ s1.stereo_pt = s.stereo_pt ∧
      ∀ row f, ¬ PointBuilt cfg cam pts_l pts_r pdesc_l rl m row f) ∨
    ∃ row f, PointBuilt cfg cam pts_l pts_r pdesc_l rl m row f ∧
      s1.pdesc_l_ = s.pdesc_l_ ++ [row] ∧ s1.stereo_pt = s.stereo_pt ++ [f] := by
  rcases initialPointBody_step _ _ _ _ _ _ _ _ _ h with e | ⟨m0, m1, kl, kr, row, hg, hrow, e⟩
  · refine Or.inl ⟨by rw [e], by rw [e], ?_⟩
    rintro row f ⟨m0, m1, kl, kr, idx, hg, hrow, _⟩
    rw [initialPointBody_of_gates _ _ _ _ _ _ _ _ _ _ _ _ hg, hrow, e] at h
    have := congrArg (fun a => a.pdesc_l_.length) (Option.some.inj h)
    simp at this
  · exact Or.inr ⟨row, _, ⟨m0, m1, kl, kr, s.pt_idx, hg, hrow, rfl⟩, by rw [e], by rw [e]⟩

theorem stereoPointBody_trace (cfg : Config) (cam : PinholeStereoCamera)
    (pts_l pts_r : List KeyPoint) (pdesc_l : Mat) (rl : List (List DMatch))
    (m : List DMatch) (s s1 : PointAcc)
    (h : stereoPointBody cfg cam pts_l pts_r pdesc_l rl m s = some s1) :
    (s1.pdesc_l_ = s.pdesc_l_ ∧ s1.stereo_pt = s.stereo_pt ∧
      ∀ row f, ¬ PointBuilt cfg cam pts_l pts_r pdesc_l rl m row f) ∨
    ∃ row f, PointBuilt cfg cam pts_l pts_r pdesc_l rl m row f ∧
      s1.pdesc_l_ = s.pdesc_l_ ++ [row] ∧ s1.stereo_pt = s.stereo_pt ++ [f] := by
  rcases stereoPointBody_step _ _ _ _ _ _ _ _ _ h with e | ⟨m0, m1, kl, kr, row, hg, hrow, e⟩
  · refine Or.inl ⟨by rw [e], by rw [e], ?_⟩
    rintro row f ⟨m0, m1, kl, kr, idx, hg, hrow, _⟩
    rw [stereoPointBody_of_gates _ _ _ _ _ _ _ _ _ _ _ _ hg, hrow, e] at h
    have := congrArg (fun a => a.pdesc_l_.length) (Option.some.inj h)
    simp at this
  · exact Or.inr ⟨row, _, ⟨m0, m1, kl, kr, -1, hg, hrow, rfl⟩, by rw [e], by rw [e]⟩

theorem initialLineBody_trace (cfg : Config) (ext : Extern) (cam : PinholeStereoCamera)
    (lns_l lns_r : List KeyLine) (ldesc_l : Mat) (rl : List (List DMatch))
    (th1 th2 : ℚ) (m : List DMatch) (s s1 : LineAcc)
    (h : initialLineBody cfg ext cam lns_l lns_r ldesc_l rl th1 th2 m s = some s1) :
    (s1.ldesc_l_ = s.ldesc_l_ ∧ s1.stereo_ls = s.stereo_ls ∧
      ∀ row f, ¬ LineBuilt false cfg ext cam lns_l lns_r ldesc_l rl th1 th2 m row f) ∨
    ∃ row f, LineBuilt false cfg ext cam lns_l lns_r ldesc_l rl th1 th2 m row f ∧
      s1.ldesc_l_ = s.ldesc_l_ ++ [row] ∧ s1.stereo_ls = s.stereo_ls ++ [f] := by
  rcases initialLineBody_cases _ _ _ _ _ _ _ _ _ _ _ _ h with
    e | ⟨m0, m1, L, R, ds, de, row, hg, hrow, e⟩
  · refine Or.inl ⟨by rw [e], by rw [e], ?_⟩
    rintro row f ⟨m0, m1, L, R, ds, de, idx, hg, _, hrow, _⟩
    rw [initialLineBody_of_gates _ _ _ _ _ _ _ _ _ _ _ _ _ _ _ _ _ hg, hrow, e] at h
    have := congrArg (fun a => a.ldesc_l_.length) (Option.some.inj h)
    simp at this
  · exact Or.inr ⟨row, _, ⟨m0, m1, L, R, ds, de, s.ls_idx, hg, by simp, hrow, rfl⟩,
      by rw [e], by rw [e]⟩

theorem stereoLineBody_trace (cfg : Config) (ext : Extern) (cam : PinholeStereoCamera)
    (lns_l lns_r : List KeyLine) (ldesc_l : Mat) (rl : List (List DMatch))
    (th1 th2 : ℚ) (m : List DMatch) (s s1 : LineAcc)
    (h : stereoLineBody cfg ext cam lns_l lns_r ldesc_l rl th1 th2 m s = some s1) :
    (s1.ldesc_l_ = s.ldesc_l_ ∧ s1.stereo_ls = s.stereo_ls ∧
      ∀ row f, ¬ LineBuilt true cfg ext cam lns_l lns_r ldesc_l rl th1 th2 m row f) ∨
    ∃ row f, LineBuilt true cfg ext cam lns_l lns_r ldesc_l rl th1 th2 m row f ∧
      s1.ldesc_l_ = s.ldesc_l_ ++ [row] ∧ s1.stereo_ls = s.stereo_ls ++ [f] := by
  rcases stereoLineBody_cases _ _ _ _ _ _ _ _ _ _ _ _ h with
    e | ⟨m0, m1, L, R, ds, de, row, hg, hc, hrow, e⟩
  · refine Or.inl ⟨by rw [e], by rw [e], ?_⟩
    rintro row f ⟨m0, m1, L, R, ds, de, idx, hg, hc, hrow, _⟩
    rw [stereoLineBody_of_gates _ _ _ _ _ _ _ _ _ _ _ _ _ _ _ _ _ hg, if_pos (hc rfl), hrow,
      e] at h
    have := congrArg (fun a => a.ldesc_l_.length) (Option.some.inj h)
    simp at this
  · exact Or.inr ⟨row, _, ⟨m0, m1, L, R, ds, de, -1, hg, fun _ => hc, hrow, rfl⟩,
      by rw [e], by rw [e]⟩

theorem points_trace (cfg : Config) (ext : Extern) (fr fr2 : StereoFrame)
    (h : extractInitialStereoFeatures cfg ext fr = some fr2 ∨
      extractStereoFeatures cfg ext fr = some fr2)
    (hrun : pointBlockRuns cfg ext fr) :
    ∃ lr rl, stdSort sort_descriptor_by_queryIdx (pmatches_lr cfg ext fr) = some lr ∧
      (if cfg.bestLRMatches = true then
          stdSort sort_descriptor_by_queryIdx (pmatches_rl cfg ext fr)
        else some []) = some rl ∧
      ∃ tr : List (Nat × List DMatch × Row × PointFeature),
        fr2.pdesc_l = tr.map (fun t => t.2.2.1) ∧ fr2.stereo_pt = tr.map (fun t => t.2.2.2) ∧
        tr.Pairwise (fun t u => t.1 < u.1) ∧
        (∀ t ∈ tr, lr[t.1]? = some t.2.1 ∧
          PointBuilt cfg fr.cam (points_l cfg ext fr) (points_r cfg ext fr)
            (afterDetect cfg ext fr).pdesc_l rl t.2.1 t.2.2.1 t.2.2.2) ∧
        (∀ i m row f, lr[i]? = some m →
          PointBuilt cfg fr.cam (points_l cfg ext fr) (points_r cfg ext fr)
            (afterDetect cfg ext fr).pdesc_l rl m row f → ∃ t ∈ tr, t.1 = i) := by
  rcases h with h | h
  · rcases initial_points_loop cfg ext fr fr2 h with ⟨hc, _⟩ | ⟨_, lr, rl, acc, h1, h2, h3, e1, e2⟩
    · exact absurd hrun hc
    · obtain ⟨tr, f1, f2, rest⟩ := loopM_trace PointAcc.pdesc_l_ PointAcc.stereo_pt
        (PointBuilt cfg fr.cam (points_l cfg ext fr) (points_r cfg ext fr)
          (afterDetect cfg ext fr).pdesc_l rl) _ lr
        (fun m _ s s1 hb => initialPointBody_trace _ _ _ _ _ _ _ _ _ hb) _ _ h3
      exact ⟨lr, rl, h1, h2, tr, by rw [e2, f1]; rfl, by rw [e1, f2]; rfl, rest⟩
  · rcases stereo_points_loop cfg ext fr fr2 h with ⟨hc, _⟩ | ⟨_, lr, rl, acc, h1, h2, h3, e1, e2⟩
    · exact absurd hrun hc
    · obtain ⟨tr, f1, f2, rest⟩ := loopM_trace PointAcc.pdesc_l_ PointAcc.stereo_pt
        (PointBuilt cfg fr.cam (points_l cfg ext fr) (points_r cfg ext fr)
          (afterDetect cfg ext fr).pdesc_l rl) _ lr
        (fun m _ s s1 hb => stereoPointBody_trace _ _ _ _ _ _ _ _ _ hb) _ _ h3
      exact ⟨lr, rl, h1, h2, tr, by rw [e2, f1]; rfl, by rw [e1, f2]; rfl, rest⟩

theorem take_trace {α β : Type} (lr : List α) (n : Nat) (tr : List (Nat × α × β))
    (P : α → β → Prop)
    (hall : ∀ t ∈ tr, (lr.take n)[t.1]? = some t.2.1 ∧ P t.2.1 t.2.2)
    (hex : ∀ i a b, (lr.take n)[i]? = some a → P a b → ∃ t ∈ tr, t.1 = i) :
    (∀ t ∈ tr, t.1 < n ∧ lr[t.1]? = some t.2.1 ∧ P t.2.1 t.2.2) ∧
    (∀ i a b, i < n → lr[i]? = some a → P a b → ∃ t ∈ tr, t.1 = i) := by
  constructor
  · intro t ht
    obtain ⟨h1, h2⟩ := hall t ht
    rw [List.getElem?_take] at h1
    split_ifs at h1 with hlt
    exact ⟨hlt, h1, h2⟩
  · intro i a b hi ha hP
    exact hex i a b (by rw [List.getElem?_take, if_pos hi]; exact ha) hP

theorem lines_trace (cfg : Config) (ext : Extern) (fr fr2 : StereoFrame) (cov : Bool)
    (h : (cov = false ∧ extractInitialStereoFeatures cfg ext fr = some fr2) ∨
      (cov = true ∧ extractStereoFeatures cfg ext fr = some fr2))
    (hrun : lineBlockRuns cfg ext fr) :
    ∃ nn nn12 lr rl,
      lineDescriptorMAD (lmatches_lr cfg ext fr) ext.nn_dist_median = some (nn, nn12) ∧
      stdSort sort_descriptor_by_queryIdx (lmatches_lr cfg ext fr) = some lr ∧
      (if cfg.bestLRMatches = true then
          stdSort sort_descriptor_by_queryIdx (lmatches_rl cfg ext fr)
        else some []) = some rl ∧
      ∃ tr : List (Nat × List DMatch × Row × LineFeature),
        fr2.ldesc_l = tr.map (fun t => t.2.2.1) ∧ fr2.stereo_ls = tr.map (fun t => t.2.2.2) ∧
        tr.Pairwise (fun t u => t.1 < u.1) ∧
        (∀ t ∈ tr,
          t.1 < (if cfg.bestLRMatches = true then min lr.length rl.length else lr.length) ∧
          lr[t.1]? = some t.2.1 ∧
          LineBuilt cov cfg ext fr.cam (lines_l cfg ext fr) (lines_r cfg ext fr)
            (afterDetect cfg ext fr).ldesc_l rl (minLineLengthTh cfg fr.cam)
            (nn12 * cfg.descThL) t.2.1 t.2.2.1 t.2.2.2) ∧
        (∀ i m row f,
          i < (if cfg.bestLRMatches = true then min lr.length rl.length else lr.length) →
          lr[i]? = some m →
          LineBuilt cov cfg ext fr.cam (lines_l cfg ext fr) (lines_r cfg ext fr)
            (afterDetect cfg ext fr).ldesc_l rl (minLineLengthTh cfg fr.cam)
            (nn12 * cfg.descThL) m row f → ∃ t ∈ tr, t.1 = i) := by
  rcases h with ⟨hcov, h⟩ | ⟨hcov, h⟩
  · subst hcov
    rcases initial_lines_loop cfg ext fr fr2 h with
      ⟨hc, _⟩ | ⟨_, nn, nn12, lr, rl, acc, h0, h1, h2, h3, e1, e2⟩
    · exact absurd hrun hc
    · obtain ⟨tr, f1, f2, hp, hall, hex⟩ := loopM_trace LineAcc.ldesc_l_ LineAcc.stereo_ls
        (LineBuilt false cfg ext fr.cam (lines_l cfg ext fr) (lines_r cfg ext fr)
          (afterDetect cfg ext fr).ldesc_l rl (minLineLengthTh cfg fr.cam) (nn12 * cfg.descThL))
        _ _ (fun m _ s s1 hb => initialLineBody_trace _ _ _ _ _ _ _ _ _ _ _ _ hb) _ _ h3
      obtain ⟨k1, k2⟩ := take_trace lr _ tr (fun m (p : Row × LineFeature) =>
        LineBuilt false cfg ext fr.cam (lines_l cfg ext fr) (lines_r cfg ext fr)
          (afterDetect cfg ext fr).ldesc_l rl (minLineLengthTh cfg fr.cam) (nn12 * cfg.descThL)
          m p.1 p.2) hall (fun i a b => hex i a b.1 b.2)
      exact ⟨nn, nn12, lr, rl, h0, h1, h2, tr, by rw [e2, f1]; rfl, by rw [e1, f2]; rfl, hp, k1,
        fun i m row f => k2 i m (row, f)⟩
  · subst hcov
    rcases stereo_lines_loop cfg ext fr fr2 h with
      ⟨hc, _⟩ | ⟨_, nn, nn12, lr, rl, acc, h0, h1, h2, h3, e1, e2⟩
    · exact absurd hrun hc
    · obtain ⟨tr, f1, f2, hp, hall, hex⟩ := loopM_trace LineAcc.ldesc_l_ LineAcc.stereo_ls
        (LineBuilt true cfg ext fr.cam (lines_l cfg ext fr) (lines_r cfg ext fr)
          (afterDetect cfg ext fr).ldesc_l rl (minLineLengthTh cfg fr.cam) (nn12 * cfg.descThL))
        _ _ (fun m _ s s1 hb => stereoLineBody_trace _ _ _ _ _ _ _ _ _ _ _ _ hb) _ _ h3
      obtain ⟨k1, k2⟩ := take_trace lr _ tr (fun m (p : Row × LineFeature) =>
        LineBuilt true cfg ext fr.cam (lines_l cfg ext fr) (lines_r cfg ext fr)
          (afterDetect cfg ext fr).ldesc_l rl (minLineLengthTh cfg fr.cam) (nn12 * cfg.descThL)
          m p.1 p.2) hall (fun i a b => hex i a b.1 b.2)
      exact ⟨nn, nn12, lr, rl, h0, h1, h2, tr, by rw [e2, f1]; rfl, by rw [e1, f2]; rfl, hp, k1,
        fun i m row f => k2 i m (row, f)⟩

/-! ## Descriptor compaction -/

theorem getElem?_map_some {α β : Type} (g : α → β) (tr : List α) (k : Nat) (b : β)
    (h : (tr.map g)[k]? = some b) : ∃ t ∈ tr, tr[k]? = some t ∧ g t = b := by
  rw [List.getElem?_map] at h
  cases ht : tr[k]? with
  | none => simp [ht] at h
  | some t =>
    simp only [ht, Option.map_some', Option.some.injEq] at h
    exact ⟨t, List.getElem?_mem ht, rfl, h⟩

/-- C12: after either extraction method has run the point block, `pdesc_l` has
as many rows as `stereo_pt` has features, and for every `k` the `k`-th feature
is built from the key-points of a candidate with left query index
`m0.queryIdx` while row `k` of `pdesc_l` is row `m0.queryIdx` of the descriptor
matrix the detector returned; likewise for `ldesc_l` and `stereo_ls` after the
line block. -/
theorem descriptor_rows_follow_accepted_features (cfg : Config) (ext : Extern)
    (fr fr2 : StereoFrame)
    (h : extractInitialStereoFeatures cfg ext fr = some fr2 ∨
      extractStereoFeatures cfg ext fr = some fr2) :
    (pointBlockRuns cfg ext fr →
      fr2.pdesc_l.length = fr2.stereo_pt.length ∧
      ∀ (k : Nat) f, fr2.stereo_pt[k]? = some f →
        ∃ m ∈ pmatches_lr cfg ext fr, ∃ m0 kl kr idx row,
          m[0]? = some m0 ∧ at? (points_l cfg ext fr) m0.queryIdx = some kl ∧
          at? (points_r cfg ext fr) m0.trainIdx = some kr ∧
          f = pointFeatureOf fr.cam kl kr idx ∧
          at? (afterDetect cfg ext fr).pdesc_l m0.queryIdx = some row ∧
          fr2.pdesc_l[k]? = some row) ∧
    (lineBlockRuns cfg ext fr →
      fr2.ldesc_l.length = fr2.stereo_ls.length ∧
      ∀ (k : Nat) f, fr2.stereo_ls[k]? = some f →
        ∃ m ∈ lmatches_lr cfg ext fr, ∃ m0 L R ds de idx row,
          m[0]? = some m0 ∧ at? (lines_l cfg ext fr) m0.queryIdx = some L ∧
          at? (lines_r cfg ext fr) m0.trainIdx = some R ∧
          dispStart L R = ds ∧ dispEnd L R = de ∧
          f = lineFeatureOf ext fr.cam L ds de idx ∧
          at? (afterDetect cfg ext fr).ldesc_l m0.queryIdx = some row ∧
          fr2.ldesc_l[k]? = some row) := by
  constructor
  · intro hrun
    obtain ⟨lr, rl, h1, _, tr, e1, e2, _, hall, _⟩ := points_trace cfg ext fr fr2 h hrun
    refine ⟨by rw [e1, e2, List.length_map, List.length_map], ?_⟩
    intro k f hk
    rw [e2] at hk
    obtain ⟨t, ht, hkt, hf⟩ := getElem?_map_some _ tr k f hk
    obtain ⟨hm, m0, m1, kl, kr, idx, hg, hrow, hfe⟩ := hall t ht
    obtain ⟨g1, _, _, _, g5, g6, _, _⟩ := hg
    refine ⟨t.2.1, stdSort_mem _ _ _ h1 _ (List.getElem?_mem hm), m0, kl, kr, idx, t.2.2.1,
      g1, g5, g6, by rw [← hf, hfe], hrow, ?_⟩
    rw [e1, List.getElem?_map, hkt]
    rfl
  · intro hrun
    have key : ∃ cov, (cov = false ∧ extractInitialStereoFeatures cfg ext fr = some fr2) ∨
        (cov = true ∧ extractStereoFeatures cfg ext fr = some fr2) := by
      rcases h with h | h
      · exact ⟨false, Or.inl ⟨rfl, h⟩⟩
      · exact ⟨true, Or.inr ⟨rfl, h⟩⟩
    obtain ⟨cov, hc⟩ := key
    obtain ⟨nn, nn12, lr, rl, _, h1, _, tr, e1, e2, _, hall, _⟩ :=
      lines_trace cfg ext fr fr2 cov hc hrun
    refine ⟨by rw [e1, e2, List.length_map, List.length_map], ?_⟩
    intro k f hk
    rw [e2] at hk
    obtain ⟨t, ht, hkt, hf⟩ := getElem?_map_some _ tr k f hk
    obtain ⟨_, hm, m0, m1, L, R, ds, de, idx, hg, _, hrow, hfe⟩ := hall t ht
    obtain ⟨g1, _, _, g4, g5, _, _, _, _, _, g11, g12, _⟩ := hg
    refine ⟨t.2.1, stdSort_mem _ _ _ h1 _ (List.getElem?_mem hm), m0, L, R, ds, de, idx,
      t.2.2.1, g1, g4, g5, g11, g12, by rw [← hf, hfe], hrow, ?_⟩
    rw [e1, List.getElem?_map, hkt]
    rfl

theorem descriptor_rows_follow_accepted_features_witness :
    (extractInitialStereoFeatures exCfg exExt exFrame = some exStereo ∨
      extractStereoFeatures exCfg exExt exFrame = some exStereo) ∧
    (exStereo.pdesc_l.length = exStereo.stereo_pt.length ∧
      ∀ (k : Nat) f, exStereo.stereo_pt[k]? = some f →
        ∃ m ∈ pmatches_lr exCfg exExt exFrame, ∃ m0 kl kr idx row,
          m[0]? = some m0 ∧ at? (points_l exCfg exExt exFrame) m0.queryIdx = some kl ∧
          at? (points_r exCfg exExt exFrame) m0.trainIdx = some kr ∧
          f = pointFeatureOf exFrame.cam kl kr idx ∧
          at? (afterDetect exCfg exExt exFrame).pdesc_l m0.queryIdx = some row ∧
          exStereo.pdesc_l[k]? = some row) ∧
    (exStereo.ldesc_l.length = exStereo.stereo_ls.length ∧
      ∀ (k : Nat) f, exStereo.stereo_ls[k]? = some f →
        ∃ m ∈ lmatches_lr exCfg exExt exFrame, ∃ m0 L R ds de idx row,
          m[0]? = some m0 ∧ at? (lines_l exCfg exExt exFrame) m0.queryIdx = some L ∧
          at? (lines_r exCfg exExt exFrame) m0.trainIdx = some R ∧
          dispStart L R = ds ∧ dispEnd L R = de ∧
          f = lineFeatureOf exExt exFrame.cam L ds de idx ∧
          at? (afterDetect exCfg exExt exFrame).ldesc_l m0.queryIdx = some row ∧
          exStereo.ldesc_l[k]? = some row) :=
  ⟨Or.inr ex_stereo,
    (descriptor_rows_follow_accepted_features exCfg exExt exFrame exStereo
      (Or.inr ex_stereo)).1 ex_pointBlockRuns,
    (descriptor_rows_follow_accepted_features exCfg exExt exFrame exStereo
      (Or.inr ex_stereo)).2 ex_lineBlockRuns⟩

/-! ## A frame with more left than right detections -/

theorem ex_wide_points_l :
    points_l exCfg exWide exFrame = [⟨20, 5⟩, ⟨30, 8⟩, ⟨40, 8⟩] := by
  simp [points_l, detectFeatures, exCfg, exWide, exFrame]

theorem ex_wide_points_r : points_r exCfg exWide exFrame = [⟨10, 5⟩, ⟨29, 8⟩] := by
  simp [points_r, detectFeatures, exCfg, exWide, exFrame]

theorem ex_wide_lines_l :
    lines_l exCfg exWide exFrame
      = [⟨20, 10, 30, 20, 1, 14⟩, ⟨25, 10, 35, 20, 1, 14⟩, ⟨40, 10, 40, 30, 2, 20⟩] := by
  simp [lines_l, detectFeatures, exCfg, exWide, exFrame]

theorem ex_wide_lines_r :
    lines_r exCfg exWide exFrame = [⟨10, 10, 20, 20, 1, 14⟩, ⟨39, 10, 39, 30, 2, 20⟩] := by
  simp [lines_r, detectFeatures, exCfg, exWide, exFrame]

theorem ex_wide_lineDescriptorMAD :
    lineDescriptorMAD
        [[⟨1, 0, 5⟩, ⟨1, 1, 9⟩], [⟨2, 1, 2⟩, ⟨2, 0, 9⟩], [⟨0, 0, 1⟩, ⟨0, 1, 8⟩]] 0
      = some (7413 / 2500, 51891 / 5000) := by
  norm_num [lineDescriptorMAD, stdSort, keyed, compare_descriptor_by_NN_dist,
    compare_descriptor_by_NN12_dist, midDistance0, midGap, absDevNN, absDev12, setDistance0,
    List.insertionSort, List.orderedInsert]

theorem toNat_two : Int.toNat 2 = 2 := rfl

theorem ex_wide_initial :
    extractInitialStereoFeatures exCfg exWide exFrame = some exWideInitial := by
  simp only [extractInitialStereoFeatures, ex_wide_points_l, ex_wide_points_r, ex_wide_lines_l,
    ex_wide_lines_r]
  norm_num [initialPoints, initialLines, afterDetect, detectFeatures, minLineLengthTh, exCfg,
    exWide, exExt, exFrame, exCam, exWideInitial, lineKnnMatch, ex_wide_lineDescriptorMAD,
    stdSort, keyed, sort_descriptor_by_queryIdx, loopM, initialPointBody, initialLineBody,
    rlTrainIdx, at?, fdiv, Fl.lt, Fl.le, Fl.rsub, dispStart, dispEnd, rightLineEq, leftLineEq,
    Vector3d.cross, List.insertionSort, List.orderedInsert, toNat_two, f32sub, f32div, Fl.abs,
    Fl.div, f32_zero, f32_one, f32_ten, f32_eleven, f32_eighth, f32_two_ninths,
    f32_five_ninths]

theorem ex_wide_pointBlockRuns : pointBlockRuns exCfg exWide exFrame :=
  ⟨rfl, by rw [ex_wide_points_l]; simp, by rw [ex_wide_points_r]; simp⟩

theorem ex_wide_lineBlockRuns : lineBlockRuns exCfg exWide exFrame :=
  ⟨rfl, by rw [ex_wide_lines_l]; simp, by rw [ex_wide_lines_r]; simp⟩

theorem ex_wide_pmatches_lr :
    pmatches_lr exCfg exWide exFrame
      = [[⟨1, 0, 5⟩, ⟨1, 1, 9⟩], [⟨2, 1, 2⟩, ⟨2, 0, 9⟩], [⟨0, 0, 1⟩, ⟨0, 1, 8⟩]] := by
  simp [pmatches_lr, afterDetect, detectFeatures, exCfg, exWide, exFrame]

theorem ex_wide_lmatches_lr :
    lmatches_lr exCfg exWide exFrame
      = [[⟨1, 0, 5⟩, ⟨1, 1, 9⟩], [⟨2, 1, 2⟩, ⟨2, 0, 9⟩], [⟨0, 0, 1⟩, ⟨0, 1, 8⟩]] := by
  simp [lmatches_lr, lineKnnMatch, afterDetect, detectFeatures, exCfg, exWide, exFrame]

theorem ex_wide_lmatches_rl :
    lmatches_rl exCfg exWide exFrame = [[⟨1, 2, 2⟩, ⟨1, 0, 9⟩], [⟨0, 0, 1⟩, ⟨0, 2, 8⟩]] := by
  simp [lmatches_rl, lineKnnMatch, afterDetect, detectFeatures, exCfg, exWide, exFrame]

theorem ex_wide_onePerQuery :
    OneEntryPerQuery [[⟨1, 0, 5⟩, ⟨1, 1, 9⟩], [⟨2, 1, 2⟩, ⟨2, 0, 9⟩], [⟨0, 0, 1⟩, ⟨0, 1, 8⟩]] := by
  unfold OneEntryPerQuery
  decide

/-! ## Which candidates the loops examine -/

theorem forall₂_map_map {α β γ : Type} (tr : List α) (f : α → β) (g : α → γ)
    (R : β → γ → Prop) (h : ∀ t ∈ tr, R (f t) (g t)) :
    List.Forall₂ R (tr.map f) (tr.map g) := by
  rw [List.forall₂_map_left_iff, List.forall₂_map_right_iff, List.forall₂_same]
  exact h

theorem stdSort_length {α K : Type} [LinearOrder K] (key : α → Option K) (v w : List α)
    (h : stdSort key v = some w) : w.length = v.length :=
  (stdSort_perm key v w h).length_eq

/-- On `exWide` the candidate of the third left line sits at position `2` of
the sorted list, which is not below the number of right-to-left candidates: it
passes every test of the line loop and yet no line feature is built from it,
while the point feature of the third left key-point is accepted. -/
theorem ex_wide_third_candidates :
    extractInitialStereoFeatures exCfg exWide exFrame = some exWideInitial ∧
    (lmatches_lr exCfg exWide exFrame).length = 3 ∧
    (lmatches_rl exCfg exWide exFrame).length = 2 ∧
    stdSort sort_descriptor_by_queryIdx (lmatches_lr exCfg exWide exFrame)
      = some [[⟨0, 0, 1⟩, ⟨0, 1, 8⟩], [⟨1, 0, 5⟩, ⟨1, 1, 9⟩], [⟨2, 1, 2⟩, ⟨2, 0, 9⟩]] ∧
    LineBuilt false exCfg exWide exCam (lines_l exCfg exWide exFrame)
      (lines_r exCfg exWide exFrame) [[6], [7], [8]]
      [[⟨0, 0, 1⟩, ⟨0, 2, 8⟩], [⟨1, 2, 2⟩, ⟨1, 0, 9⟩]] (minLineLengthTh exCfg exCam)
      (51891 / 5000 * exCfg.descThL) [⟨2, 1, 2⟩, ⟨2, 0, 9⟩] [8]
      (lineFeatureOf exWide exCam ⟨40, 10, 40, 30, 2, 20⟩ (Fl.fin 1) (Fl.fin 1) 1) ∧
    (∀ f ∈ exWideInitial.stereo_ls, f.spl ≠ ⟨40, 10⟩) ∧
    pointFeatureOf exCam ⟨40, 8⟩ ⟨29, 8⟩ 1 ∈ exWideInitial.stereo_pt := by
  refine ⟨ex_wide_initial, by rw [ex_wide_lmatches_lr]; rfl, by rw [ex_wide_lmatches_rl]; rfl,
    ?_, ?_, ?_, ?_⟩
  · rw [ex_wide_lmatches_lr]
    norm_num [stdSort, keyed, sort_descriptor_by_queryIdx, List.insertionSort,
      List.orderedInsert]
  · refine ⟨⟨2, 1, 2⟩, ⟨2, 0, 9⟩, ⟨40, 10, 40, 30, 2, 20⟩, ⟨39, 10, 39, 30, 2, 20⟩, Fl.fin 1,
      Fl.fin 1, 1, ?_, by simp, by simp [at?, toNat_two], rfl⟩
    rw [ex_wide_lines_l, ex_wide_lines_r]
    norm_num [LineGates, rlTrainIdx, at?, toNat_two, exCfg, exWide, exExt, exCam,
      minLineLengthTh, dispStart, dispEnd, rightLineEq, Vector3d.cross, fdiv, Fl.rsub, Fl.le]
  · norm_num [exWideInitial]
  · norm_num [exWideInitial, pointFeatureOf, exCam, fdiv, f32sub, f32_eleven, Fl.div]

/-! ## One entry per query -/

theorem keyed_key {α K : Type} (key : α → Option K) :
    ∀ (v : List α) (kv : List (K × α)), keyed key v = some kv →
      ∀ p ∈ kv, key p.2 = some p.1 := by
  intro v
  induction v with
  | nil =>
    intro kv h p hp
    simp only [keyed, Option.some.injEq] at h
    rw [← h] at hp
    exact absurd hp (List.not_mem_nil _)
  | cons a l ih =>
    intro kv h
    unfold keyed at h
    cases hk : key a with
    | none => simp [hk] at h
    | some k =>
      cases hr : keyed key l with
      | none => simp [hk, hr] at h
      | some r =>
        simp only [hk, hr, Option.some.injEq] at h
        rw [← h]
        intro p hp
        rcases List.mem_cons.mp hp with e | hp
        · rw [e]; exact hk
        · exact ih r hr p hp

theorem pair_of_queryIdx (m : List DMatch) (a b : Int)
    (h : m.map DMatch.queryIdx = [a, b]) :
    ∃ d0 d1, m = [d0, d1] ∧ d0.queryIdx = a ∧ d1.queryIdx = b := by
  rcases m with _ | ⟨d0, _ | ⟨d1, _ | ⟨d2, tl⟩⟩⟩
  · simp at h
  · simp at h
  · simp only [List.map_cons, List.map_nil, List.cons.injEq, and_true] at h
    exact ⟨d0, d1, rfl, h.1, h.2⟩
  · simp at h

theorem range_cast_sorted (n : Nat) :
    ((List.range n).map fun (q : Nat) => (q : Int)).Sorted (fun a b => a ≤ b) := by
  rw [List.Sorted, List.pairwise_map]
  exact (List.pairwise_lt_range n).imp fun h => by exact_mod_cast h.le

theorem stdSort_entries (v lr : List (List DMatch)) (hv : OneEntryPerQuery v)
    (hs : stdSort sort_descriptor_by_queryIdx v = some lr) :
    lr.map (fun m => m.map DMatch.queryIdx) =
      (List.range v.length).map fun (q : Nat) => [(q : Int), (q : Int)] := by
  have hperm : (lr.map fun m => m.map DMatch.queryIdx).Perm
      ((List.range v.length).map fun (q : Nat) => [(q : Int), (q : Int)]) :=
    ((stdSort_perm _ v lr hs).map _).trans hv
  unfold stdSort at hs
  split_ifs at hs with hl
  · simp only [Option.some.injEq] at hs
    subst hs
    rcases v with _ | ⟨a, _ | ⟨b, tl⟩⟩
    · rfl
    · simpa using hperm
    · exact absurd hl (by simp)
  · cases hk : keyed sort_descriptor_by_queryIdx v with
    | none => simp [hk] at hs
    | some kv =>
      simp only [hk, Option.map_some', Option.some.injEq] at hs
      haveI : IsTotal (Int × List DMatch) (fun p q => p.1 ≤ q.1) :=
        ⟨fun a b => le_total a.1 b.1⟩
      haveI : IsTrans (Int × List DMatch) (fun p q => p.1 ≤ q.1) :=
        ⟨fun a b c h1 h2 => le_trans h1 h2⟩
      have hsorted := List.sorted_insertionSort (fun p q : Int × List DMatch => p.1 ≤ q.1) kv
      have hpk := List.perm_insertionSort (fun p q : Int × List DMatch => p.1 ≤ q.1) kv
      have hdup : ∀ p ∈ kv.insertionSort (fun p q => p.1 ≤ q.1),
          p.2.map DMatch.queryIdx = [p.1, p.1] := by
        intro p hp
        have hkey := keyed_key _ v kv hk p (hpk.mem_iff.mp hp)
        have hmem : p.2.map DMatch.queryIdx ∈ lr.map fun m => m.map DMatch.queryIdx := by
          rw [← hs]
          exact List.mem_map.mpr ⟨p.2, List.mem_map.mpr ⟨p, hp, rfl⟩, rfl⟩
        obtain ⟨q, _, hq⟩ := List.mem_map.mp (hperm.mem_iff.mp hmem)
        obtain ⟨d0, d1, hp2, q0, q1⟩ := pair_of_queryIdx p.2 _ _ hq.symm
        rw [hp2] at hkey
        simp only [sort_descriptor_by_queryIdx, List.getElem?_cons_zero, Option.map_some',
          Option.some.injEq] at hkey
        rw [hp2]
        simp only [List.map_cons, List.map_nil, List.cons.injEq, and_true]
        exact ⟨hkey, by rw [q1, ← q0, hkey]⟩
      have hmap : lr.map (fun m => m.map DMatch.queryIdx) =
          ((kv.insertionSort (fun p q => p.1 ≤ q.1)).map Prod.fst).map fun k => [k, k] := by
        rw [← hs, List.map_map, List.map_map]
        exact List.map_congr_left hdup
      have hfst : ((kv.insertionSort (fun p q => p.1 ≤ q.1)).map Prod.fst).Perm
          ((List.range v.length).map fun (q : Nat) => (q : Int)) := by
        have := (hmap ▸ hperm).map (fun l : List Int => l.headI)
        simpa [List.map_map, Function.comp_def] using this
      have hs1 : ((kv.insertionSort (fun p q => p.1 ≤ q.1)).map Prod.fst).Sorted
          (fun a b => a ≤ b) := by
        rw [List.Sorted, List.pairwise_map]
        exact hsorted
      rw [hmap, List.eq_of_perm_of_sorted hfst hs1 (range_cast_sorted _), List.map_map]
      rfl

theorem stdSort_entry (v lr : List (List DMatch)) (hv : OneEntryPerQuery v)
    (hs : stdSort sort_descriptor_by_queryIdx v = some lr) (i : Nat) (m : List DMatch)
    (hm : lr[i]? = some m) :
    ∃ m0 m1, m = [m0, m1] ∧ m0.queryIdx = i ∧ m1.queryIdx = i := by
  have he := stdSort_entries v lr hv hs
  have h1 : (lr.map fun m => m.map DMatch.queryIdx)[i]? = some (m.map DMatch.queryIdx) := by
    rw [List.getElem?_map, hm]; rfl
  rw [he, List.getElem?_map] at h1
  have hlt : i < v.length := by
    rw [← stdSort_length _ v lr hs]
    exact (List.getElem?_eq_some_iff.mp hm).1
  rw [List.getElem?_range hlt] at h1
  simp only [Option.map_some', Option.some.injEq] at h1
  exact pair_of_queryIdx m _ _ h1.symm

theorem rlTrainIdx_best (cfg : Config) (rl : List (List DMatch)) (q q1 t : Int)
    (hbest : cfg.bestLRMatches = true) :
    rlTrainIdx cfg rl q t = rlTrainIdx cfg rl q1 t := by
  simp [rlTrainIdx, hbest]

theorem one_to_one_of_trace {β : Type} (cfg : Config) (rl : List (List DMatch))
    (hbest : cfg.bestLRMatches = true) (tr : List (Nat × List DMatch × β))
    (hp : tr.Pairwise (fun t u => t.1 < u.1))
    (hall : ∀ t ∈ tr, ∃ m0, t.2.1[0]? = some m0 ∧ m0.queryIdx = (t.1 : Int) ∧
      rlTrainIdx cfg rl m0.queryIdx m0.trainIdx = some m0.queryIdx) :
    ((tr.map fun t => (t.2.1[0]?).getD ⟨0, 0, 0⟩).map DMatch.queryIdx).Pairwise
        (fun a b => a < b) ∧
    ((tr.map fun t => (t.2.1[0]?).getD ⟨0, 0, 0⟩).map DMatch.trainIdx).Nodup := by
  constructor
  · rw [List.map_map, List.pairwise_map]
    refine hp.imp_of_mem ?_
    intro a b ha hb hlt
    obtain ⟨a0, ha0, hqa, _⟩ := hall a ha
    obtain ⟨b0, hb0, hqb, _⟩ := hall b hb
    simp only [Function.comp_apply, ha0, hb0, Option.getD_some, hqa, hqb]
    exact_mod_cast hlt
  · rw [List.map_map]
    unfold List.Nodup
    rw [List.pairwise_map]
    refine hp.imp_of_mem ?_
    intro a b ha hb hlt
    obtain ⟨a0, ha0, hqa, hra⟩ := hall a ha
    obtain ⟨b0, hb0, hqb, hrb⟩ := hall b hb
    simp only [Function.comp_apply, ha0, hb0, Option.getD_some]
    intro heq
    rw [heq, rlTrainIdx_best cfg rl a0.queryIdx b0.queryIdx b0.trainIdx hbest, hrb] at hra
    have e : b0.queryIdx = a0.queryIdx := Option.some.inj hra
    rw [hqa, hqb] at e
    have : b.1 = a.1 := by exact_mod_cast e
    omega

/-- C17: with `Config::bestLRMatches()` enabled and the left-to-right matcher
returning exactly one two-neighbour entry per query, entry `i` of the sorted
left-to-right list carries query index `i`, and the features accepted by
either extraction method are built, in order, from best matches `ms` with
strictly increasing left (query) indices and pairwise distinct right (train)
indices; for points and for lines alike.  Nothing is required of the
right-to-left list. -/
theorem accepted_matches_are_one_to_one (cfg : Config) (ext : Extern)
    (fr fr2 : StereoFrame) (hbest : cfg.bestLRMatches = true)
    (h : extractInitialStereoFeatures cfg ext fr = some fr2 ∨
      extractStereoFeatures cfg ext fr = some fr2) :
    (pointBlockRuns cfg ext fr → OneEntryPerQuery (pmatches_lr cfg ext fr) →
      (∃ lr, stdSort sort_descriptor_by_queryIdx (pmatches_lr cfg ext fr) = some lr ∧
        ∀ (i : Nat) m, lr[i]? = some m →
          ∃ m0 m1, m = [m0, m1] ∧ m0.queryIdx = i ∧ m1.queryIdx = i) ∧
      ∃ ms : List DMatch,
        List.Forall₂ (fun m0 f => (∃ m ∈ pmatches_lr cfg ext fr, m[0]? = some m0) ∧
          ∃ kl kr idx, at? (points_l cfg ext fr) m0.queryIdx = some kl ∧
            at? (points_r cfg ext fr) m0.trainIdx = some kr ∧
            f = pointFeatureOf fr.cam kl kr idx) ms fr2.stereo_pt ∧
        (ms.map DMatch.queryIdx).Pairwise (fun a b => a < b) ∧
        (ms.map DMatch.trainIdx).Nodup) ∧
    (lineBlockRuns cfg ext fr → OneEntryPerQuery (lmatches_lr cfg ext fr) →
      (∃ lr, stdSort sort_descriptor_by_queryIdx (lmatches_lr cfg ext fr) = some lr ∧
        ∀ (i : Nat) m, lr[i]? = some m →
          ∃ m0 m1, m = [m0, m1] ∧ m0.queryIdx = i ∧ m1.queryIdx = i) ∧
      ∃ ms : List DMatch,
        List.Forall₂ (fun m0 f => (∃ m ∈ lmatches_lr cfg ext fr, m[0]? = some m0) ∧
          ∃ L R ds de idx, at? (lines_l cfg ext fr) m0.queryIdx = some L ∧
            at? (lines_r cfg ext fr) m0.trainIdx = some R ∧
            dispStart L R = ds ∧ dispEnd L R = de ∧
            f = lineFeatureOf ext fr.cam L ds de idx) ms fr2.stereo_ls ∧
        (ms.map DMatch.queryIdx).Pairwise (fun a b => a < b) ∧
        (ms.map DMatch.trainIdx).Nodup) := by
  constructor
  · intro hrun hone
    obtain ⟨lr, rl, h1, _, tr, _, e2, hp, hall, _⟩ := points_trace cfg ext fr fr2 h hrun
    refine ⟨⟨lr, h1, fun i m hm => stdSort_entry _ lr hone h1 i m hm⟩, ?_⟩
    have key : ∀ t ∈ tr, ∃ m0, t.2.1[0]? = some m0 ∧ m0.queryIdx = (t.1 : Int) ∧
        rlTrainIdx cfg rl m0.queryIdx m0.trainIdx = some m0.queryIdx := by
      intro t ht
      obtain ⟨hm, m0, m1, kl, kr, idx, hg, _, _⟩ := hall t ht
      obtain ⟨d0, d1, hd, hq, _⟩ := stdSort_entry _ lr hone h1 t.1 t.2.1 hm
      have g1 := hg.1
      rw [hd] at g1
      simp only [List.getElem?_cons_zero, Option.some.injEq] at g1
      exact ⟨m0, hg.1, by rw [← g1]; exact hq, hg.2.2.1⟩
    obtain ⟨k1, k2⟩ := one_to_one_of_trace cfg rl hbest tr hp key
    refine ⟨tr.map fun t => (t.2.1[0]?).getD ⟨0, 0, 0⟩, ?_, k1, k2⟩
    rw [e2]
    refine forall₂_map_map tr _ _ _ ?_
    intro t ht
    obtain ⟨hm, m0, m1, kl, kr, idx, hg, _, hf⟩ := hall t ht
    obtain ⟨g1, _, _, _, g5, g6, _, _⟩ := hg
    simp only [g1, Option.getD_some]
    exact ⟨⟨t.2.1, stdSort_mem _ _ _ h1 _ (List.getElem?_mem hm), g1⟩, kl, kr, idx, g5, g6, hf⟩
  · intro hrun hone
    have hcov : ∃ cov, (cov = false ∧ extractInitialStereoFeatures cfg ext fr = some fr2) ∨
        (cov = true ∧ extractStereoFeatures cfg ext fr = some fr2) := by
      rcases h with h | h
      · exact ⟨false, Or.inl ⟨rfl, h⟩⟩
      · exact ⟨true, Or.inr ⟨rfl, h⟩⟩
    obtain ⟨cov, hc⟩ := hcov
    obtain ⟨nn, nn12, lr, rl, _, h1, _, tr, _, e2, hp, hall, _⟩ :=
      lines_trace cfg ext fr fr2 cov hc hrun
    refine ⟨⟨lr, h1, fun i m hm => stdSort_entry _ lr hone h1 i m hm⟩, ?_⟩
    have key : ∀ t ∈ tr, ∃ m0, t.2.1[0]? = some m0 ∧ m0.queryIdx = (t.1 : Int) ∧
        rlTrainIdx cfg rl m0.queryIdx m0.trainIdx = some m0.queryIdx := by
      intro t ht
      obtain ⟨_, hm, m0, m1, L, R, ds, de, idx, hg, _, _, _⟩ := hall t ht
      obtain ⟨d0, d1, hd, hq, _⟩ := stdSort_entry _ lr hone h1 t.1 t.2.1 hm
      have g1 := hg.1
      rw [hd] at g1
      simp only [List.getElem?_cons_zero, Option.some.injEq] at g1
      exact ⟨m0, hg.1, by rw [← g1]; exact hq, hg.2.2.1⟩
    obtain ⟨k1, k2⟩ := one_to_one_of_trace cfg rl hbest tr hp key
    refine ⟨tr.map fun t => (t.2.1[0]?).getD ⟨0, 0, 0⟩, ?_, k1, k2⟩
    rw [e2]
    refine forall₂_map_map tr _ _ _ ?_
    intro t ht
    obtain ⟨_, hm, m0, m1, L, R, ds, de, idx, hg, _, _, hf⟩ := hall t ht
    obtain ⟨g1, _, _, g4, g5, _, _, _, _, _, g11, g12, _⟩ := hg
    simp only [g1, Option.getD_some]
    exact ⟨⟨t.2.1, stdSort_mem _ _ _ h1 _ (List.getElem?_mem hm), g1⟩, L, R, ds, de, idx, g4, g5,
      g11, g12, hf⟩

theorem accepted_matches_are_one_to_one_witness :
    exCfg.bestLRMatches = true ∧
    (extractInitialStereoFeatures exCfg exWide exFrame = some exWideInitial ∨
      extractStereoFeatures exCfg exWide exFrame = some exWideInitial) ∧
    ((∃ lr, stdSort sort_descriptor_by_queryIdx (pmatches_lr exCfg exWide exFrame) = some lr ∧
        ∀ (i : Nat) m, lr[i]? = some m →
          ∃ m0 m1, m = [m0, m1] ∧ m0.queryIdx = i ∧ m1.queryIdx = i) ∧
      ∃ ms : List DMatch,
        List.Forall₂ (fun m0 f => (∃ m ∈ pmatches_lr exCfg exWide exFrame, m[0]? = some m0) ∧
          ∃ kl kr idx, at? (points_l exCfg exWide exFrame) m0.queryIdx = some kl ∧
            at? (points_r exCfg exWide exFrame) m0.trainIdx = some kr ∧
            f = pointFeatureOf exFrame.cam kl kr idx) ms exWideInitial.stereo_pt ∧
        (ms.map DMatch.queryIdx).Pairwise (fun a b => a < b) ∧
        (ms.map DMatch.trainIdx).Nodup) ∧
    ((∃ lr, stdSort sort_descriptor_by_queryIdx (lmatches_lr exCfg exWide exFrame) = some lr ∧
        ∀ (i : Nat) m, lr[i]? = some m →
          ∃ m0 m1, m = [m0, m1] ∧ m0.queryIdx = i ∧ m1.queryIdx = i) ∧
      ∃ ms : List DMatch,
        List.Forall₂ (fun m0 f => (∃ m ∈ lmatches_lr exCfg exWide exFrame, m[0]? = some m0) ∧
          ∃ L R ds de idx, at? (lines_l exCfg exWide exFrame) m0.queryIdx = some L ∧
            at? (lines_r exCfg exWide exFrame) m0.trainIdx = some R ∧
            dispStart L R = ds ∧ dispEnd L R = de ∧
            f = lineFeatureOf exWide exFrame.cam L ds de idx) ms exWideInitial.stereo_ls ∧
        (ms.map DMatch.queryIdx).Pairwise (fun a b => a < b) ∧
        (ms.map DMatch.trainIdx).Nodup) :=
  ⟨rfl, Or.inl ex_wide_initial,
    (accepted_matches_are_one_to_one exCfg exWide exFrame exWideInitial rfl
      (Or.inl ex_wide_initial)).1 ex_wide_pointBlockRuns
      (by rw [ex_wide_pmatches_lr]; exact ex_wide_onePerQuery),
    (accepted_matches_are_one_to_one exCfg exWide exFrame exWideInitial rfl
      (Or.inl ex_wide_initial)).2 ex_wide_lineBlockRuns
      (by rw [ex_wide_lmatches_lr]; exact ex_wide_onePerQuery)⟩

end StVO
